import Mathlib

/-!
# Groom curve cache evaluation (blenkernel/intern/groom.c)

A shallow embedding of the curve-cache evaluation of `groom.c`.

* C `float` scalars are an arbitrary type `F` carrying the arithmetic
  operations the code uses.  Definitions assume no law about them.  Theorems
  that depend on arithmetic identities are stated over a `Field F` (exact
  arithmetic); theorems that hold for any arithmetic say so by keeping `F`
  unconstrained.  `Binary32` instantiates `F` with the rounded arithmetic of
  the C type, and shows where the exact statements fail in the program.
* C `int` counts and indices (`totsections`, `totcache`, `curve_res`) are
  natural numbers; an index that the code may form below zero is an `Int`.
  The `int` products that size and address the cache, `(totsections-1) *
  curve_res + 1` and `curve_res * isection`, are checked against `INT_MAX`:
  signed overflow is undefined behaviour, and the operation returns `none`.
* A heap buffer is a `List`; a read or a write outside the buffer makes the
  operation return `none`.
* A flag word is the natural number of its bits.
-/

namespace Blender

/-! ## Data model (DNA_groom_types.h) -/

/-- A C array `float v[3]`. -/
abbrev V3 (F : Type) := Fin 3 → F

/-- A C array `float m[3][3]`; `m i` is the row `m[i]`. -/
abbrev M3 (F : Type) := Fin 3 → Fin 3 → F

/-- Vertex in a closed curve for a bundle section. -/
structure GroomSectionVertex (F : Type) where
  flag : Int
  co : Fin 2 → F

/-- Cross-section of a bundle. -/
structure GroomSection (F : Type) where
  flag : Int
  center : V3 F
  mat : M3 F

/-- Single interpolated step along a groom curve. -/
structure GroomCurveCache (F : Type) where
  co : V3 F
  mat : M3 F

/-- Bundle of hair strands following the same curve path.  The pointer
`curve_cache` is `none` when it is NULL. -/
structure GroomBundle (F : Type) where
  flag : Int
  numloopverts : Int
  totsections : Nat
  totverts : Int
  totcache : Nat
  sections : List (GroomSection F)
  verts : List (GroomSectionVertex F)
  curve_cache : Option (List (GroomCurveCache F))

/-- Editable groom data. -/
structure EditGroom (F : Type) where
  bundles : List (GroomBundle F)

/-- Bounding box of DNA_object_types.h: eight corners and a flag word. -/
structure BoundBox (F : Type) where
  vec : Fin 8 → V3 F
  flag : Nat

/-- Groom curves for creating hair styles. -/
structure Groom (F : Type) where
  curve_res : Nat
  bb : Option (BoundBox F)
  bundles : List (GroomBundle F)
  editgroom : Option (EditGroom F)

/-! ## C `int` arithmetic -/

/-- The largest value of a C `int` (32 bits, two's complement). -/
def INT_MAX : Nat := 2147483647

/-- The value of an `int` expression over non-negative operands whose
mathematical value is `x`: it is `x` when `x` is representable; a signed
overflow is undefined behaviour, rendered as `none`. -/
def int_value (x : Nat) : Option Nat :=
  if x ≤ INT_MAX then some x else none

section Ops

variable {F : Type}

/-! ## Buffer access -/

/-- The assignment `cache[p].co[k] = v`. -/
def writeCo (cache : List (GroomCurveCache F)) (p : Nat) (k : Fin 3) (v : F) :
    Option (List (GroomCurveCache F)) :=
  match cache[p]? with
  | some c => some (cache.set p { c with co := Function.update c.co k v })
  | none => none

/-- The assignment `cache[p].mat = m` (`copy_m3_m3` into a cache element). -/
def writeMat (cache : List (GroomCurveCache F)) (p : Nat) (m : M3 F) :
    Option (List (GroomCurveCache F)) :=
  match cache[p]? with
  | some c => some (cache.set p { c with mat := m })
  | none => none

/-- The read `sections[i].center[k]`, for an index formed by pointer arithmetic. -/
def readCenter (sections : List (GroomSection F)) (i : Int) (k : Fin 3) : Option F :=
  if 0 ≤ i then (sections[i.toNat]?).map (fun s => s.center k) else none

/-- The read `cache[i]`, for an index formed by pointer arithmetic. -/
def readCache (cache : List (GroomCurveCache F)) (i : Int) : Option (GroomCurveCache F) :=
  if 0 ≤ i then cache[i.toNat]? else none

variable [Zero F] [One F] [Add F] [Sub F] [Mul F] [Div F] [Neg F] [NatCast F]

/-! ## Vector helpers of BLI_math -/

/-- Modelled from the spec: `sub_v3_v3v3` of BLI_math (not under src/), the
componentwise difference `a - b` used for `dx = (c1-c0)/R`. -/
def sub_v3_v3v3 (a b : V3 F) : V3 F := fun k => a k - b k

/-- Modelled from the spec: `mul_v3_fl` of BLI_math (not under src/), the
componentwise product of a vector with a scalar. -/
def mul_v3_fl (a : V3 F) (f : F) : V3 F := fun k => a k * f

/-- Modelled from the spec: `add_v3_v3` of BLI_math (not under src/), the
componentwise sum used to advance a sample by `dx`. -/
def add_v3_v3 (a b : V3 F) : V3 F := fun k => a k + b k

/-- Modelled from the spec: `unit_m3` of BLI_math (not under src/), the
identity matrix. -/
def unit_m3 : M3 F := fun i j => if i = j then 1 else 0

/-! ## Spline sampler -/

/-- The loop of `groom_forward_diff_cubic`: `n` iterations remain, the
pointer `p` stands at cache element `p`, axis `k`. -/
def groom_forward_diff_cubic_loop (q3 : F) (k : Fin 3) :
    Nat → F → F → F → Nat → List (GroomCurveCache F) → Option (List (GroomCurveCache F))
  | 0, _, _, _, _, cache => some cache
  | n + 1, q0, q1, q2, p, cache =>
    match writeCo cache p k q0 with
    | some cache1 => groom_forward_diff_cubic_loop q3 k n (q0 + q1) (q1 + q2) (q2 + q3) (p + 1) cache1
    | none => none

/-- Forward differencing method for cubic polynomial eval.  The pointer `p`
with stride `sizeof(GroomCurveCache)` is the pair of a cache index and an axis. -/
def groom_forward_diff_cubic (a b c d : F) (p : Nat) (k : Fin 3) (it : Nat)
    (cache : List (GroomCurveCache F)) : Option (List (GroomCurveCache F)) :=
  let f : F := (it : F)
  let a := a * (1 / (f * f * f))
  let b := b * (1 / (f * f))
  let c := c * (1 / f)
  let q0 := d
  let q1 := a + b + c
  let q2 := 6 * a + 2 * b
  let q3 := 6 * a
  groom_forward_diff_cubic_loop q3 k (it + 1) q0 q1 q2 p cache

/-- Linear bspline section eval: the loop `for (i = 0; i <= curve_res; ++i, ++cache)`,
`n` iterations remaining, writing `x` to `cache[p].co` and advancing by `dx`. -/
def groom_eval_curve_cache_section_linear_loop (dx : V3 F) :
    Nat → V3 F → Nat → List (GroomCurveCache F) → Option (List (GroomCurveCache F))
  | 0, _, _, cache => some cache
  | n + 1, x, p, cache =>
    match cache[p]? with
    | some c =>
      groom_eval_curve_cache_section_linear_loop dx n (add_v3_v3 x dx) (p + 1)
        (cache.set p { c with co := x })
    | none => none

/-- Linear bspline section eval. -/
def groom_eval_curve_cache_section_linear (bundle : GroomBundle F) (isection curve_res : Nat) :
    Option (GroomBundle F) := do
  let section0 ← bundle.sections[isection]?
  let section1 ← bundle.sections[isection + 1]?
  let co0 := section0.center
  let co1 := section1.center
  let dx := mul_v3_fl (sub_v3_v3v3 co1 co0) (1 / (curve_res : F))
  let offset ← int_value (curve_res * isection)
  let cache ← bundle.curve_cache
  let cache1 ← groom_eval_curve_cache_section_linear_loop dx (curve_res + 1) co0 offset cache
  some { bundle with curve_cache := some cache1 }

/-- The tangents `(n1, n2)` that `groom_eval_curve_cache_section_cubic` defines
from the segment direction on axis `k`.  `co0 .. co3` are the centers of the
sections `isection - 1 .. isection + 2`; each is read only in the branch that
uses it. -/
def cubic_tangents (sections : List (GroomSection F)) (totsections isection : Nat) (k : Fin 3) :
    Option (F × F) :=
  let co0 := readCenter sections ((isection : Int) - 1) k
  let co1 := readCenter sections (isection : Int) k
  let co2 := readCenter sections ((isection : Int) + 1) k
  let co3 := readCenter sections ((isection : Int) + 2) k
  if isection = 0 then do
    let c1 ← co1
    let c2 ← co2
    let c3 ← co3
    some (c2 - c1, (1 / 2) * (c3 - c1))
  else if (isection : Int) = (totsections : Int) - 2 then do
    let c0 ← co0
    let c1 ← co1
    let c2 ← co2
    some ((1 / 2) * (c2 - c0), c2 - c1)
  else do
    let c0 ← co0
    let c1 ← co1
    let c2 ← co2
    let c3 ← co3
    some ((1 / 2) * (c2 - c0), (1 / 2) * (c3 - c1))

/-- Hermite spline interpolation: the coefficients `(a, b, c, d)` computed from
the segment ends `co1[k]`, `co2[k]` and the tangents `n1`, `n2`. -/
def hermite_coeffs (c1 c2 n1 n2 : F) : F × F × F × F :=
  (2 * (c1 - c2) + n1 + n2, 3 * (c2 - c1) - 2 * n1 - n2, n1, c1)

/-- The coefficients `(a, b, c, d)` of segment `isection` on axis `k`. -/
def cubic_coeffs (sections : List (GroomSection F)) (totsections isection : Nat) (k : Fin 3) :
    Option (F × F × F × F) := do
  let n ← cubic_tangents sections totsections isection k
  let c1 ← readCenter sections (isection : Int) k
  let c2 ← readCenter sections ((isection : Int) + 1) k
  some (hermite_coeffs c1 c2 n.1 n.2)

/-- One iteration of the loop `for (k = 0; k < 3; ++k)` of
`groom_eval_curve_cache_section_cubic`; `offset` is the cache element that
`cache = bundle->curve_cache + curve_res * isection` points to. -/
def groom_eval_curve_cache_section_cubic_axis (sections : List (GroomSection F))
    (totsections isection curve_res offset : Nat) (k : Fin 3)
    (cache : List (GroomCurveCache F)) : Option (List (GroomCurveCache F)) := do
  let abcd ← cubic_coeffs sections totsections isection k
  groom_forward_diff_cubic abcd.1 abcd.2.1 abcd.2.2.1 abcd.2.2.2 offset k curve_res cache

/-- Cubic bspline section eval. -/
def groom_eval_curve_cache_section_cubic (bundle : GroomBundle F) (isection curve_res : Nat) :
    Option (GroomBundle F) := do
  let offset ← int_value (curve_res * isection)
  let cache ← bundle.curve_cache
  let cache0 ← groom_eval_curve_cache_section_cubic_axis bundle.sections bundle.totsections
    isection curve_res offset 0 cache
  let cache1 ← groom_eval_curve_cache_section_cubic_axis bundle.sections bundle.totsections
    isection curve_res offset 1 cache0
  let cache2 ← groom_eval_curve_cache_section_cubic_axis bundle.sections bundle.totsections
    isection curve_res offset 2 cache1
  some { bundle with curve_cache := some cache2 }

/-! ## Frame propagator -/

/-- The helpers of BLI_math (not under src/) that build the frames:
`normalize_v3` (also `normalize_v3_v3`), `rotation_between_vecs_to_mat3` and
`mul_m3_m3m3`, taken as parameters. -/
structure BLIMath (F : Type) where
  normalize_v3 : V3 F → V3 F
  rotation_between_vecs_to_mat3 : V3 F → V3 F → M3 F
  mul_m3_m3m3 : M3 F → M3 F → M3 F

/-- The frame `mat` that `groom_eval_curve_step` writes. -/
def groom_eval_curve_step (bli : BLIMath F) (mat_prev : M3 F) (co0 co1 : V3 F) : M3 F :=
  let dir := bli.normalize_v3 (sub_v3_v3v3 co1 co0)
  let dir_prev := bli.normalize_v3 (mat_prev 2)
  let rot := bli.rotation_between_vecs_to_mat3 dir_prev dir
  bli.mul_m3_m3m3 rot mat_prev

/-- The loop `for (i = 1; i < totcache - 1; ++i)` of `groom_eval_curve_cache_mats`:
`n` iterations remaining, the pointer `cache` standing at element `p`. -/
def groom_eval_curve_cache_mats_loop (bli : BLIMath F) :
    Nat → Nat → List (GroomCurveCache F) → Option (List (GroomCurveCache F))
  | 0, _, cache => some cache
  | n + 1, p, cache =>
    match readCache cache ((p : Int) - 1), cache[p + 1]? with
    | some prev, some next =>
      match writeMat cache p (groom_eval_curve_step bli prev.mat next.co prev.co) with
      | some cache1 => groom_eval_curve_cache_mats_loop bli n (p + 1) cache1
      | none => none
    | _, _ => none

/-- Frames of all cache samples, from the base frame `basemat`. -/
def groom_eval_curve_cache_mats (bli : BLIMath F) (cache : List (GroomCurveCache F))
    (totcache : Nat) (basemat : M3 F) : Option (List (GroomCurveCache F)) :=
  if totcache = 1 then
    writeMat cache 0 basemat
  else do
    let c0 ← cache[0]?
    let c1 ← cache[1]?
    let cache1 ← writeMat cache 0 (groom_eval_curve_step bli basemat c1.co c0.co)
    let cache2 ← groom_eval_curve_cache_mats_loop bli (totcache - 2) 1 cache1
    let p := 1 + (totcache - 2)
    let last ← cache2[p]?
    let prev ← readCache cache2 ((p : Int) - 1)
    writeMat cache2 p (groom_eval_curve_step bli prev.mat last.co prev.co)

/-! ## Cache lifecycle -/

/-- Modelled from the spec: `MEM_reallocN_id` of MEM_guardedalloc (not under
src/), which resizes the cache to the invariant size: the buffer gets `n`
elements, the old elements are kept up to the smaller length and the elements
beyond them are uninitialised memory, whose contents are `fresh`. -/
def MEM_reallocN_id (old : Option (List (GroomCurveCache F))) (n : Nat)
    (fresh : Nat → GroomCurveCache F) : List (GroomCurveCache F) :=
  (List.range n).map fun i => ((old.getD [])[i]?).getD (fresh i)

/-- The loop `for (i = 0; i < totsections-1; ++i, ++section)` over the cubic
segments: `n` iterations remaining, standing at segment `i`. -/
def groom_eval_curve_cache_cubic_loop (curve_res : Nat) :
    Nat → Nat → GroomBundle F → Option (GroomBundle F)
  | 0, _, bundle => some bundle
  | n + 1, i, bundle =>
    match groom_eval_curve_cache_section_cubic bundle i curve_res with
    | some bundle1 => groom_eval_curve_cache_cubic_loop curve_res n (i + 1) bundle1
    | none => none

/-- Copy coordinate frame to sections: the loop
`for (i = 0; i < totsections; ++i, ++section, cache += groom->curve_res)`,
`n` iterations remaining, `section` standing at `i` and `cache` at `p`. -/
def copy_frames_loop (curve_res : Nat) (cache : List (GroomCurveCache F)) :
    Nat → Nat → Nat → List (GroomSection F) → Option (List (GroomSection F))
  | 0, _, _, sections => some sections
  | n + 1, i, p, sections =>
    match cache[p]?, sections[i]? with
    | some c, some s =>
      copy_frames_loop curve_res cache n (i + 1) (p + curve_res)
        (sections.set i { s with mat := c.mat })
    | _, _ => none

/-- The sampling of one bundle with at least one section: the chain
`if (totsections == 1) .. else if (totsections == 2) .. else ..` of
`BKE_groom_eval_curve_cache`. -/
def groom_eval_bundle_sample (curve_res : Nat) (bundle : GroomBundle F) :
    Option (GroomBundle F) :=
  if bundle.totsections = 1 then do
    -- degenerate case
    let cache ← bundle.curve_cache
    let c ← cache[0]?
    let s ← bundle.sections[0]?
    some { bundle with curve_cache := some (cache.set 0 { c with co := s.center }) }
  else if bundle.totsections = 2 then
    -- single section, linear
    groom_eval_curve_cache_section_linear bundle 0 curve_res
  else
    -- cubic splines
    groom_eval_curve_cache_cubic_loop curve_res (bundle.totsections - 1) 0 bundle

/-- The body of the loop over bundles of `BKE_groom_eval_curve_cache`.  The
size `(totsections-1) * groom->curve_res + 1` is an `int` expression: it is
checked as a whole, since the product is representable whenever the sum is. -/
def groom_eval_bundle (bli : BLIMath F) (curve_res : Nat) (fresh : Nat → GroomCurveCache F)
    (bundle : GroomBundle F) : Option (GroomBundle F) :=
  let totsections := bundle.totsections
  if totsections = 0 then
    -- clear cache
    match bundle.curve_cache with
    | some _ => some { bundle with curve_cache := none, totcache := 0 }
    | none => some bundle
  else do
    let totcache ← int_value ((totsections - 1) * curve_res + 1)
    let bundle := { bundle with totcache := totcache }
    let bundle :=
      { bundle with curve_cache := some (MEM_reallocN_id bundle.curve_cache bundle.totcache fresh) }
    let bundle ← groom_eval_bundle_sample curve_res bundle
    let cache ← bundle.curve_cache
    let cache1 ← groom_eval_curve_cache_mats bli cache bundle.totcache unit_m3
    let bundle := { bundle with curve_cache := some cache1 }
    -- Copy coordinate frame to sections
    let sections ← copy_frames_loop curve_res cache1 totsections 0 0 bundle.sections
    some { bundle with sections := sections }

/-- The loop `for (bundle = bundles->first; bundle; bundle = bundle->next)`;
`j` is the position of the first bundle of `bundles` in the whole list and
`fresh j` the uninitialised memory its reallocation may return. -/
def groom_eval_bundles (bli : BLIMath F) (curve_res : Nat)
    (fresh : Nat → Nat → GroomCurveCache F) :
    Nat → List (GroomBundle F) → Option (List (GroomBundle F))
  | _, [] => some []
  | j, bundle :: rest =>
    match groom_eval_bundle bli curve_res (fresh j) bundle with
    | some bundle1 =>
      match groom_eval_bundles bli curve_res fresh (j + 1) rest with
      | some rest1 => some (bundle1 :: rest1)
      | none => none
    | none => none

/-- The list `BKE_groom_eval_curve_cache` works on:
`groom->editgroom ? &groom->editgroom->bundles : &groom->bundles`. -/
def live_bundles (groom : Groom F) : List (GroomBundle F) :=
  match groom.editgroom with
  | some edit => edit.bundles
  | none => groom.bundles

/-- Evaluation of the curve cache of every bundle of the live list. -/
def BKE_groom_eval_curve_cache (bli : BLIMath F) (fresh : Nat → Nat → GroomCurveCache F)
    (groom : Groom F) : Option (Groom F) :=
  match groom.editgroom with
  | some edit =>
    match groom_eval_bundles bli groom.curve_res fresh 0 edit.bundles with
    | some bundles => some { groom with editgroom := some { edit with bundles := bundles } }
    | none => none
  | none =>
    match groom_eval_bundles bli groom.curve_res fresh 0 groom.bundles with
    | some bundles => some { groom with bundles := bundles }
    | none => none

/-- The loop of `groom_bundles_curve_cache_clear`: a bundle with a cache
buffer loses it and gets `totcache = 0`, a bundle without one is left as it is. -/
def groom_bundles_curve_cache_clear (bundles : List (GroomBundle F)) : List (GroomBundle F) :=
  bundles.map fun bundle =>
    match bundle.curve_cache with
    | some _ => { bundle with curve_cache := none, totcache := 0 }
    | none => bundle

/-- Clearing of the curve caches: the base bundles first, then the bundles of
`groom->editgroom` when it is there. -/
def BKE_groom_clear_curve_cache (groom : Groom F) : Groom F :=
  let groom := { groom with bundles := groom_bundles_curve_cache_clear groom.bundles }
  match groom.editgroom with
  | some edit =>
    { groom with
      editgroom := some { edit with bundles := groom_bundles_curve_cache_clear edit.bundles } }
  | none => groom

/-! ## Bounding box -/

/-- What `BKE_groom_boundbox_calc` uses from outside src/: the vectors that the
macro `INIT_MINMAX` assigns to `min` and `max`, the helper
`BKE_boundbox_init_from_minmax` and the flag bit `BOUNDBOX_DIRTY`, taken as
parameters. -/
structure BoundBoxEnv (F : Type) where
  init_min : V3 F
  init_max : V3 F
  BKE_boundbox_init_from_minmax : BoundBox F → V3 F → V3 F → BoundBox F
  BOUNDBOX_DIRTY : Nat

/-- The stub `BKE_groom_minmax` (`// TODO`): it leaves `min` and `max` as they
are and returns `true`.  The result is the returned flag with `min` and `max`. -/
def BKE_groom_minmax (_groom : Groom F) (min max : V3 F) : Bool × V3 F × V3 F :=
  (true, min, max)

/-- Modelled from the spec: `mid_v3_v3v3` of BLI_math (not under src/), the
center of the extent, half the sum of `min` and `max`. -/
def mid_v3_v3v3 (a b : V3 F) : V3 F := fun k => (1 / 2) * (a k + b k)

/-- The result of `BKE_groom_boundbox_calc`: the asset with its box, `r_loc`
and `r_size`.  A missing box is allocated zeroed (`MEM_callocN`); the flag
`int`, never negative, loses the bit `BOUNDBOX_DIRTY` (`flag &= ~BOUNDBOX_DIRTY`). -/
def BKE_groom_boundbox_calc (env : BoundBoxEnv F) (groom : Groom F) : Groom F × V3 F × V3 F :=
  let bb : BoundBox F :=
    match groom.bb with
    | some bb => bb
    | none => { vec := fun _ _ => 0, flag := 0 }
  let r := BKE_groom_minmax groom env.init_min env.init_max
  let minmax : V3 F × V3 F :=
    if !r.1 then (fun _ => -1, fun _ => 1) else (r.2.1, r.2.2)
  let min := minmax.1
  let max := minmax.2
  let r_loc := mid_v3_v3v3 min max
  let r_size : V3 F := fun k => (max k - min k) / 2
  let bb1 := env.BKE_boundbox_init_from_minmax bb min max
  let bb2 := { bb1 with flag := Nat.ldiff bb1.flag env.BOUNDBOX_DIRTY }
  ({ groom with bb := some bb2 }, r_loc, r_size)

/-- The asset after `BKE_groom_eval_geometry` (the debug print is left out):
the box is computed when it is missing or flagged dirty. -/
def BKE_groom_eval_geometry (env : BoundBoxEnv F) (groom : Groom F) : Groom F :=
  match groom.bb with
  | none => (BKE_groom_boundbox_calc env groom).1
  | some bb =>
    if bb.flag &&& env.BOUNDBOX_DIRTY ≠ 0 then (BKE_groom_boundbox_calc env groom).1
    else groom

/-! ## Closed forms used to state the results -/

/-- The registers `(q0, q1, q2)` of `groom_forward_diff_cubic` after `j`
iterations of its loop, started from `s`. -/
def fd_state (q3 : F) : Nat → F × F × F → F × F × F
  | 0, s => s
  | j + 1, s => fd_state q3 j (s.1 + s.2.1, s.2.1 + s.2.2, s.2.2 + q3)

/-- The value that `groom_forward_diff_cubic a b c d p it stride` writes at its
step `j`: the register `q0` after `j` iterations. -/
def fd_value (a b c d : F) (it j : Nat) : F :=
  let f : F := (it : F)
  let a := a * (1 / (f * f * f))
  let b := b * (1 / (f * f))
  let c := c * (1 / f)
  (fd_state (6 * a) j (d, a + b + c, 6 * a + 2 * b)).1

/-- The vector `x` of `groom_eval_curve_cache_section_linear` after `j`
iterations of its loop, started from `x`. -/
def linear_state (dx : V3 F) : Nat → V3 F → V3 F
  | 0, x => x
  | j + 1, x => linear_state dx j (add_v3_v3 x dx)

/-- The tangents `(n1, n2)` of segment `i` on axis `k`, written on the
centers `ctr` of a bundle of `N` sections: the three branches of
`groom_eval_curve_cache_section_cubic`. -/
def tangents_of (ctr : Nat → V3 F) (N i : Nat) (k : Fin 3) : F × F :=
  if i = 0 then
    (ctr (i + 1) k - ctr i k, (1 / 2) * (ctr (i + 2) k - ctr i k))
  else if (i : Int) = (N : Int) - 2 then
    ((1 / 2) * (ctr (i + 1) k - ctr (i - 1) k), ctr (i + 1) k - ctr i k)
  else
    ((1 / 2) * (ctr (i + 1) k - ctr (i - 1) k), (1 / 2) * (ctr (i + 2) k - ctr i k))

/-- The coefficients `(a, b, c, d)` of segment `i` on axis `k`, written on the
centers `ctr`. -/
def coeffs_of (ctr : Nat → V3 F) (N i : Nat) (k : Fin 3) : F × F × F × F :=
  hermite_coeffs (ctr i k) (ctr (i + 1) k) (tangents_of ctr N i k).1 (tangents_of ctr N i k).2

/-- The position that sampling segment `i` writes at its step `j`, cache
element `curve_res * i + j`. -/
def segment_co (ctr : Nat → V3 F) (N R i j : Nat) : V3 F := fun k =>
  fd_value (coeffs_of ctr N i k).1 (coeffs_of ctr N i k).2.1 (coeffs_of ctr N i k).2.2.1
    (coeffs_of ctr N i k).2.2.2 R j

/-- The position of cache element `j` once all the segments of a bundle of
`N ≥ 3` sections are sampled in order: the element belongs to the last
segment that writes it, segment `min (j / R) (N - 2)`. -/
def cubic_co (ctr : Nat → V3 F) (N R j : Nat) : V3 F :=
  segment_co ctr N R (min (j / R) (N - 2)) (j - R * min (j / R) (N - 2))

/-- The position of cache element `j` after the sampling of a bundle of `N`
sections with centers `ctr` at resolution `R`: the three cases of
`BKE_groom_eval_curve_cache`. -/
def sample_co (ctr : Nat → V3 F) (N R j : Nat) : V3 F :=
  if N = 1 then ctr 0
  else if N = 2 then
    linear_state (mul_v3_fl (sub_v3_v3v3 (ctr 1) (ctr 0)) (1 / (R : F))) j (ctr 0)
  else cubic_co ctr N R j

/-- The frame that `groom_eval_curve_cache_mats` gives cache element `j` of a
cache of `T` samples at the positions `pos`, from the base frame `basemat`. -/
def frames_of (bli : BLIMath F) (basemat : M3 F) (pos : Nat → V3 F) (T : Nat) : Nat → M3 F
  | 0 => if T = 1 then basemat else groom_eval_curve_step bli basemat (pos 1) (pos 0)
  | j + 1 =>
    if j + 2 < T then
      groom_eval_curve_step bli (frames_of bli basemat pos T j) (pos (j + 2)) (pos j)
    else
      groom_eval_curve_step bli (frames_of bli basemat pos T j) (pos (j + 1)) (pos j)

/-- The cache that the evaluation of a bundle of `N ≥ 1` sections with centers
`ctr` produces at resolution `R`: `(N - 1) * R + 1` samples, each with its
position and its frame (the base frame is `unit_m3`). -/
def eval_cache (bli : BLIMath F) (ctr : Nat → V3 F) (N R : Nat) : List (GroomCurveCache F) :=
  (List.range ((N - 1) * R + 1)).map fun j =>
    GroomCurveCache.mk (sample_co ctr N R j)
      (frames_of bli unit_m3 (sample_co ctr N R) ((N - 1) * R + 1) j)

/-- The sections after the evaluation: section `i` gets the frame of the
cache sample `R * i`. -/
def eval_sections (bli : BLIMath F) (ctr : Nat → V3 F) (N R : Nat)
    (sections : List (GroomSection F)) : List (GroomSection F) :=
  sections.mapIdx fun i s =>
    GroomSection.mk s.flag s.center
      (frames_of bli unit_m3 (sample_co ctr N R) ((N - 1) * R + 1) (R * i))

/-- The centers of the sections of a bundle are `ctr 0 .. ctr (totsections-1)`,
and the section array holds exactly `totsections` sections. -/
def HasCenters (bundle : GroomBundle F) (ctr : Nat → V3 F) : Prop :=
  bundle.sections.length = bundle.totsections ∧
    ∀ i, i < bundle.totsections →
      (bundle.sections[i]?).map GroomSection.center = some (ctr i)

/-- Every bundle of the live list has a section array of `totsections`
sections, and the size `(totsections-1) * curve_res + 1` of its cache is
representable as a C `int`. -/
def LiveWellFormed (groom : Groom F) : Prop :=
  ∀ bundle ∈ live_bundles groom, bundle.sections.length = bundle.totsections ∧
    (bundle.totsections - 1) * groom.curve_res + 1 ≤ INT_MAX

end Ops

/-! ## Concrete data over the rationals -/

/-- The vector `{x, y, z}`. -/
def vec3 (x y z : ℚ) : V3 ℚ := fun k => if k.val = 0 then x else if k.val = 1 then y else z

/-- The dot product of two vectors. -/
def dot3 (a b : V3 ℚ) : ℚ := a 0 * b 0 + a 1 * b 1 + a 2 * b 2

/-- The cross product of two vectors. -/
def cross3 (a b : V3 ℚ) : V3 ℚ := fun k =>
  if k = 0 then a 1 * b 2 - a 2 * b 1
  else if k = 1 then a 2 * b 0 - a 0 * b 2
  else a 0 * b 1 - a 1 * b 0

/-- An instance of the BLI_math helpers in exact rational arithmetic, for
unit vectors that are not opposed: normalisation leaves a unit vector as it is,
the rotation between the unit vectors `v1`, `v2` is the minimal one, with axis
`k = v1 × v2` and cosine `c = v1 · v2`, that is `c I + [k]ₓ + k kᵀ / (1 + c)`,
stored as BLI_math stores a matrix, `m[i]` being its column `i`; and
`mul_m3_m3m3 rot prev` applies `rot` to every axis `prev[i]`:
`r[i][j] = rot[0][j] prev[i][0] + rot[1][j] prev[i][1] + rot[2][j] prev[i][2]`. -/
def unitBLI : BLIMath ℚ where
  normalize_v3 := fun v => v
  rotation_between_vecs_to_mat3 := fun v1 v2 i j =>
    (if i = j then dot3 v1 v2 else 0)
      + (if (j, i) = (0, 1) then - cross3 v1 v2 2 else if (j, i) = (1, 0) then cross3 v1 v2 2
         else if (j, i) = (0, 2) then cross3 v1 v2 1 else if (j, i) = (2, 0) then - cross3 v1 v2 1
         else if (j, i) = (1, 2) then - cross3 v1 v2 0 else if (j, i) = (2, 1) then cross3 v1 v2 0
         else 0)
      + cross3 v1 v2 i * cross3 v1 v2 j / (1 + dot3 v1 v2)
  mul_m3_m3m3 := fun rot prev i j =>
    rot 0 j * prev i 0 + rot 1 j * prev i 1 + rot 2 j * prev i 2

/-- A section with center `(x, y, z)` and the identity frame. -/
def section_at (x y z : ℚ) : GroomSection ℚ :=
  { flag := 0, center := vec3 x y z, mat := unit_m3 }

/-- A cache sample at `(x, y, z)` with the identity frame. -/
def sample_at (x y z : ℚ) : GroomCurveCache ℚ :=
  { co := vec3 x y z, mat := unit_m3 }

/-- A bundle with the given sections and no cache yet. -/
def bundle_of (sections : List (GroomSection ℚ)) : GroomBundle ℚ :=
  { flag := 0, numloopverts := 0, totsections := sections.length, totverts := 0, totcache := 0,
    sections := sections, verts := [], curve_cache := none }

/-- An asset with the given base bundles, outside edit mode. -/
def groom_of (curve_res : Nat) (bundles : List (GroomBundle ℚ)) : Groom ℚ :=
  { curve_res := curve_res, bb := none, bundles := bundles, editgroom := none }

/-- The end-to-end example: centers `(0,0,0), (1,0,0), (2,0,0), (3,0,0)`. -/
def line_centers (i : Nat) : V3 ℚ := vec3 (i : ℚ) 0 0

/-- An instance of the bounding-box parameters over the rationals, with the
values of the Blender headers: `INIT_MINMAX` assigns `1.0e30f` to `min` and
`-1.0e30f` to `max`, `BKE_boundbox_init_from_minmax` stores the eight corners
(corner 0 is `min`, corner 6 is `max`), `BOUNDBOX_DIRTY` is `1 << 1`. -/
def blender_bb_env : BoundBoxEnv ℚ where
  init_min := fun _ => 10 ^ 30
  init_max := fun _ => -10 ^ 30
  BKE_boundbox_init_from_minmax := fun bb min max =>
    { bb with
      vec := fun i k =>
        if k.val = 0 then (if i.val < 4 then min 0 else max 0)
        else if k.val = 1 then (if i.val % 4 < 2 then min 1 else max 1)
        else (if i.val % 4 = 0 ∨ i.val % 4 = 3 then min 2 else max 2) }
  BOUNDBOX_DIRTY := 2

/-! ## Orthonormal frames -/

section Frames

variable {F : Type} [Zero F] [One F] [Add F] [Sub F] [Mul F]

/-- The dot product of two vectors (`dot_v3v3` of BLI_math). -/
def dot_v3v3 (a b : V3 F) : F := a 0 * b 0 + a 1 * b 1 + a 2 * b 2

/-- The matrix `m` applied to the vector `a` (`mul_v3_m3v3` of BLI_math):
`r[j] = m[0][j] a[0] + m[1][j] a[1] + m[2][j] a[2]`. -/
def mul_v3_m3v3 (m : M3 F) (a : V3 F) : V3 F := fun j =>
  m 0 j * a 0 + m 1 j * a 1 + m 2 j * a 2

/-- The three axes `m[0]`, `m[1]`, `m[2]` of a frame are unit vectors
orthogonal to one another. -/
def IsOrthonormal (m : M3 F) : Prop :=
  ∀ i j : Fin 3, dot_v3v3 (m i) (m j) = if i = j then 1 else 0

/-- The tangent that the frame of sample `j` is aligned to, on the positions
`pos` of `T ≥ 2` samples: the difference `co1 - co0` of the three calls of
`groom_eval_curve_step` in `groom_eval_curve_cache_mats`. -/
def frame_tangent (pos : Nat → V3 F) (T j : Nat) : V3 F :=
  if j = 0 then sub_v3_v3v3 (pos 0) (pos 1)
  else if j + 1 < T then sub_v3_v3v3 (pos (j - 1)) (pos (j + 1))
  else sub_v3_v3v3 (pos (j - 1)) (pos j)

/-- Modelled from the spec: what the frame propagator relies on from the
helpers of BLI_math (not under src/).  `mul_m3_m3m3 rot prev` applies `rot` to
every axis of `prev`; `rotation_between_vecs_to_mat3` always returns an
orthogonal matrix, and that matrix takes its first argument onto its second
when both are unit vectors (the rotation between the two directions);
`normalize_v3` leaves a unit vector as it is. -/
structure BLIContract (bli : BLIMath F) : Prop where
  mul_axes : ∀ (rot prev : M3 F) (i : Fin 3),
    bli.mul_m3_m3m3 rot prev i = mul_v3_m3v3 rot (prev i)
  rot_orthogonal : ∀ v1 v2 : V3 F, IsOrthonormal (bli.rotation_between_vecs_to_mat3 v1 v2)
  rot_aligns : ∀ v1 v2 : V3 F, dot_v3v3 v1 v1 = 1 → dot_v3v3 v2 v2 = 1 →
    mul_v3_m3v3 (bli.rotation_between_vecs_to_mat3 v1 v2) v1 = v2
  normalize_unit : ∀ u : V3 F, dot_v3v3 u u = 1 → bli.normalize_v3 u = u

end Frames

/-- The reflection in the plane orthogonal to `w` (the identity for `w = 0`),
as a matrix. -/
def mirror_m3 (w : V3 ℚ) : M3 ℚ := fun i j =>
  (if i = j then 1 else 0) - 2 * w i * w j / dot_v3v3 w w

/-- An instance of the BLI_math helpers in exact rational arithmetic that meets
`BLIContract`: normalisation leaves a unit vector as it is, the rotation from
the unit vector `v1` to the unit vector `v2` is the reflection along `v1`
followed by the reflection along `v1 + v2`, and `mul_m3_m3m3 rot prev` applies
`rot` to every axis of `prev`. -/
def mirrorBLI : BLIMath ℚ where
  normalize_v3 := fun v => v
  rotation_between_vecs_to_mat3 := fun v1 v2 i j =>
    mirror_m3 v1 i 0 * mirror_m3 (add_v3_v3 v1 v2) 0 j
      + mirror_m3 v1 i 1 * mirror_m3 (add_v3_v3 v1 v2) 1 j
      + mirror_m3 v1 i 2 * mirror_m3 (add_v3_v3 v1 v2) 2 j
  mul_m3_m3m3 := fun rot prev i => mul_v3_m3v3 rot (prev i)

/-! ## Binary32 arithmetic

The C type `float` of the code, for the inputs on which the exact-arithmetic
statements are compared with what the program computes: IEEE 754 binary32 with
rounding to nearest, ties to even, every operation rounded on its own.  A
finite value is an integer multiple of `2^-149`; infinities, NaN, the sign of
zero and results beyond the binary32 range are outside the model. -/

/-- The number of binary digits of `n`, by halving (`fuel` bounds the steps). -/
def bit_length_aux : Nat → Nat → Nat
  | 0, _ => 0
  | fuel + 1, n => if n = 0 then 0 else bit_length_aux fuel (n / 2) + 1

/-- The number of binary digits of `n`: `2^(bit_length n - 1) ≤ n < 2^(bit_length n)`. -/
def bit_length (n : Nat) : Nat := bit_length_aux n n

/-- The binary32 value nearest to `n / d` units of `2^-149` (`d > 0`), ties to
even: a significand of 24 binary digits, so a value of more than 24 digits is
rounded to a multiple of `2^s`, `s` being the number of its digits beyond 24. -/
def round_nearest_even (n d : Nat) : Nat :=
  let s := bit_length (n / d) - 24
  let k := n / (d * 2 ^ s)
  let r := n % (d * 2 ^ s)
  (if 2 * r < d * 2 ^ s then k
    else if d * 2 ^ s < 2 * r then k + 1
    else if k % 2 = 0 then k else k + 1) * 2 ^ s

/-- A finite binary32 value: `units * 2^-149`. -/
structure Binary32 where
  units : Int
deriving DecidableEq

/-- The binary32 value nearest to `± n / d` units. -/
def Binary32.round (negative : Bool) (n d : Nat) : Binary32 :=
  if negative then ⟨-(round_nearest_even n d : Int)⟩ else ⟨(round_nearest_even n d : Int)⟩

/-- The rational number that a binary32 value stands for. -/
def Binary32.toRat (a : Binary32) : ℚ := (a.units : ℚ) / 2 ^ 149

instance : Zero Binary32 := ⟨⟨0⟩⟩

instance : One Binary32 := ⟨⟨2 ^ 149⟩⟩

instance : Neg Binary32 := ⟨fun a => ⟨-a.units⟩⟩

instance : Add Binary32 :=
  ⟨fun a b => Binary32.round (decide (a.units + b.units < 0)) (a.units + b.units).natAbs 1⟩

instance : Sub Binary32 :=
  ⟨fun a b => Binary32.round (decide (a.units - b.units < 0)) (a.units - b.units).natAbs 1⟩

instance : Mul Binary32 :=
  ⟨fun a b =>
    Binary32.round (decide (a.units * b.units < 0)) (a.units * b.units).natAbs (2 ^ 149)⟩

/-- The quotient; a division by zero, which the code never makes for
`curve_res ≥ 1`, is outside the model and yields 0 here. -/
instance : Div Binary32 :=
  ⟨fun a b => if b.units = 0 then ⟨0⟩ else
    Binary32.round (decide (a.units * b.units < 0)) (a.units.natAbs * 2 ^ 149) b.units.natAbs⟩

/-- The conversion `(float)n` of an `int`. -/
instance : NatCast Binary32 := ⟨fun n => Binary32.round false (n * 2 ^ 149) 1⟩

/-- The vector `{x, y, z}` of binary32 values. -/
def vec32 (x y z : Binary32) : V3 Binary32 :=
  fun k => if k.val = 0 then x else if k.val = 1 then y else z

/-- A section with the binary32 center `(x, y, z)` and the identity frame. -/
def section32 (x y z : Binary32) : GroomSection Binary32 :=
  { flag := 0, center := vec32 x y z, mat := unit_m3 }

/-- A bundle of binary32 sections whose cache buffer is allocated for the
resolution `R`: `(N - 1) * R + 1` samples, all at the origin. -/
def bundle32 (sections : List (GroomSection Binary32)) (R : Nat) : GroomBundle Binary32 :=
  { flag := 0, numloopverts := 0, totsections := sections.length, totverts := 0,
    totcache := (sections.length - 1) * R + 1, sections := sections, verts := [],
    curve_cache := some (List.replicate ((sections.length - 1) * R + 1)
      (GroomCurveCache.mk (vec32 0 0 0) unit_m3)) }

/-- The binary32 value `0.1f`, the quotient `1.0f / 10.0f`. -/
def tenth32 : Binary32 := 1 / 10

/-- Centers of two sections, `(0,0,0)` and `(1,0,0)`. -/
def unit_centers32 (i : Nat) : V3 Binary32 := if i = 0 then vec32 0 0 0 else vec32 1 0 0

/-- Centers of three sections, `(0,0,0)`, `(1,0,0)`, `(1,1,0)`. -/
def corner_centers32 (i : Nat) : V3 Binary32 :=
  if i = 0 then vec32 0 0 0 else if i = 1 then vec32 1 0 0 else vec32 1 1 0

/-- Centers in arithmetic progression, computed in binary32:
`center[i] = c0 + i * v`. -/
def progression32 (c0 v : V3 Binary32) (i : Nat) : V3 Binary32 :=
  fun k => c0 k + (i : Binary32) * v k

/-- Three sections whose centers are the progression `c0`, `c0 + v`,
`c0 + 2 v`, computed in binary32. -/
def line_sections32 (c0 v : V3 Binary32) : List (GroomSection Binary32) :=
  (List.range 3).map fun i => GroomSection.mk 0 (progression32 c0 v i) unit_m3

/-! # Theorems -/

/-! ## Buffer lemmas -/

theorem writeCo_spec {F : Type} (cache : List (GroomCurveCache F)) (p : Nat) (k : Fin 3) (v : F)
    (hp : p < cache.length) :
    ∃ cache1, writeCo cache p k v = some cache1 ∧ cache1.length = cache.length ∧
      ∀ j, cache1[j]? = (cache[j]?).map
        (fun c => if j = p then { c with co := Function.update c.co k v } else c) := by
  have h : cache[p]? = some cache[p] := List.getElem?_eq_getElem hp
  refine ⟨cache.set p { cache[p] with co := Function.update cache[p].co k v }, ?_, ?_, ?_⟩
  · simp [writeCo, h]
  · simp
  · intro j
    rw [List.getElem?_set]
    by_cases hj : p = j
    · subst hj
      simp [hp, h]
    · have hj2 : ¬ j = p := fun e => hj e.symm
      simp [hj, hj2]

theorem writeMat_spec {F : Type} (cache : List (GroomCurveCache F)) (p : Nat) (m : M3 F)
    (hp : p < cache.length) :
    ∃ cache1, writeMat cache p m = some cache1 ∧ cache1.length = cache.length ∧
      ∀ j, cache1[j]? = (cache[j]?).map
        (fun c => if j = p then { c with mat := m } else c) := by
  have h : cache[p]? = some cache[p] := List.getElem?_eq_getElem hp
  refine ⟨cache.set p { cache[p] with mat := m }, ?_, ?_, ?_⟩
  · simp [writeMat, h]
  · simp
  · intro j
    rw [List.getElem?_set]
    by_cases hj : p = j
    · subst hj
      simp [hp, h]
    · have hj2 : ¬ j = p := fun e => hj e.symm
      simp [hj, hj2]

/-! ## The forward-difference loop -/

theorem forward_diff_loop_spec {F : Type} [Add F] (q3 : F) (k : Fin 3) (n : Nat) :
    ∀ (q0 q1 q2 : F) (p : Nat) (cache : List (GroomCurveCache F)), p + n ≤ cache.length →
    ∃ cache1, groom_forward_diff_cubic_loop q3 k n q0 q1 q2 p cache = some cache1 ∧
      cache1.length = cache.length ∧
      ∀ j, cache1[j]? = (cache[j]?).map (fun c =>
        if p ≤ j ∧ j < p + n then
          { c with co := Function.update c.co k (fd_state q3 (j - p) (q0, q1, q2)).1 }
        else c) := by
  induction n with
  | zero =>
    intro q0 q1 q2 p cache _
    refine ⟨cache, rfl, rfl, ?_⟩
    intro j
    have h0 : ¬ (p ≤ j ∧ j < p + 0) := by omega
    cases cache[j]? with
    | none => rfl
    | some c => simp only [Option.map_some', if_neg h0]
  | succ n ih =>
    intro q0 q1 q2 p cache h
    obtain ⟨c1, hw, hl1, hg1⟩ := writeCo_spec cache p k q0 (by omega)
    obtain ⟨c2, hr, hl2, hg2⟩ := ih (q0 + q1) (q1 + q2) (q2 + q3) (p + 1) c1 (by omega)
    refine ⟨c2, ?_, by omega, ?_⟩
    · simp [groom_forward_diff_cubic_loop, hw, hr]
    · intro j
      rw [hg2, hg1]
      cases hj : cache[j]? with
      | none => simp
      | some c =>
        simp only [Option.map_some']
        by_cases h1 : j = p
        · subst h1
          have : ¬ (j + 1 ≤ j ∧ j < j + 1 + n) := by omega
          simp [this, fd_state]
        · by_cases h2 : p + 1 ≤ j ∧ j < p + 1 + n
          · have h3 : p ≤ j ∧ j < p + (n + 1) := by omega
            have h4 : j - p = (j - (p + 1)) + 1 := by omega
            simp [h1, h2, h3, h4, fd_state]
          · have h3 : ¬ (p ≤ j ∧ j < p + (n + 1)) := by omega
            simp [h1, h2, h3]

/-- What `groom_forward_diff_cubic` does to a buffer with room for its writes,
for any arithmetic. -/
theorem forward_diff_cubic_spec {F : Type} [One F] [Add F] [Mul F] [Div F] [NatCast F]
    (a b c d : F) (p : Nat) (k : Fin 3) (it : Nat) (cache : List (GroomCurveCache F))
    (h : p + it < cache.length) :
    ∃ cache1, groom_forward_diff_cubic a b c d p k it cache = some cache1 ∧
      cache1.length = cache.length ∧
      ∀ j, cache1[j]? = (cache[j]?).map (fun e =>
        if p ≤ j ∧ j ≤ p + it then
          { e with co := Function.update e.co k (fd_value a b c d it (j - p)) }
        else e) := by
  obtain ⟨c1, h1, h2, h3⟩ := forward_diff_loop_spec
    (6 * (a * (1 / ((it : F) * (it : F) * (it : F))))) k (it + 1) d
    (a * (1 / ((it : F) * (it : F) * (it : F))) + b * (1 / ((it : F) * (it : F)))
      + c * (1 / (it : F)))
    (6 * (a * (1 / ((it : F) * (it : F) * (it : F)))) + 2 * (b * (1 / ((it : F) * (it : F)))))
    p cache (by omega)
  refine ⟨c1, h1, h2, ?_⟩
  intro j
  rw [h3]
  congr 1
  funext e
  by_cases hj : p ≤ j ∧ j ≤ p + it
  · have hj2 : p ≤ j ∧ j < p + (it + 1) := by omega
    rw [if_pos hj, if_pos hj2]
    rfl
  · have hj2 : ¬ (p ≤ j ∧ j < p + (it + 1)) := by omega
    rw [if_neg hj, if_neg hj2]

/-- The registers of the forward-difference loop follow the cubic
`A i^3 + B i^2 + C i + d` and its first and second differences. -/
theorem fd_state_poly {F : Type} [Field F] (A B C d : F) (j : Nat) : ∀ i : Nat,
    fd_state (6 * A) j
      (A * (i : F) ^ 3 + B * (i : F) ^ 2 + C * (i : F) + d,
       A * (3 * (i : F) ^ 2 + 3 * (i : F) + 1) + B * (2 * (i : F) + 1) + C,
       A * (6 * (i : F) + 6) + 2 * B)
    = (A * ((i + j : Nat) : F) ^ 3 + B * ((i + j : Nat) : F) ^ 2 + C * ((i + j : Nat) : F) + d,
       A * (3 * ((i + j : Nat) : F) ^ 2 + 3 * ((i + j : Nat) : F) + 1)
         + B * (2 * ((i + j : Nat) : F) + 1) + C,
       A * (6 * ((i + j : Nat) : F) + 6) + 2 * B) := by
  induction j with
  | zero => intro i; simp [fd_state]
  | succ j ih =>
    intro i
    have e := ih (i + 1)
    have hcast : ((i + 1 + j : Nat) : F) = ((i + (j + 1) : Nat) : F) := by
      congr 1; omega
    rw [hcast] at e
    rw [← e]
    simp only [fd_state]
    congr 1
    refine Prod.ext ?_ (Prod.ext ?_ ?_)
    · simp only; push_cast; ring
    · simp only; push_cast; ring
    · simp only; push_cast; ring

/-- In exact arithmetic the value written at step `j` is the cubic at `j / it`. -/
theorem fd_value_eq {F : Type} [Field F] (a b c d : F) (it j : Nat) :
    fd_value a b c d it j
      = a * ((j : F) / (it : F)) ^ 3 + b * ((j : F) / (it : F)) ^ 2
        + c * ((j : F) / (it : F)) + d := by
  have e := fd_state_poly (a * (1 / ((it : F) * (it : F) * (it : F))))
    (b * (1 / ((it : F) * (it : F)))) (c * (1 / (it : F))) d j 0
  simp only [Nat.cast_zero, zero_add] at e
  have e1 := congrArg Prod.fst e
  simp only at e1
  unfold fd_value
  simp only
  have init : (d, a * (1 / ((it : F) * (it : F) * (it : F))) + b * (1 / ((it : F) * (it : F)))
        + c * (1 / (it : F)),
      6 * (a * (1 / ((it : F) * (it : F) * (it : F)))) + 2 * (b * (1 / ((it : F) * (it : F)))))
      = (a * (1 / ((it : F) * (it : F) * (it : F))) * (0 : F) ^ 3
          + b * (1 / ((it : F) * (it : F))) * (0 : F) ^ 2 + c * (1 / (it : F)) * 0 + d,
        a * (1 / ((it : F) * (it : F) * (it : F))) * (3 * (0 : F) ^ 2 + 3 * 0 + 1)
          + b * (1 / ((it : F) * (it : F))) * (2 * 0 + 1) + c * (1 / (it : F)),
        a * (1 / ((it : F) * (it : F) * (it : F))) * (6 * 0 + 6)
          + 2 * (b * (1 / ((it : F) * (it : F))))) := by
    refine Prod.ext ?_ (Prod.ext ?_ ?_) <;> simp only <;> ring
  rw [init, e1]
  simp only [one_div, div_eq_mul_inv, mul_inv]
  ring

/-! ## The linear loop -/

theorem linear_loop_spec {F : Type} [Add F] (dx : V3 F) (n : Nat) :
    ∀ (x : V3 F) (p : Nat) (cache : List (GroomCurveCache F)), p + n ≤ cache.length →
    ∃ cache1, groom_eval_curve_cache_section_linear_loop dx n x p cache = some cache1 ∧
      cache1.length = cache.length ∧
      ∀ j, cache1[j]? = (cache[j]?).map (fun e =>
        if p ≤ j ∧ j < p + n then { e with co := linear_state dx (j - p) x } else e) := by
  induction n with
  | zero =>
    intro x p cache _
    refine ⟨cache, rfl, rfl, ?_⟩
    intro j
    have h0 : ¬ (p ≤ j ∧ j < p + 0) := by omega
    cases cache[j]? with
    | none => rfl
    | some c => simp only [Option.map_some', if_neg h0]
  | succ n ih =>
    intro x p cache h
    have hp : p < cache.length := by omega
    have hget : cache[p]? = some cache[p] := List.getElem?_eq_getElem hp
    obtain ⟨c2, hr, hl2, hg2⟩ := ih (add_v3_v3 x dx) (p + 1)
      (cache.set p { cache[p] with co := x }) (by simp; omega)
    refine ⟨c2, ?_, by simpa using hl2, ?_⟩
    · simp [groom_eval_curve_cache_section_linear_loop, hget, hr]
    · intro j
      rw [hg2, List.getElem?_set]
      by_cases h1 : p = j
      · subst h1
        have h5 : ¬ (p + 1 ≤ p ∧ p < p + 1 + n) := by omega
        have h6 : p ≤ p ∧ p < p + (n + 1) := by omega
        simp [hp, hget, h5, h6, linear_state]
      · rw [if_neg h1]
        cases hj : cache[j]? with
        | none => simp
        | some c =>
          simp only [Option.map_some']
          by_cases h2 : p + 1 ≤ j ∧ j < p + 1 + n
          · have h3 : p ≤ j ∧ j < p + (n + 1) := by omega
            have h4 : j - p = (j - (p + 1)) + 1 := by omega
            simp [h2, h3, h4, linear_state]
          · have h3 : ¬ (p ≤ j ∧ j < p + (n + 1)) := by omega
            simp [h2, h3]

/-- In exact arithmetic `j` steps of the linear loop add `j * dx`. -/
theorem linear_state_eq {F : Type} [Field F] (dx : V3 F) (j : Nat) : ∀ x : V3 F,
    linear_state dx j x = fun k => x k + (j : F) * dx k := by
  induction j with
  | zero => intro x; funext k; simp [linear_state]
  | succ j ih =>
    intro x
    funext k
    simp only [linear_state, ih, add_v3_v3]
    push_cast
    ring

theorem int_value_eq (x : Nat) (h : x ≤ INT_MAX) : int_value x = some x := by
  simp [int_value, h]

theorem int_value_overflow (x : Nat) (h : INT_MAX < x) : int_value x = none := by
  have h2 : ¬ x ≤ INT_MAX := by omega
  simp [int_value, h2]

/-- What `groom_eval_curve_cache_section_linear` does, for any arithmetic. -/
theorem section_linear_spec {F : Type} [One F] [Add F] [Sub F] [Mul F] [Div F] [NatCast F]
    (bundle : GroomBundle F) (i R : Nat) (s0 s1 : GroomSection F)
    (cache : List (GroomCurveCache F))
    (h0 : bundle.sections[i]? = some s0) (h1 : bundle.sections[i + 1]? = some s1)
    (hc : bundle.curve_cache = some cache) (hroom : R * i + R < cache.length)
    (hfit : R * i ≤ INT_MAX) :
    ∃ cache1, groom_eval_curve_cache_section_linear bundle i R
        = some { bundle with curve_cache := some cache1 } ∧
      cache1.length = cache.length ∧
      ∀ j, cache1[j]? = (cache[j]?).map (fun e =>
        if R * i ≤ j ∧ j ≤ R * i + R then
          GroomCurveCache.mk
            (linear_state (mul_v3_fl (sub_v3_v3v3 s1.center s0.center) (1 / (R : F)))
              (j - R * i) s0.center)
            e.mat
        else e) := by
  obtain ⟨c1, hr, hl, hg⟩ := linear_loop_spec
    (mul_v3_fl (sub_v3_v3v3 s1.center s0.center) (1 / (R : F))) (R + 1) s0.center (R * i) cache
    (by omega)
  refine ⟨c1, ?_, hl, ?_⟩
  · simp [groom_eval_curve_cache_section_linear, h0, h1, hc, hr, int_value_eq _ hfit]
  · intro j
    rw [hg]
    congr 1
    funext e
    by_cases hj : R * i ≤ j ∧ j ≤ R * i + R
    · have hj2 : R * i ≤ j ∧ j < R * i + (R + 1) := by omega
      rw [if_pos hj, if_pos hj2]
    · have hj2 : ¬ (R * i ≤ j ∧ j < R * i + (R + 1)) := by omega
      rw [if_neg hj, if_neg hj2]

/-! ## The cubic segments -/

theorem readCenter_ctr {F : Type} (sections : List (GroomSection F)) (ctr : Nat → V3 F)
    (N : Nat) (hc : ∀ i, i < N → (sections[i]?).map GroomSection.center = some (ctr i))
    (m : Nat) (z : Int) (hz : z = (m : Int)) (hm : m < N) (k : Fin 3) :
    readCenter sections z k = some (ctr m k) := by
  subst hz
  have h := hc m hm
  cases hs : sections[m]? with
  | none => rw [hs] at h; simp at h
  | some s =>
    rw [hs] at h
    simp only [Option.map_some', Option.some.injEq] at h
    simp [readCenter, hs, h]

theorem cubic_tangents_eq {F : Type} [One F] [Sub F] [Mul F] [Div F] [NatCast F]
    (sections : List (GroomSection F)) (ctr : Nat → V3 F) (N : Nat)
    (hc : ∀ i, i < N → (sections[i]?).map GroomSection.center = some (ctr i))
    (hN : 3 ≤ N) (i : Nat) (hi : i + 2 ≤ N) (k : Fin 3) :
    cubic_tangents sections N i k = some (tangents_of ctr N i k) := by
  have r1 := readCenter_ctr sections ctr N hc i (i : Int) rfl (by omega) k
  have r2 := readCenter_ctr sections ctr N hc (i + 1) ((i : Int) + 1) (by push_cast; rfl)
    (by omega) k
  unfold cubic_tangents tangents_of
  by_cases h0 : i = 0
  · have r3 := readCenter_ctr sections ctr N hc (i + 2) ((i : Int) + 2) (by push_cast; rfl)
      (by omega) k
    simp only [if_pos h0]
    rw [r1, r2, r3]
    rfl
  · have r0 := readCenter_ctr sections ctr N hc (i - 1) ((i : Int) - 1) (by omega) (by omega) k
    by_cases h1 : (i : Int) = (N : Int) - 2
    · simp only [if_neg h0, if_pos h1]
      rw [r0, r1, r2]
      rfl
    · have r3 := readCenter_ctr sections ctr N hc (i + 2) ((i : Int) + 2) (by push_cast; rfl)
        (by omega) k
      simp only [if_neg h0, if_neg h1]
      rw [r0, r1, r2, r3]
      rfl

theorem cubic_coeffs_eq {F : Type} [One F] [Add F] [Sub F] [Mul F] [Div F] [NatCast F]
    (sections : List (GroomSection F)) (ctr : Nat → V3 F) (N : Nat)
    (hc : ∀ i, i < N → (sections[i]?).map GroomSection.center = some (ctr i))
    (hN : 3 ≤ N) (i : Nat) (hi : i + 2 ≤ N) (k : Fin 3) :
    cubic_coeffs sections N i k = some (coeffs_of ctr N i k) := by
  have r1 := readCenter_ctr sections ctr N hc i (i : Int) rfl (by omega) k
  have r2 := readCenter_ctr sections ctr N hc (i + 1) ((i : Int) + 1) (by push_cast; rfl)
    (by omega) k
  unfold cubic_coeffs coeffs_of
  rw [cubic_tangents_eq sections ctr N hc hN i hi k, r1, r2]
  rfl

theorem update_three {F : Type} (co : V3 F) (v : V3 F) :
    Function.update (Function.update (Function.update co 0 (v 0)) 1 (v 1)) 2 (v 2) = v := by
  funext k
  fin_cases k <;> simp [Function.update]

/-- What `groom_eval_curve_cache_section_cubic` does on a bundle of `N ≥ 3`
sections with centers `ctr`, for any arithmetic: the elements
`R * i .. R * i + R` get the positions `segment_co`, nothing else changes. -/
theorem section_cubic_spec {F : Type} [One F] [Add F] [Sub F] [Mul F] [Div F] [NatCast F]
    (bundle : GroomBundle F) (ctr : Nat → V3 F) (hc : HasCenters bundle ctr)
    (hN : 3 ≤ bundle.totsections) (i R : Nat) (hi : i + 2 ≤ bundle.totsections)
    (cache : List (GroomCurveCache F)) (hcache : bundle.curve_cache = some cache)
    (hroom : R * i + R < cache.length) (hfit : R * i ≤ INT_MAX) :
    ∃ cache1, groom_eval_curve_cache_section_cubic bundle i R
        = some { bundle with curve_cache := some cache1 } ∧
      cache1.length = cache.length ∧
      ∀ j, cache1[j]? = (cache[j]?).map (fun e =>
        if R * i ≤ j ∧ j ≤ R * i + R then
          GroomCurveCache.mk (segment_co ctr bundle.totsections R i (j - R * i)) e.mat
        else e) := by
  have q := fun k => cubic_coeffs_eq bundle.sections ctr bundle.totsections hc.2 hN i hi k
  obtain ⟨c0, e0, l0, g0⟩ := forward_diff_cubic_spec
    (coeffs_of ctr bundle.totsections i 0).1 (coeffs_of ctr bundle.totsections i 0).2.1
    (coeffs_of ctr bundle.totsections i 0).2.2.1 (coeffs_of ctr bundle.totsections i 0).2.2.2
    (R * i) 0 R cache hroom
  obtain ⟨c1, e1, l1, g1⟩ := forward_diff_cubic_spec
    (coeffs_of ctr bundle.totsections i 1).1 (coeffs_of ctr bundle.totsections i 1).2.1
    (coeffs_of ctr bundle.totsections i 1).2.2.1 (coeffs_of ctr bundle.totsections i 1).2.2.2
    (R * i) 1 R c0 (by omega)
  obtain ⟨c2, e2, l2, g2⟩ := forward_diff_cubic_spec
    (coeffs_of ctr bundle.totsections i 2).1 (coeffs_of ctr bundle.totsections i 2).2.1
    (coeffs_of ctr bundle.totsections i 2).2.2.1 (coeffs_of ctr bundle.totsections i 2).2.2.2
    (R * i) 2 R c1 (by omega)
  refine ⟨c2, ?_, by omega, ?_⟩
  · simp [groom_eval_curve_cache_section_cubic, groom_eval_curve_cache_section_cubic_axis,
      hcache, q, e0, e1, e2, int_value_eq _ hfit]
  · intro j
    rw [g2, g1, g0]
    cases cache[j]? with
    | none => rfl
    | some e =>
      simp only [Option.map_some']
      by_cases hj : R * i ≤ j ∧ j ≤ R * i + R
      · simp only [if_pos hj]
        congr 1
        exact congrArg (fun co => GroomCurveCache.mk co e.mat)
          (update_three e.co (segment_co ctr bundle.totsections R i (j - R * i)))
      · simp only [if_neg hj]

theorem hasCenters_with_cache {F : Type} (bundle : GroomBundle F) (ctr : Nat → V3 F)
    (hc : HasCenters bundle ctr) (cache : Option (List (GroomCurveCache F))) :
    HasCenters { bundle with curve_cache := cache } ctr := hc

theorem div_of_segment (R i j : Nat) (h1 : R * i ≤ j) (h2 : j < R * i + R) : j / R = i := by
  have hR : 0 < R := by
    rcases Nat.eq_zero_or_pos R with h | h
    · subst h; omega
    · exact h
  apply Nat.div_eq_of_lt_le
  · rw [Nat.mul_comm]; exact h1
  · rw [Nat.succ_mul, Nat.mul_comm]; exact h2

theorem le_div_of_segment (R i j : Nat) (hR : 1 ≤ R) (h1 : R * i ≤ j) : i ≤ j / R := by
  rw [Nat.le_div_iff_mul_le (by omega)]
  rw [Nat.mul_comm]; exact h1

/-- The loop over the cubic segments, for any arithmetic: once the segments
`i .. N - 2` are sampled in order, the elements `R * i .. R * (N - 1)` hold the
positions `cubic_co`, nothing else changes. -/
theorem cubic_loop_spec {F : Type} [One F] [Add F] [Sub F] [Mul F] [Div F] [NatCast F]
    (ctr : Nat → V3 F) (N R : Nat) (hN : 3 ≤ N) (hR : 1 ≤ R) (n : Nat) :
    ∀ (i : Nat) (bundle : GroomBundle F) (cache : List (GroomCurveCache F)),
      HasCenters bundle ctr → bundle.totsections = N → i + n + 1 = N →
      bundle.curve_cache = some cache → R * (N - 1) < cache.length →
      R * (N - 1) ≤ INT_MAX →
    ∃ cache1, groom_eval_curve_cache_cubic_loop R n i bundle
        = some { bundle with curve_cache := some cache1 } ∧
      cache1.length = cache.length ∧
      ∀ j, cache1[j]? = (cache[j]?).map (fun e =>
        if 0 < n ∧ R * i ≤ j ∧ j ≤ R * (N - 1) then
          GroomCurveCache.mk (cubic_co ctr N R j) e.mat
        else e) := by
  induction n with
  | zero =>
    intro i bundle cache _ _ _ hcache _ _
    refine ⟨cache, ?_, rfl, ?_⟩
    · simp [groom_eval_curve_cache_cubic_loop, ← hcache]
    · intro j
      have h0 : ¬ (0 < 0 ∧ R * i ≤ j ∧ j ≤ R * (N - 1)) := by omega
      cases cache[j]? with
      | none => rfl
      | some c => simp only [Option.map_some', if_neg h0]
  | succ n ih =>
    intro i bundle cache hc htot hin hcache hroom hfit
    have hmul : R * (N - 1) = R * i + R + R * n := by
      have : N - 1 = i + 1 + n := by omega
      rw [this]; ring
    have hmul1 : R * (i + 1) = R * i + R := by ring
    obtain ⟨ca, ea, la, ga⟩ := section_cubic_spec bundle ctr hc (by omega) i R (by omega)
      cache hcache (by omega) (by omega)
    obtain ⟨cb, eb, lb, gb⟩ := ih (i + 1) { bundle with curve_cache := some ca } ca
      (hasCenters_with_cache bundle ctr hc (some ca)) htot (by omega) rfl (by omega) hfit
    refine ⟨cb, ?_, by omega, ?_⟩
    · simp [groom_eval_curve_cache_cubic_loop, ea, eb]
    · intro j
      rw [gb, ga]
      cases cache[j]? with
      | none => rfl
      | some e =>
        simp only [Option.map_some']
        by_cases hb : 0 < n ∧ R * (i + 1) ≤ j ∧ j ≤ R * (N - 1)
        · have ht : 0 < n + 1 ∧ R * i ≤ j ∧ j ≤ R * (N - 1) := by omega
          rw [if_pos hb, if_pos ht]
          by_cases ha : R * i ≤ j ∧ j ≤ R * i + R
          · rw [if_pos ha]
          · rw [if_neg ha]
        · rw [if_neg hb]
          by_cases ha : R * i ≤ j ∧ j ≤ R * i + R
          · have ht : 0 < n + 1 ∧ R * i ≤ j ∧ j ≤ R * (N - 1) := by omega
            rw [if_pos ha, if_pos ht, htot]
            congr 1
            unfold cubic_co
            have hseg : min (j / R) (N - 2) = i := by
              by_cases hlt : j < R * i + R
              · rw [div_of_segment R i j ha.1 hlt]
                exact Nat.min_eq_left (by omega)
              · have hj : j = R * i + R := by omega
                have hn : n = 0 := by
                  rcases Nat.eq_zero_or_pos n with h | h
                  · exact h
                  · exact absurd ⟨h, by omega, by omega⟩ hb
                have h2 : i ≤ j / R := le_div_of_segment R i j hR ha.1
                have h3 : N - 2 = i := by omega
                rw [h3]
                exact Nat.min_eq_right h2
            rw [hseg]
          · have ht : ¬ (0 < n + 1 ∧ R * i ≤ j ∧ j ≤ R * (N - 1)) := by
              intro h
              by_cases hn : 0 < n
              · exact hb ⟨hn, by omega, h.2.2⟩
              · have : n = 0 := by omega
                subst this
                omega
            rw [if_neg ha, if_neg ht]

/-! ## The frame propagator -/

theorem readCache_pred {F : Type} (cache : List (GroomCurveCache F)) (p : Nat) (hp : 1 ≤ p) :
    readCache cache ((p : Int) - 1) = cache[p - 1]? := by
  have h : (p : Int) - 1 = ((p - 1 : Nat) : Int) := by omega
  rw [h]
  simp [readCache]

theorem getElem?_of_map_eq {α β : Type} (l : List α) (f : α → β) (j : Nat) (v : β)
    (h : (l[j]?).map f = some v) : ∃ a, l[j]? = some a ∧ f a = v := by
  cases hs : l[j]? with
  | none => rw [hs] at h; simp at h
  | some a =>
    rw [hs] at h
    exact ⟨a, rfl, by simpa using h⟩

theorem writeMat_co {F : Type} (cache c1 : List (GroomCurveCache F)) (p : Nat) (m : M3 F)
    (h : ∀ j : Nat, c1[j]? = (cache[j]?).map
      (fun (c : GroomCurveCache F) => if j = p then GroomCurveCache.mk c.co m else c)) :
    ∀ j : Nat, (c1[j]?).map GroomCurveCache.co = (cache[j]?).map GroomCurveCache.co := by
  intro j
  rw [h]
  cases cache[j]? with
  | none => rfl
  | some e =>
    simp only [Option.map_some']
    by_cases hj : j = p
    · rw [if_pos hj]
    · rw [if_neg hj]

theorem mats_loop_spec {F : Type} [Sub F] (bli : BLIMath F) (basemat : M3 F)
    (pos : Nat → V3 F) (T : Nat) (n : Nat) :
    ∀ (p : Nat) (cache : List (GroomCurveCache F)), 1 ≤ p → p + n + 1 ≤ T → T ≤ cache.length →
      (∀ j, j < T → (cache[j]?).map GroomCurveCache.co = some (pos j)) →
      (cache[p - 1]?).map GroomCurveCache.mat = some (frames_of bli basemat pos T (p - 1)) →
    ∃ cache1, groom_eval_curve_cache_mats_loop bli n p cache = some cache1 ∧
      cache1.length = cache.length ∧
      ∀ j, cache1[j]? = (cache[j]?).map (fun e =>
        if p ≤ j ∧ j < p + n then GroomCurveCache.mk e.co (frames_of bli basemat pos T j)
        else e) := by
  induction n with
  | zero =>
    intro p cache _ _ _ _ _
    refine ⟨cache, rfl, rfl, ?_⟩
    intro j
    have h0 : ¬ (p ≤ j ∧ j < p + 0) := by omega
    cases cache[j]? with
    | none => rfl
    | some c => simp only [Option.map_some', if_neg h0]
  | succ n ih =>
    intro p cache hp hT hlen hpos hprev
    obtain ⟨prev, hprev1, hprev2⟩ := getElem?_of_map_eq _ _ _ _ hprev
    obtain ⟨prevc, hprevc1, hprevc2⟩ := getElem?_of_map_eq _ _ _ _ (hpos (p - 1) (by omega))
    obtain ⟨next, hnext1, hnext2⟩ := getElem?_of_map_eq _ _ _ _ (hpos (p + 1) (by omega))
    have hpc : prev.co = pos (p - 1) := by
      rw [hprev1] at hprevc1
      cases hprevc1
      exact hprevc2
    have hframe : groom_eval_curve_step bli prev.mat next.co prev.co
        = frames_of bli basemat pos T p := by
      obtain ⟨q, rfl⟩ : ∃ q, p = q + 1 := ⟨p - 1, by omega⟩
      have hq : q + 2 < T := by omega
      simp only [Nat.add_sub_cancel] at hprev2 hpc
      rw [frames_of, if_pos hq, hprev2, hnext2, hpc]
    obtain ⟨c1, hw, hl1, hg1⟩ := writeMat_spec cache p
      (groom_eval_curve_step bli prev.mat next.co prev.co) (by omega)
    obtain ⟨c2, hr, hl2, hg2⟩ := ih (p + 1) c1 (by omega) (by omega) (by omega)
      (by
        intro j hj
        rw [writeMat_co cache c1 p _ hg1 j]
        exact hpos j hj)
      (by
        rw [Nat.add_sub_cancel, hg1 p]
        have : cache[p]? = some cache[p] := List.getElem?_eq_getElem (by omega)
        simp [this, hframe])
    refine ⟨c2, ?_, by omega, ?_⟩
    · simp [groom_eval_curve_cache_mats_loop, readCache_pred cache p hp, hprev1, hnext1, hw, hr]
    · intro j
      rw [hg2, hg1]
      cases cache[j]? with
      | none => rfl
      | some e =>
        simp only [Option.map_some']
        by_cases h1 : j = p
        · subst h1
          have h5 : ¬ (j + 1 ≤ j ∧ j < j + 1 + n) := by omega
          have h6 : j ≤ j ∧ j < j + (n + 1) := by omega
          simp [h5, h6, hframe]
        · by_cases h2 : p + 1 ≤ j ∧ j < p + 1 + n
          · have h3 : p ≤ j ∧ j < p + (n + 1) := by omega
            simp [h1, h2, h3]
          · have h3 : ¬ (p ≤ j ∧ j < p + (n + 1)) := by omega
            simp [h1, h2, h3]

/-- What `groom_eval_curve_cache_mats` does on a buffer holding at least
`T ≥ 1` samples at the positions `pos`: the positions stay, sample `j` gets the
frame `frames_of .. j`. -/
theorem mats_spec {F : Type} [Sub F] (bli : BLIMath F) (basemat : M3 F)
    (pos : Nat → V3 F) (T : Nat) (cache : List (GroomCurveCache F)) (hT : 1 ≤ T)
    (hlen : T ≤ cache.length)
    (hpos : ∀ j, j < T → (cache[j]?).map GroomCurveCache.co = some (pos j)) :
    ∃ cache1, groom_eval_curve_cache_mats bli cache T basemat = some cache1 ∧
      cache1.length = cache.length ∧
      ∀ j, cache1[j]? = (cache[j]?).map (fun e =>
        if j < T then GroomCurveCache.mk e.co (frames_of bli basemat pos T j) else e) := by
  by_cases h1 : T = 1
  · obtain ⟨c1, hw, hl1, hg1⟩ := writeMat_spec cache 0 basemat (by omega)
    refine ⟨c1, ?_, hl1, ?_⟩
    · simp [groom_eval_curve_cache_mats, h1, hw]
    · intro j
      rw [hg1]
      cases cache[j]? with
      | none => rfl
      | some e =>
        simp only [Option.map_some']
        by_cases hj : j = 0
        · subst hj
          have : 0 < T := by omega
          simp [this, frames_of, h1]
        · have : ¬ j < T := by omega
          simp [hj, this]
  · obtain ⟨e0, he0, hco0⟩ := getElem?_of_map_eq _ _ _ _ (hpos 0 (by omega))
    obtain ⟨e1, he1, hco1⟩ := getElem?_of_map_eq _ _ _ _ (hpos 1 (by omega))
    have hf0 : groom_eval_curve_step bli basemat e1.co e0.co = frames_of bli basemat pos T 0 := by
      rw [frames_of, if_neg h1, hco0, hco1]
    obtain ⟨c1, hw, hl1, hg1⟩ := writeMat_spec cache 0
      (groom_eval_curve_step bli basemat e1.co e0.co) (by omega)
    have hpos1 : ∀ j, j < T → (c1[j]?).map GroomCurveCache.co = some (pos j) := by
      intro j hj
      rw [writeMat_co cache c1 0 _ hg1 j]
      exact hpos j hj
    obtain ⟨c2, hr, hl2, hg2⟩ := mats_loop_spec bli basemat pos T (T - 2) 1 c1 (by omega)
      (by omega) (by omega) hpos1
      (by
        rw [hg1 0, he0]
        simp [hf0])
    have hp : 1 + (T - 2) = T - 1 := by omega
    -- the last sample and the one before it
    have hlast : (c2[T - 1]?).map GroomCurveCache.co = some (pos (T - 1)) := by
      rw [hg2, ← hpos1 (T - 1) (by omega)]
      cases c1[T - 1]? with
      | none => rfl
      | some e => by_cases hc : 1 ≤ T - 1 ∧ T - 1 < 1 + (T - 2) <;> simp [hc]
    obtain ⟨el, hel, hcol⟩ := getElem?_of_map_eq _ _ _ _ hlast
    have hprev : ∃ ep, c2[T - 2]? = some ep ∧ ep.co = pos (T - 2) ∧
        ep.mat = frames_of bli basemat pos T (T - 2) := by
      obtain ⟨e, he1, he2⟩ := getElem?_of_map_eq _ _ _ _ (hpos1 (T - 2) (by omega))
      rw [hg2, he1]
      by_cases hc : 1 ≤ T - 2 ∧ T - 2 < 1 + (T - 2)
      · refine ⟨GroomCurveCache.mk e.co (frames_of bli basemat pos T (T - 2)), ?_, he2, rfl⟩
        simp only [Option.map_some', if_pos hc]
      · have hT2 : T - 2 = 0 := by omega
        refine ⟨e, by simp only [Option.map_some', if_neg hc], he2, ?_⟩
        rw [hT2] at he1 ⊢
        rw [hg1 0, he0] at he1
        simp only [Option.map_some', if_true, Option.some.injEq] at he1
        rw [← he1, hf0]
    obtain ⟨ep, hep, hcop, hmatp⟩ := hprev
    have hfl : groom_eval_curve_step bli ep.mat el.co ep.co
        = frames_of bli basemat pos T (T - 1) := by
      obtain ⟨q, rfl⟩ : ∃ q, T = q + 2 := ⟨T - 2, by omega⟩
      have hq : ¬ (q + 2 < q + 2) := by omega
      simp only [Nat.add_sub_cancel] at hmatp hcop
      have hq1 : q + 2 - 1 = q + 1 := by omega
      rw [hq1] at hcol ⊢
      rw [frames_of, if_neg hq, hmatp, hcol, hcop]
    obtain ⟨c3, hw3, hl3, hg3⟩ := writeMat_spec c2 (T - 1)
      (groom_eval_curve_step bli ep.mat el.co ep.co) (by omega)
    have hrc : readCache c2 (((T - 1 : Nat) : Int) - 1) = c2[T - 2]? := by
      rw [readCache_pred c2 (T - 1) (by omega)]
      rfl
    refine ⟨c3, ?_, by omega, ?_⟩
    · simp only [groom_eval_curve_cache_mats, if_neg h1]
      simp only [he0, he1, hw, hr, Option.bind_eq_bind, Option.some_bind, hrc, hp, hel, hep]
      exact hw3
    · intro j
      rw [hg3, hg2, hg1]
      cases cache[j]? with
      | none => rfl
      | some e =>
        simp only [Option.map_some']
        by_cases hj0 : j = 0
        · subst hj0
          have a1 : ¬ (1 ≤ 0 ∧ 0 < 1 + (T - 2)) := by omega
          have a2 : ¬ (0 = T - 1) := by omega
          have a3 : 0 < T := by omega
          simp [a1, a2, a3, hf0]
        · by_cases hjl : j = T - 1
          · subst hjl
            have b1 : ¬ (1 ≤ T - 1 ∧ T - 1 < 1 + (T - 2)) := by omega
            have b3 : T - 1 < T := by omega
            simp only [if_neg b1, if_neg hj0, if_pos b3, if_true, hfl]
          · by_cases hjm : 1 ≤ j ∧ j < 1 + (T - 2)
            · have a3 : j < T := by omega
              simp [hj0, hjl, a3, hjm]
            · have a3 : ¬ j < T := by omega
              simp [hj0, hjl, a3, hjm]

/-! ## Copying the frames to the sections, reallocation -/

theorem copy_frames_spec {F : Type} (R : Nat) (cache : List (GroomCurveCache F))
    (fr : Nat → M3 F) (n : Nat) :
    ∀ (i p : Nat) (sections : List (GroomSection F)), i + n ≤ sections.length →
      (∀ m, m < n → (cache[p + R * m]?).map GroomCurveCache.mat = some (fr (i + m))) →
    ∃ out, copy_frames_loop R cache n i p sections = some out ∧
      out.length = sections.length ∧
      ∀ m : Nat, out[m]? = (sections[m]?).map (fun s =>
        if i ≤ m ∧ m < i + n then GroomSection.mk s.flag s.center (fr m) else s) := by
  induction n with
  | zero =>
    intro i p sections _ _
    refine ⟨sections, rfl, rfl, ?_⟩
    intro m
    have h0 : ¬ (i ≤ m ∧ m < i + 0) := by omega
    cases sections[m]? with
    | none => rfl
    | some c => simp only [Option.map_some', if_neg h0]
  | succ n ih =>
    intro i p sections hlen hfr
    obtain ⟨c, hc1, hc2⟩ := getElem?_of_map_eq _ _ _ _ (hfr 0 (by omega))
    simp only [Nat.mul_zero, Nat.add_zero] at hc1 hc2
    have hi : i < sections.length := by omega
    have hs : sections[i]? = some sections[i] := List.getElem?_eq_getElem hi
    obtain ⟨out, ho, hl, hg⟩ := ih (i + 1) (p + R)
      (sections.set i { sections[i] with mat := c.mat }) (by simp; omega)
      (by
        intro m hm
        have := hfr (m + 1) (by omega)
        have e1 : p + R * (m + 1) = p + R + R * m := by ring
        have e2 : i + (m + 1) = i + 1 + m := by omega
        rw [e1, e2] at this
        exact this)
    refine ⟨out, ?_, by simpa using hl, ?_⟩
    · simp [copy_frames_loop, hc1, hs, ho]
    · intro m
      rw [hg, List.getElem?_set]
      by_cases h1 : i = m
      · subst h1
        have h5 : ¬ (i + 1 ≤ i ∧ i < i + 1 + n) := by omega
        have h6 : i ≤ i ∧ i < i + (n + 1) := by omega
        simp [hi, hs, h5, h6, hc2]
      · rw [if_neg h1]
        cases sections[m]? with
        | none => rfl
        | some s =>
          simp only [Option.map_some']
          by_cases h2 : i + 1 ≤ m ∧ m < i + 1 + n
          · have h3 : i ≤ m ∧ m < i + (n + 1) := by omega
            simp [h2, h3]
          · have h3 : ¬ (i ≤ m ∧ m < i + (n + 1)) := by omega
            simp [h2, h3]

theorem realloc_length {F : Type} (old : Option (List (GroomCurveCache F))) (n : Nat)
    (fresh : Nat → GroomCurveCache F) : (MEM_reallocN_id old n fresh).length = n := by
  simp [MEM_reallocN_id]

/-! ## The evaluation of one bundle -/

/-- The sampling phase, for any arithmetic: on a bundle of `N ≥ 1` sections
whose buffer holds `(N - 1) * R + 1` samples it succeeds, keeps the bundle but
for the buffer, and sample `j` gets the position `sample_co ctr N R j`. -/
theorem sample_spec {F : Type} [One F] [Add F] [Sub F] [Mul F] [Div F] [NatCast F]
    (R : Nat) (bundle : GroomBundle F) (ctr : Nat → V3 F) (hc : HasCenters bundle ctr)
    (hN : 1 ≤ bundle.totsections) (hR : 1 ≤ R) (cache : List (GroomCurveCache F))
    (hcache : bundle.curve_cache = some cache)
    (hlen : cache.length = (bundle.totsections - 1) * R + 1)
    (hfit : (bundle.totsections - 1) * R + 1 ≤ INT_MAX) :
    ∃ cs, groom_eval_bundle_sample R bundle = some { bundle with curve_cache := some cs } ∧
      cs.length = cache.length ∧
      ∀ j, j < (bundle.totsections - 1) * R + 1 →
        (cs[j]?).map GroomCurveCache.co = some (sample_co ctr bundle.totsections R j) := by
  have hcomm : (bundle.totsections - 1) * R = R * (bundle.totsections - 1) := Nat.mul_comm _ _
  by_cases h1 : bundle.totsections = 1
  · obtain ⟨s, hs1, hs2⟩ := getElem?_of_map_eq _ _ _ _ (hc.2 0 (by omega))
    have hc0 : cache[0]? = some cache[0] := List.getElem?_eq_getElem (by omega)
    refine ⟨cache.set 0 { cache[0] with co := s.center }, ?_, by simp, ?_⟩
    · simp [groom_eval_bundle_sample, h1, hcache, hc0, hs1]
    · intro j hj
      have hj0 : j = 0 := by
        rw [h1] at hj
        simp at hj
        exact hj
      subst hj0
      have : 0 < cache.length := by omega
      simp [List.getElem?_set, this, sample_co, h1, hs2]
  · by_cases h2 : bundle.totsections = 2
    · obtain ⟨s0, hs01, hs02⟩ := getElem?_of_map_eq _ _ _ _ (hc.2 0 (by omega))
      obtain ⟨s1, hs11, hs12⟩ := getElem?_of_map_eq _ _ _ _ (hc.2 1 (by omega))
      have hlen2 : cache.length = R + 1 := by
        rw [hlen, h2]; simp
      obtain ⟨cs, e, l, g⟩ := section_linear_spec bundle 0 R s0 s1 cache hs01 hs11 hcache
        (by omega) (by simp)
      refine ⟨cs, ?_, l, ?_⟩
      · simp [groom_eval_bundle_sample, h1, h2, e]
      · intro j hj
        have hj2 : j < cache.length := by omega
        have hcj : cache[j]? = some cache[j] := List.getElem?_eq_getElem hj2
        have hr : R * 0 ≤ j ∧ j ≤ R * 0 + R := by omega
        rw [g, hcj]
        simp only [Option.map_some', if_pos hr]
        simp only [sample_co, if_neg h1, if_pos h2, hs02, hs12, Nat.mul_zero, Nat.sub_zero]
    · have h3 : 3 ≤ bundle.totsections := by omega
      obtain ⟨cs, e, l, g⟩ := cubic_loop_spec ctr bundle.totsections R h3 hR
        (bundle.totsections - 1) 0 bundle cache hc rfl (by omega) hcache (by omega) (by omega)
      refine ⟨cs, ?_, l, ?_⟩
      · simp [groom_eval_bundle_sample, h1, h2, e]
      · intro j hj
        have hj2 : j < cache.length := by omega
        have hcj : cache[j]? = some cache[j] := List.getElem?_eq_getElem hj2
        have hr : 0 < bundle.totsections - 1 ∧ R * 0 ≤ j ∧ j ≤ R * (bundle.totsections - 1) := by
          omega
        rw [g, hcj]
        simp only [Option.map_some', if_pos hr, sample_co, if_neg h1, if_neg h2]

/-- The evaluation of one bundle of `N ≥ 1` sections with centers `ctr` whose
cache size fits a C `int`, for any arithmetic, any previous cache and any
contents of fresh memory: it succeeds and yields the cache `eval_cache` and the
sections `eval_sections`. -/
theorem eval_bundle_spec {F : Type} [Zero F] [One F] [Add F] [Sub F] [Mul F] [Div F] [NatCast F]
    (bli : BLIMath F) (R : Nat) (fresh : Nat → GroomCurveCache F) (bundle : GroomBundle F)
    (ctr : Nat → V3 F) (hc : HasCenters bundle ctr) (hN : 1 ≤ bundle.totsections)
    (hR : 1 ≤ R) (hfit : (bundle.totsections - 1) * R + 1 ≤ INT_MAX) :
    groom_eval_bundle bli R fresh bundle
      = some { bundle with
          totcache := (bundle.totsections - 1) * R + 1
          curve_cache := some (eval_cache bli ctr bundle.totsections R)
          sections := eval_sections bli ctr bundle.totsections R bundle.sections } := by
  have hN0 : ¬ bundle.totsections = 0 := by omega
  obtain ⟨cs, es, ls, gs⟩ := sample_spec R
    { bundle with
      totcache := (bundle.totsections - 1) * R + 1
      curve_cache := some (MEM_reallocN_id bundle.curve_cache
        ((bundle.totsections - 1) * R + 1) fresh) }
    ctr hc hN hR
    (MEM_reallocN_id bundle.curve_cache ((bundle.totsections - 1) * R + 1) fresh) rfl
    (realloc_length _ _ _) hfit
  rw [realloc_length] at ls
  simp only at gs
  obtain ⟨cm, em, lm, gm⟩ := mats_spec bli unit_m3 (sample_co ctr bundle.totsections R)
    ((bundle.totsections - 1) * R + 1) cs (by omega) (by omega) gs
  have hcm : cm = eval_cache bli ctr bundle.totsections R := by
    apply List.ext_getElem?
    intro j
    rw [gm]
    unfold eval_cache
    by_cases hj : j < (bundle.totsections - 1) * R + 1
    · obtain ⟨e, he1, he2⟩ := getElem?_of_map_eq _ _ _ _ (gs j hj)
      simp [he1, hj, he2, List.getElem?_range]
    · have h1 : cs[j]? = none := by
        apply List.getElem?_eq_none
        omega
      have h2 : (List.range ((bundle.totsections - 1) * R + 1))[j]? = none := by
        apply List.getElem?_eq_none
        simp only [List.length_range]
        omega
      simp [h1, h2]
  rw [hcm] at em gm
  obtain ⟨out, eo, lo, go⟩ := copy_frames_spec R (eval_cache bli ctr bundle.totsections R)
    (fun m => frames_of bli unit_m3 (sample_co ctr bundle.totsections R)
      ((bundle.totsections - 1) * R + 1) (R * m))
    bundle.totsections 0 0 bundle.sections (by rw [hc.1]; omega)
    (by
      intro m hm
      have hlt : R * m < (bundle.totsections - 1) * R + 1 := by
        have : m ≤ bundle.totsections - 1 := by omega
        have := Nat.mul_le_mul_left R this
        rw [Nat.mul_comm R (bundle.totsections - 1)] at this
        omega
      rw [gm]
      obtain ⟨e, he1, he2⟩ := getElem?_of_map_eq _ _ _ _ (gs (R * m) hlt)
      simp [he1, hlt])
  have hout : out = eval_sections bli ctr bundle.totsections R bundle.sections := by
    apply List.ext_getElem?
    intro m
    rw [go]
    unfold eval_sections
    rw [List.getElem?_mapIdx]
    cases hs : bundle.sections[m]? with
    | none => rfl
    | some s =>
      have hm : m < bundle.sections.length := by
        by_contra hcon
        have := List.getElem?_eq_none (l := bundle.sections) (n := m) (by omega)
        rw [this] at hs
        cases hs
      have hr : 0 ≤ m ∧ m < 0 + bundle.totsections := by
        rw [← hc.1]; omega
      simp only [Option.map_some', if_pos hr]
  rw [hout] at eo
  simp only [groom_eval_bundle, if_neg hN0, int_value_eq _ hfit, es, em, eo,
    Option.bind_eq_bind, Option.some_bind]

/-! ## The loop over the bundles -/

theorem exists_centers {F : Type} (bundle : GroomBundle F)
    (hlen : bundle.sections.length = bundle.totsections) (hN : 1 ≤ bundle.totsections) :
    ∃ ctr, HasCenters bundle ctr := by
  have h0 : 0 < bundle.sections.length := by omega
  refine ⟨fun i => ((bundle.sections[i]?).map GroomSection.center).getD
    (bundle.sections[0]).center, hlen, ?_⟩
  intro i hi
  have : bundle.sections[i]? = some bundle.sections[i] :=
    List.getElem?_eq_getElem (by omega)
  simp [this]

/-- A bundle whose section array has `totsections` sections and whose cache
size fits a C `int` is evaluated whatever else it holds. -/
theorem eval_bundle_succeeds {F : Type} [Zero F] [One F] [Add F] [Sub F] [Mul F] [Div F]
    [NatCast F] (bli : BLIMath F) (R : Nat) (fresh : Nat → GroomCurveCache F)
    (bundle : GroomBundle F) (hlen : bundle.sections.length = bundle.totsections)
    (hR : 1 ≤ R) (hfit : (bundle.totsections - 1) * R + 1 ≤ INT_MAX) :
    ∃ bundle1, groom_eval_bundle bli R fresh bundle = some bundle1 := by
  by_cases h0 : bundle.totsections = 0
  · cases hcc : bundle.curve_cache with
    | none => exact ⟨bundle, by simp [groom_eval_bundle, h0, hcc]⟩
    | some c =>
      exact ⟨{ bundle with curve_cache := none, totcache := 0 },
        by simp [groom_eval_bundle, h0, hcc]⟩
  · obtain ⟨ctr, hc⟩ := exists_centers bundle hlen (by omega)
    exact ⟨_, eval_bundle_spec bli R fresh bundle ctr hc (by omega) hR hfit⟩

/-- The evaluation of a bundle with at least one section whose cache size is
not a C `int` fails. -/
theorem eval_bundle_overflow {F : Type} [Zero F] [One F] [Add F] [Sub F] [Mul F] [Div F]
    [NatCast F] (bli : BLIMath F) (R : Nat) (fr : Nat → GroomCurveCache F)
    (b : GroomBundle F) (hN : 1 ≤ b.totsections)
    (hbig : INT_MAX < (b.totsections - 1) * R + 1) :
    groom_eval_bundle bli R fr b = none := by
  have hN0 : ¬ b.totsections = 0 := by omega
  simp only [groom_eval_bundle, if_neg hN0, int_value_overflow _ hbig, Option.bind_eq_bind,
    Option.none_bind]

theorem eval_bundles_spec {F : Type} [Zero F] [One F] [Add F] [Sub F] [Mul F] [Div F]
    [NatCast F] (bli : BLIMath F) (R : Nat) (fresh : Nat → Nat → GroomCurveCache F) :
    ∀ (bundles : List (GroomBundle F)) (j0 : Nat),
      (∀ b ∈ bundles, ∀ fr, ∃ b1, groom_eval_bundle bli R fr b = some b1) →
    ∃ out, groom_eval_bundles bli R fresh j0 bundles = some out ∧
      out.length = bundles.length ∧
      ∀ (m : Nat) (b : GroomBundle F), bundles[m]? = some b →
        out[m]? = groom_eval_bundle bli R (fresh (j0 + m)) b := by
  intro bundles
  induction bundles with
  | nil =>
    intro j0 _
    exact ⟨[], rfl, rfl, by intro m b h; simp at h⟩
  | cons b rest ih =>
    intro j0 hall
    obtain ⟨b1, hb1⟩ := hall b (List.mem_cons_self _ _) (fresh j0)
    obtain ⟨out, ho, hl, hg⟩ := ih (j0 + 1)
      (fun x hx fr => hall x (List.mem_cons_of_mem _ hx) fr)
    refine ⟨b1 :: out, ?_, by simp [hl], ?_⟩
    · simp [groom_eval_bundles, hb1, ho]
    · intro m x hx
      cases m with
      | zero =>
        simp only [List.getElem?_cons_zero, Option.some.injEq] at hx
        subst hx
        simp [hb1]
      | succ m =>
        simp only [List.getElem?_cons_succ] at hx
        have := hg m x hx
        simp only [List.getElem?_cons_succ]
        rw [this]
        have e : j0 + 1 + m = j0 + (m + 1) := by omega
        rw [e]

/-- The evaluation of a well-formed asset at resolution at least 1 succeeds,
and bundle `m` of the live list becomes what `groom_eval_bundle` makes of it. -/
theorem eval_live_spec {F : Type} [Zero F] [One F] [Add F] [Sub F] [Mul F] [Div F]
    [NatCast F] (bli : BLIMath F) (fresh : Nat → Nat → GroomCurveCache F) (groom : Groom F)
    (hwf : LiveWellFormed groom) (hR : 1 ≤ groom.curve_res) :
    ∃ groom1, BKE_groom_eval_curve_cache bli fresh groom = some groom1 ∧
      groom1.curve_res = groom.curve_res ∧
      (live_bundles groom1).length = (live_bundles groom).length ∧
      ∀ (m : Nat) (b : GroomBundle F), (live_bundles groom)[m]? = some b →
        (live_bundles groom1)[m]? = groom_eval_bundle bli groom.curve_res (fresh m) b := by
  have hall : ∀ b ∈ live_bundles groom, ∀ fr,
      ∃ b1, groom_eval_bundle bli groom.curve_res fr b = some b1 :=
    fun b hb fr => eval_bundle_succeeds bli groom.curve_res fr b (hwf b hb).1 hR (hwf b hb).2
  obtain ⟨out, ho, hl, hg⟩ := eval_bundles_spec bli groom.curve_res fresh (live_bundles groom) 0
    hall
  simp only [Nat.zero_add] at hg
  cases he : groom.editgroom with
  | none =>
    simp only [live_bundles, he] at ho hl hg
    refine ⟨{ groom with bundles := out }, ?_, rfl, ?_, ?_⟩
    · simp [BKE_groom_eval_curve_cache, he, ho]
    · simp [live_bundles, he, hl]
    · intro m b hb
      simp only [live_bundles, he] at hb ⊢
      exact hg m b hb
  | some edit =>
    simp only [live_bundles, he] at ho hl hg
    refine ⟨{ groom with editgroom := some { edit with bundles := out } }, ?_, rfl, ?_, ?_⟩
    · simp [BKE_groom_eval_curve_cache, he, ho]
    · simp [live_bundles, he, hl]
    · intro m b hb
      simp only [live_bundles, he] at hb ⊢
      exact hg m b hb

/-! ## Claims -/

theorem mem_of_getElem? {α : Type} (l : List α) (m : Nat) (a : α) (h : l[m]? = some a) :
    a ∈ l := by
  rw [List.getElem?_eq_some] at h
  obtain ⟨hm, rfl⟩ := h
  exact List.getElem_mem hm

theorem eval_cache_length {F : Type} [Zero F] [One F] [Add F] [Sub F] [Mul F] [Div F]
    [NatCast F] (bli : BLIMath F) (ctr : Nat → V3 F) (N R : Nat) :
    (eval_cache bli ctr N R).length = (N - 1) * R + 1 := by
  simp [eval_cache]

theorem eval_cache_getElem? {F : Type} [Zero F] [One F] [Add F] [Sub F] [Mul F] [Div F]
    [NatCast F] (bli : BLIMath F) (ctr : Nat → V3 F) (N R j : Nat)
    (hj : j < (N - 1) * R + 1) :
    (eval_cache bli ctr N R)[j]? = some (GroomCurveCache.mk (sample_co ctr N R j)
      (frames_of bli unit_m3 (sample_co ctr N R) ((N - 1) * R + 1) j)) := by
  have h : (List.range ((N - 1) * R + 1))[j]? = some j := by
    rw [List.getElem?_eq_some]
    exact ⟨by simpa using hj, by simp⟩
  simp [eval_cache, h]

/-- C1 (amended): for every asset with curve resolution `R ≥ 1` whose live
bundles are well formed, that is, each has a section array of `totsections`
sections and a cache size `(N-1)*R + 1` that is representable in the C `int` it
is computed in, `BKE_groom_eval_curve_cache` succeeds, and every bundle of the
live list with `totsections = N ≥ 1` ends with `totcache = (N-1)*R + 1` and a
curve cache of exactly that many samples.  Holds for any float arithmetic. -/
theorem C1_totcache_formula {F : Type} [Zero F] [One F] [Add F] [Sub F] [Mul F] [Div F]
    [NatCast F] (bli : BLIMath F) (fresh : Nat → Nat → GroomCurveCache F) (groom : Groom F)
    (hwf : LiveWellFormed groom) (hR : 1 ≤ groom.curve_res) :
    ∃ groom1, BKE_groom_eval_curve_cache bli fresh groom = some groom1 ∧
      ∀ (m : Nat) (b : GroomBundle F), (live_bundles groom)[m]? = some b →
        1 ≤ b.totsections →
        ∃ b1 cache, (live_bundles groom1)[m]? = some b1 ∧
          b1.totsections = b.totsections ∧
          b1.totcache = (b.totsections - 1) * groom.curve_res + 1 ∧
          b1.curve_cache = some cache ∧
          cache.length = (b.totsections - 1) * groom.curve_res + 1 := by
  obtain ⟨groom1, h1, _, _, h4⟩ := eval_live_spec bli fresh groom hwf hR
  refine ⟨groom1, h1, ?_⟩
  intro m b hb hN
  obtain ⟨ctr, hc⟩ := exists_centers b (hwf b (mem_of_getElem? _ m b hb)).1 hN
  rw [h4 m b hb, eval_bundle_spec bli groom.curve_res (fresh m) b ctr hc hN hR
    (hwf b (mem_of_getElem? _ m b hb)).2]
  exact ⟨_, _, rfl, rfl, rfl, rfl, eval_cache_length _ _ _ _⟩

/-- Witness of C1: an asset at resolution 2 with one bundle of three sections
ends with `totcache = 5` and a cache of 5 samples. -/
theorem C1_totcache_formula_witness :
    LiveWellFormed (groom_of 2 [bundle_of [section_at 0 0 0, section_at 1 0 0, section_at 1 1 0]])
    ∧ ∃ groom1 b1 cache,
      BKE_groom_eval_curve_cache unitBLI (fun _ _ => sample_at 9 9 9)
        (groom_of 2 [bundle_of [section_at 0 0 0, section_at 1 0 0, section_at 1 1 0]])
        = some groom1 ∧
      (live_bundles groom1)[0]? = some b1 ∧ b1.totcache = 5 ∧
      b1.curve_cache = some cache ∧ cache.length = 5 := by
  have hwf : LiveWellFormed
      (groom_of 2 [bundle_of [section_at 0 0 0, section_at 1 0 0, section_at 1 1 0]]) := by
    intro b hb
    simp [live_bundles, groom_of] at hb
    subst hb
    exact ⟨rfl, by decide⟩
  refine ⟨hwf, ?_⟩
  obtain ⟨groom1, h1, h2⟩ := C1_totcache_formula unitBLI (fun _ _ => sample_at 9 9 9)
    (groom_of 2 [bundle_of [section_at 0 0 0, section_at 1 0 0, section_at 1 1 0]]) hwf
    (by decide)
  obtain ⟨b1, cache, e1, _, e3, e4, e5⟩ := h2 0 _ rfl (by decide)
  exact ⟨groom1, b1, cache, h1, e1, e3, e4, e5⟩

/-- C1 as stated fails: two sections at resolution `INT_MAX`; the size
`(2-1) * INT_MAX + 1 = 2^31` that line 371 computes is not a C `int`, the
evaluation is undefined and the bundle gets no cache of that many samples. -/
theorem C1_counterexample_int_overflow :
    (bundle_of [section_at 0 0 0, section_at 1 0 0]).sections.length
      = (bundle_of [section_at 0 0 0, section_at 1 0 0]).totsections ∧
    1 ≤ (groom_of 2147483647 [bundle_of [section_at 0 0 0, section_at 1 0 0]]).curve_res ∧
    INT_MAX < (2 - 1) * 2147483647 + 1 ∧
    BKE_groom_eval_curve_cache unitBLI (fun _ _ => sample_at 9 9 9)
      (groom_of 2147483647 [bundle_of [section_at 0 0 0, section_at 1 0 0]]) = none := by
  refine ⟨rfl, by decide, by decide, ?_⟩
  have h := eval_bundle_overflow unitBLI 2147483647 (fun _ => sample_at 9 9 9)
    (bundle_of [section_at 0 0 0, section_at 1 0 0]) (by decide) (by decide)
  simp [BKE_groom_eval_curve_cache, groom_of, groom_eval_bundles, h]

/-- C2: for every bundle of the live list with exactly one section and every
`R ≥ 1`, after `BKE_groom_eval_curve_cache` the cache has exactly one sample and
its position is the center of the single section.  Holds for any float
arithmetic. -/
theorem C2_single_section_cache {F : Type} [Zero F] [One F] [Add F] [Sub F] [Mul F] [Div F]
    [NatCast F] (bli : BLIMath F) (fresh : Nat → Nat → GroomCurveCache F) (groom : Groom F)
    (hwf : LiveWellFormed groom) (hR : 1 ≤ groom.curve_res) :
    ∃ groom1, BKE_groom_eval_curve_cache bli fresh groom = some groom1 ∧
      ∀ (m : Nat) (b : GroomBundle F) (s : GroomSection F),
        (live_bundles groom)[m]? = some b → b.totsections = 1 → b.sections[0]? = some s →
        ∃ b1 c, (live_bundles groom1)[m]? = some b1 ∧ b1.totcache = 1 ∧
          b1.curve_cache = some [c] ∧ c.co = s.center := by
  obtain ⟨groom1, h1, _, _, h4⟩ := eval_live_spec bli fresh groom hwf hR
  refine ⟨groom1, h1, ?_⟩
  intro m b s hb hN hs
  obtain ⟨ctr, hc⟩ := exists_centers b (hwf b (mem_of_getElem? _ m b hb)).1 (by omega)
  have hctr : ctr 0 = s.center := by
    have := hc.2 0 (by omega)
    rw [hs] at this
    simpa using this.symm
  rw [h4 m b hb, eval_bundle_spec bli groom.curve_res (fresh m) b ctr hc (by omega) hR
    (hwf b (mem_of_getElem? _ m b hb)).2]
  refine ⟨_, GroomCurveCache.mk (ctr 0) (frames_of bli unit_m3
    (sample_co ctr 1 groom.curve_res) 1 0), rfl, by simp [hN], ?_, hctr⟩
  simp only [hN, eval_cache, sample_co, Nat.sub_self, Nat.zero_mul, Nat.zero_add, if_true]
  rfl

/-- Witness of C2: an asset at resolution 3 with one bundle of one section at
`(4, 5, 6)` ends with the one-sample cache at `(4, 5, 6)`. -/
theorem C2_single_section_cache_witness :
    LiveWellFormed (groom_of 3 [bundle_of [section_at 4 5 6]])
    ∧ ∃ groom1 b1 c,
      BKE_groom_eval_curve_cache unitBLI (fun _ _ => sample_at 9 9 9)
        (groom_of 3 [bundle_of [section_at 4 5 6]]) = some groom1 ∧
      (live_bundles groom1)[0]? = some b1 ∧
      b1.curve_cache = some [c] ∧ c.co = vec3 4 5 6 := by
  have hwf : LiveWellFormed (groom_of 3 [bundle_of [section_at 4 5 6]]) := by
    intro b hb
    simp [live_bundles, groom_of] at hb
    subst hb
    exact ⟨rfl, by decide⟩
  refine ⟨hwf, ?_⟩
  obtain ⟨groom1, h1, h2⟩ := C2_single_section_cache unitBLI (fun _ _ => sample_at 9 9 9)
    (groom_of 3 [bundle_of [section_at 4 5 6]]) hwf (by decide)
  obtain ⟨b1, c, e1, _, e3, e4⟩ := h2 0 _ (section_at 4 5 6) rfl rfl rfl
  exact ⟨groom1, b1, c, h1, e1, e3, e4⟩

/-- C3 (amended): in exact arithmetic (a field of characteristic zero in place of
the C `float`), for every bundle of the live list of a well-formed asset (cache
sizes representable as C `int`) with exactly two sections, centers `center0`
and `center1`, and every `R ≥ 1`, after the evaluation the cache has `R + 1`
samples and the position of sample `k`, `0 ≤ k ≤ R`, is
`center0 + k * (center1 - center0) / R`; sample 0 is `center0` and sample `R` is
`center1`. -/
theorem C3_two_sections_linear {F : Type} [Field F] [CharZero F]
    (bli : BLIMath F) (fresh : Nat → Nat → GroomCurveCache F) (groom : Groom F)
    (hwf : LiveWellFormed groom) (hR : 1 ≤ groom.curve_res) :
    ∃ groom1, BKE_groom_eval_curve_cache bli fresh groom = some groom1 ∧
      ∀ (m : Nat) (b : GroomBundle F) (s0 s1 : GroomSection F),
        (live_bundles groom)[m]? = some b → b.totsections = 2 →
        b.sections[0]? = some s0 → b.sections[1]? = some s1 →
        ∃ b1 cache, (live_bundles groom1)[m]? = some b1 ∧ b1.curve_cache = some cache ∧
          cache.length = groom.curve_res + 1 ∧
          (∀ k, k ≤ groom.curve_res →
            (cache[k]?).map GroomCurveCache.co = some (fun ax =>
              s0.center ax + (k : F) * (s1.center ax - s0.center ax) / (groom.curve_res : F))) ∧
          (cache[0]?).map GroomCurveCache.co = some s0.center ∧
          (cache[groom.curve_res]?).map GroomCurveCache.co = some s1.center := by
  obtain ⟨groom1, h1, _, _, h4⟩ := eval_live_spec bli fresh groom hwf hR
  refine ⟨groom1, h1, ?_⟩
  intro m b s0 s1 hb hN hs0 hs1
  obtain ⟨ctr, hc⟩ := exists_centers b (hwf b (mem_of_getElem? _ m b hb)).1 (by omega)
  have hctr0 : ctr 0 = s0.center := by
    have := hc.2 0 (by omega)
    rw [hs0] at this
    simpa using this.symm
  have hctr1 : ctr 1 = s1.center := by
    have := hc.2 1 (by omega)
    rw [hs1] at this
    simpa using this.symm
  have hne : (groom.curve_res : F) ≠ 0 := by
    have : groom.curve_res ≠ 0 := by omega
    exact_mod_cast this
  have hT : (b.totsections - 1) * groom.curve_res + 1 = groom.curve_res + 1 := by
    rw [hN]; simp
  have key : ∀ k, k ≤ groom.curve_res →
      ((eval_cache bli ctr b.totsections groom.curve_res)[k]?).map GroomCurveCache.co
        = some (fun ax =>
          s0.center ax + (k : F) * (s1.center ax - s0.center ax) / (groom.curve_res : F)) := by
    intro k hk
    rw [eval_cache_getElem? bli ctr b.totsections groom.curve_res k (by omega)]
    simp only [Option.map_some', Option.some.injEq]
    funext ax
    have h12 : ¬ (2 : Nat) = 1 := by decide
    simp only [sample_co, hN, if_neg h12, if_true, linear_state_eq, mul_v3_fl, sub_v3_v3v3,
      hctr0, hctr1]
    field_simp
  rw [h4 m b hb, eval_bundle_spec bli groom.curve_res (fresh m) b ctr hc (by omega) hR
    (hwf b (mem_of_getElem? _ m b hb)).2]
  refine ⟨_, _, rfl, rfl, ?_, key, ?_, ?_⟩
  · rw [eval_cache_length, hT]
  · rw [key 0 (by omega)]
    congr 1
    funext ax
    simp
  · rw [key groom.curve_res (le_refl _)]
    congr 1
    funext ax
    field_simp

/-- Witness of C3: two sections at `(0,0,0)` and `(3,0,0)`, resolution 3: the
cache has 4 samples, sample 1 is at `(1,0,0)`. -/
theorem C3_two_sections_linear_witness :
    LiveWellFormed (groom_of 3 [bundle_of [section_at 0 0 0, section_at 3 0 0]])
    ∧ ∃ groom1 b1 cache,
      BKE_groom_eval_curve_cache unitBLI (fun _ _ => sample_at 9 9 9)
        (groom_of 3 [bundle_of [section_at 0 0 0, section_at 3 0 0]]) = some groom1 ∧
      (live_bundles groom1)[0]? = some b1 ∧ b1.curve_cache = some cache ∧
      cache.length = 4 ∧ ((cache[1]?).map GroomCurveCache.co).map (fun v => v 0) = some 1 := by
  have hwf : LiveWellFormed (groom_of 3 [bundle_of [section_at 0 0 0, section_at 3 0 0]]) := by
    intro b hb
    simp [live_bundles, groom_of] at hb
    subst hb
    exact ⟨rfl, by decide⟩
  refine ⟨hwf, ?_⟩
  obtain ⟨groom1, h1, h2⟩ := C3_two_sections_linear unitBLI (fun _ _ => sample_at 9 9 9)
    (groom_of 3 [bundle_of [section_at 0 0 0, section_at 3 0 0]]) hwf (by decide)
  obtain ⟨b1, cache, e1, e2, e3, e4, _, _⟩ :=
    h2 0 _ (section_at 0 0 0) (section_at 3 0 0) rfl rfl rfl rfl
  refine ⟨groom1, b1, cache, h1, e1, e2, e3, ?_⟩
  rw [e4 1 (by decide)]
  simp [section_at, vec3, groom_of]

theorem unit_hasCenters32 (R : Nat) :
    HasCenters (bundle32 [section32 0 0 0, section32 1 0 0] R) unit_centers32 := by
  refine ⟨rfl, ?_⟩
  intro i hi
  have hi2 : i < 2 := hi
  have : i = 0 ∨ i = 1 := by omega
  rcases this with h | h <;> subst h <;> simp [bundle32, section32, unit_centers32]

set_option maxRecDepth 100000 in
/-- C3 as stated fails in the binary32 arithmetic of the code: two sections at
`(0,0,0)` and `(1,0,0)` at resolution 12; the sampling of the bundle leaves
sample 12 at `x = 1 - 2^-23 = 0.99999988`, not at `center1`. -/
theorem C3_counterexample_binary32 :
    ∃ cache e,
      groom_eval_bundle_sample 12 (bundle32 [section32 0 0 0, section32 1 0 0] 12)
        = some { bundle32 [section32 0 0 0, section32 1 0 0] 12 with
            curve_cache := some cache } ∧
      cache[12]? = some e ∧
      e.co 0 = Binary32.mk ((2 ^ 24 - 2) * 2 ^ 125) ∧
      e.co 0 ≠ (section32 1 0 0).center 0 := by
  obtain ⟨cs, h1, _, h3⟩ := sample_spec 12 (bundle32 [section32 0 0 0, section32 1 0 0] 12)
    unit_centers32 (unit_hasCenters32 12) (by decide) (by decide) _ rfl (by simp [bundle32])
    (by decide)
  obtain ⟨e, he1, he0⟩ := getElem?_of_map_eq _ _ _ _ (h3 12 (by decide))
  have he2 : e.co = sample_co unit_centers32 2 12 12 := he0
  have hv : sample_co unit_centers32 2 12 12 0 = Binary32.mk ((2 ^ 24 - 2) * 2 ^ 125) := by
    decide
  refine ⟨cs, e, h1, he1, ?_, ?_⟩
  · rw [he2]
    exact hv
  · rw [he2, hv]
    decide

/-- C4 (amended): in exact arithmetic (a field in place of the C `float`), for
every section array of `N ≥ 3` sections with centers `ctr`, every segment `i`
(`0 ≤ i ≤ N - 2`) and every axis `k`, the coefficients `(a, b, c, d)` that
`groom_eval_curve_cache_section_cubic` computes define the cubic
`p(t) = a t^3 + b t^2 + c t + d` with `p(0) = center[i]`, `p(1) = center[i+1]`,
`p'(0) = n1` and `p'(1) = n2`, where `n1 = center[1] - center[0]`,
`n2 = 0.5 (center[2] - center[0])` for the first segment,
`n1 = 0.5 (center[N-1] - center[N-3])`, `n2 = center[N-1] - center[N-2]` for the
last one and `n1 = 0.5 (center[i+1] - center[i-1])`,
`n2 = 0.5 (center[i+2] - center[i])` for every other segment. -/
theorem C4_hermite_interpolant {F : Type} [Field F]
    (sections : List (GroomSection F)) (ctr : Nat → V3 F) (N : Nat)
    (hc : ∀ i, i < N → (sections[i]?).map GroomSection.center = some (ctr i))
    (hN : 3 ≤ N) (i : Nat) (hi : i + 2 ≤ N) (k : Fin 3) :
    ∃ a b c d n1 n2 : F,
      cubic_coeffs sections N i k = some (a, b, c, d) ∧
      cubic_tangents sections N i k = some (n1, n2) ∧
      Polynomial.eval 0 (Polynomial.C a * Polynomial.X ^ 3 + Polynomial.C b * Polynomial.X ^ 2
        + Polynomial.C c * Polynomial.X + Polynomial.C d) = ctr i k ∧
      Polynomial.eval 1 (Polynomial.C a * Polynomial.X ^ 3 + Polynomial.C b * Polynomial.X ^ 2
        + Polynomial.C c * Polynomial.X + Polynomial.C d) = ctr (i + 1) k ∧
      Polynomial.eval 0 (Polynomial.derivative (Polynomial.C a * Polynomial.X ^ 3
        + Polynomial.C b * Polynomial.X ^ 2 + Polynomial.C c * Polynomial.X + Polynomial.C d))
        = n1 ∧
      Polynomial.eval 1 (Polynomial.derivative (Polynomial.C a * Polynomial.X ^ 3
        + Polynomial.C b * Polynomial.X ^ 2 + Polynomial.C c * Polynomial.X + Polynomial.C d))
        = n2 ∧
      (i = 0 → n1 = ctr 1 k - ctr 0 k ∧ n2 = (1 / 2) * (ctr 2 k - ctr 0 k)) ∧
      (i ≠ 0 → i + 2 = N →
        n1 = (1 / 2) * (ctr (N - 1) k - ctr (N - 3) k) ∧ n2 = ctr (N - 1) k - ctr (N - 2) k) ∧
      (i ≠ 0 → i + 2 ≠ N →
        n1 = (1 / 2) * (ctr (i + 1) k - ctr (i - 1) k) ∧
        n2 = (1 / 2) * (ctr (i + 2) k - ctr i k)) := by
  refine ⟨(coeffs_of ctr N i k).1, (coeffs_of ctr N i k).2.1, (coeffs_of ctr N i k).2.2.1,
    (coeffs_of ctr N i k).2.2.2, (tangents_of ctr N i k).1, (tangents_of ctr N i k).2,
    cubic_coeffs_eq sections ctr N hc hN i hi k, cubic_tangents_eq sections ctr N hc hN i hi k,
    ?_, ?_, ?_, ?_, ?_, ?_, ?_⟩
  · simp [coeffs_of, hermite_coeffs]
  · simp only [coeffs_of, hermite_coeffs, Polynomial.eval_add, Polynomial.eval_mul,
      Polynomial.eval_C, Polynomial.eval_pow, Polynomial.eval_X]
    ring
  · simp [coeffs_of, hermite_coeffs]
  · simp only [coeffs_of, hermite_coeffs, Polynomial.derivative_add, Polynomial.derivative_mul,
      Polynomial.derivative_C, Polynomial.derivative_X_pow, Polynomial.derivative_X,
      Polynomial.eval_add, Polynomial.eval_mul, Polynomial.eval_C, Polynomial.eval_pow,
      Polynomial.eval_X, Polynomial.eval_zero, Polynomial.eval_one, Polynomial.eval_natCast,
      Polynomial.C_eq_natCast]
    simp
    ring
  · intro h0
    subst h0
    simp [tangents_of]
  · intro h0 hl
    have e : (i : Int) = (N : Int) - 2 := by omega
    have e1 : N - 1 = i + 1 := by omega
    have e2 : N - 3 = i - 1 := by omega
    have e3 : N - 2 = i := by omega
    simp only [tangents_of, if_neg h0, if_pos e, e1, e2, e3, and_self]
  · intro h0 hl
    have e : ¬ (i : Int) = (N : Int) - 2 := by omega
    simp only [tangents_of, if_neg h0, if_neg e, and_self]

/-- Witness of C4: the middle segment of four collinear sections. -/
theorem C4_hermite_interpolant_witness :
    ∃ a b c d n1 n2 : ℚ,
      cubic_coeffs [section_at 0 0 0, section_at 1 0 0, section_at 2 0 0, section_at 3 0 0]
        4 1 0 = some (a, b, c, d) ∧
      cubic_tangents [section_at 0 0 0, section_at 1 0 0, section_at 2 0 0, section_at 3 0 0]
        4 1 0 = some (n1, n2) ∧
      n1 = (1 / 2) * (line_centers 2 0 - line_centers 0 0) := by
  obtain ⟨a, b, c, d, n1, n2, h1, h2, _, _, _, _, _, _, h9⟩ := C4_hermite_interpolant
    [section_at 0 0 0, section_at 1 0 0, section_at 2 0 0, section_at 3 0 0] line_centers 4
    (by
      intro i hi
      have : i = 0 ∨ i = 1 ∨ i = 2 ∨ i = 3 := by omega
      rcases this with h | h | h | h <;> subst h <;>
        simp [section_at, line_centers])
    (by decide) 1 (by decide) 0
  exact ⟨a, b, c, d, n1, n2, h1, h2, (h9 (by decide) (by decide)).1⟩

theorem segment_co_zero {F : Type} [One F] [Add F] [Sub F] [Mul F] [Div F] [NatCast F]
    (ctr : Nat → V3 F) (N R i : Nat) : segment_co ctr N R i 0 = ctr i := by
  funext k
  simp [segment_co, fd_value, fd_state, coeffs_of, hermite_coeffs]

theorem segment_co_last {F : Type} [Field F] [CharZero F] (ctr : Nat → V3 F) (N R i : Nat)
    (hR : 1 ≤ R) : segment_co ctr N R i R = ctr (i + 1) := by
  have hne : (R : F) ≠ 0 := by
    have : R ≠ 0 := by omega
    exact_mod_cast this
  funext k
  simp only [segment_co, fd_value_eq, div_self hne, coeffs_of, hermite_coeffs]
  ring

theorem mul_succ_le (R i N : Nat) (hi : i + 2 ≤ N) : R * i + R ≤ (N - 1) * R := by
  have h : i + 1 ≤ N - 1 := by omega
  have := Nat.mul_le_mul_right R h
  rw [Nat.add_mul, Nat.one_mul, Nat.mul_comm i R] at this
  exact this

theorem line_hasCenters32 (c0 v : V3 Binary32) (R : Nat) :
    HasCenters (bundle32 (line_sections32 c0 v) R) (progression32 c0 v) := by
  refine ⟨rfl, ?_⟩
  intro i hi
  have hi2 : i < 3 := hi
  have : i = 0 ∨ i = 1 ∨ i = 2 := by omega
  rcases this with h | h | h <;> subst h <;> rfl

set_option maxRecDepth 100000 in
/-- C4 as stated fails in the binary32 arithmetic of the code: for the centers
`0`, `0.1f`, `0.2f` on the x axis the first segment gets the coefficients
`(0, 2^-27, 0.1f, 0)` and the tangents `n1 = n2 = 0.1f`; the cubic they define
has `p(1) = 0.1f + 2^-27`, not `center[1] = 0.1f`, and `p'(1) = 0.1f + 2^-26`,
not `n2`. -/
theorem C4_counterexample_binary32 :
    ∃ a b c d n1 n2 : Binary32,
      cubic_coeffs (line_sections32 (vec32 0 0 0) (vec32 tenth32 0 0)) 3 0 0
        = some (a, b, c, d) ∧
      cubic_tangents (line_sections32 (vec32 0 0 0) (vec32 tenth32 0 0)) 3 0 0
        = some (n1, n2) ∧
      b = Binary32.mk (2 ^ 122) ∧
      Polynomial.eval 1 (Polynomial.C a.toRat * Polynomial.X ^ 3
        + Polynomial.C b.toRat * Polynomial.X ^ 2 + Polynomial.C c.toRat * Polynomial.X
        + Polynomial.C d.toRat) ≠ (progression32 (vec32 0 0 0) (vec32 tenth32 0 0) 1 0).toRat ∧
      Polynomial.eval 1 (Polynomial.derivative (Polynomial.C a.toRat * Polynomial.X ^ 3
        + Polynomial.C b.toRat * Polynomial.X ^ 2 + Polynomial.C c.toRat * Polynomial.X
        + Polynomial.C d.toRat)) ≠ n2.toRat := by
  have hco : cubic_coeffs (line_sections32 (vec32 0 0 0) (vec32 tenth32 0 0)) 3 0 0
      = some (Binary32.mk 0, Binary32.mk (2 ^ 122), Binary32.mk (13421773 * 2 ^ 122),
          Binary32.mk 0) := by decide
  have hta : cubic_tangents (line_sections32 (vec32 0 0 0) (vec32 tenth32 0 0)) 3 0 0
      = some (Binary32.mk (13421773 * 2 ^ 122), Binary32.mk (13421773 * 2 ^ 122)) := by decide
  have hce : progression32 (vec32 0 0 0) (vec32 tenth32 0 0) 1 0
      = Binary32.mk (13421773 * 2 ^ 122) := by decide
  refine ⟨_, _, _, _, _, _, hco, hta, rfl, ?_, ?_⟩
  · rw [hce]
    simp only [Binary32.toRat, Polynomial.eval_add, Polynomial.eval_mul, Polynomial.eval_C,
      Polynomial.eval_pow, Polynomial.eval_X]
    norm_num
  · simp only [Binary32.toRat, Polynomial.derivative_add, Polynomial.derivative_mul,
      Polynomial.derivative_C, Polynomial.derivative_X_pow, Polynomial.derivative_X,
      Polynomial.eval_add, Polynomial.eval_mul, Polynomial.eval_C, Polynomial.eval_pow,
      Polynomial.eval_X, Polynomial.eval_zero, Polynomial.eval_one, Polynomial.eval_natCast,
      Polynomial.C_eq_natCast]
    norm_num

/-- C6 (amended): in exact arithmetic (a field of characteristic zero in place of
the C `float`), for every bundle with `N ≥ 3` sections with centers `ctr`, every
`R ≥ 1` with a cache size `(N-1)*R + 1` representable as a C `int`, and every
interior junction (segment `i` with `0 ≤ i < N - 2`), the position that
sampling segment `i` writes at its last step, element `R * i + R`, and the
position that sampling segment `i + 1` writes at its first step, element
`R * (i + 1)`, are both `center[i+1]`; the two elements are the same one, and it
holds `center[i+1]` after all segments are sampled. -/
theorem C6_junction_continuity {F : Type} [Field F] [CharZero F]
    (bundle : GroomBundle F) (ctr : Nat → V3 F) (hc : HasCenters bundle ctr)
    (hN : 3 ≤ bundle.totsections) (R : Nat) (hR : 1 ≤ R)
    (cache : List (GroomCurveCache F)) (hcache : bundle.curve_cache = some cache)
    (hlen : cache.length = (bundle.totsections - 1) * R + 1)
    (hfit : (bundle.totsections - 1) * R + 1 ≤ INT_MAX)
    (i : Nat) (hi : i + 2 < bundle.totsections) :
    (∃ ca, groom_eval_curve_cache_section_cubic bundle i R
        = some { bundle with curve_cache := some ca } ∧
      (ca[R * i + R]?).map GroomCurveCache.co = some (ctr (i + 1))) ∧
    (∃ cb, groom_eval_curve_cache_section_cubic bundle (i + 1) R
        = some { bundle with curve_cache := some cb } ∧
      (cb[R * (i + 1)]?).map GroomCurveCache.co = some (ctr (i + 1))) ∧
    R * i + R = R * (i + 1) ∧
    (∃ cf, groom_eval_bundle_sample R bundle = some { bundle with curve_cache := some cf } ∧
      (cf[R * (i + 1)]?).map GroomCurveCache.co = some (ctr (i + 1))) := by
  have hmul : R * (i + 1) = R * i + R := by ring
  have hroom0 := mul_succ_le R i bundle.totsections (by omega)
  have hroom1 := mul_succ_le R (i + 1) bundle.totsections (by omega)
  have hget : cache[R * i + R]? = some cache[R * i + R] :=
    List.getElem?_eq_getElem (by omega)
  refine ⟨?_, ?_, hmul.symm, ?_⟩
  · obtain ⟨ca, e, _, g⟩ := section_cubic_spec bundle ctr hc hN i R (by omega) cache hcache
      (by omega) (by omega)
    refine ⟨ca, e, ?_⟩
    have hin : R * i ≤ R * i + R ∧ R * i + R ≤ R * i + R := by omega
    rw [g, hget]
    simp only [Option.map_some', if_pos hin, Nat.add_sub_cancel_left, segment_co_last _ _ _ _ hR]
  · obtain ⟨cb, e, _, g⟩ := section_cubic_spec bundle ctr hc hN (i + 1) R (by omega) cache
      hcache (by omega) (by omega)
    refine ⟨cb, e, ?_⟩
    have hin : R * (i + 1) ≤ R * (i + 1) ∧ R * (i + 1) ≤ R * (i + 1) + R := by omega
    rw [g, hmul, hget]
    rw [hmul] at hin
    simp only [Option.map_some', if_pos hin, Nat.sub_self]
    rw [segment_co_zero]
  · obtain ⟨cf, e, _, g⟩ := sample_spec R bundle ctr hc (by omega) hR cache hcache hlen hfit
    refine ⟨cf, e, ?_⟩
    rw [g (R * (i + 1)) (by omega)]
    have h1 : ¬ bundle.totsections = 1 := by omega
    have h2 : ¬ bundle.totsections = 2 := by omega
    have hdiv : R * (i + 1) / R = i + 1 := Nat.mul_div_cancel_left (i + 1) (by omega)
    have hmin : min (i + 1) (bundle.totsections - 2) = i + 1 := Nat.min_eq_left (by omega)
    simp only [sample_co, if_neg h1, if_neg h2, cubic_co, hdiv, hmin, Nat.sub_self,
      segment_co_zero]

/-- Witness of C6: four sections at resolution 2, junction of the segments 0
and 1 at cache element 2. -/
theorem C6_junction_continuity_witness :
    HasCenters
      { bundle_of [section_at 0 0 0, section_at 1 0 0, section_at 2 0 0, section_at 3 0 0] with
        curve_cache := some (List.replicate 7 (sample_at 9 9 9)) } line_centers ∧
    (∃ cf, groom_eval_bundle_sample 2
        { bundle_of [section_at 0 0 0, section_at 1 0 0, section_at 2 0 0, section_at 3 0 0] with
          curve_cache := some (List.replicate 7 (sample_at 9 9 9)) }
        = some { bundle_of [section_at 0 0 0, section_at 1 0 0, section_at 2 0 0,
                    section_at 3 0 0] with curve_cache := some cf } ∧
      (cf[2]?).map GroomCurveCache.co = some (line_centers 1)) := by
  have hc : HasCenters
      { bundle_of [section_at 0 0 0, section_at 1 0 0, section_at 2 0 0, section_at 3 0 0] with
        curve_cache := some (List.replicate 7 (sample_at 9 9 9)) } line_centers := by
    refine ⟨rfl, ?_⟩
    intro i hi
    have hi4 : i < 4 := hi
    have : i = 0 ∨ i = 1 ∨ i = 2 ∨ i = 3 := by omega
    rcases this with h | h | h | h <;> subst h <;>
      simp [bundle_of, section_at, line_centers]
  exact ⟨hc, (C6_junction_continuity _ line_centers hc (by decide) 2 (by decide)
    (List.replicate 7 (sample_at 9 9 9)) rfl (by decide) (by decide) 0 (by decide)).2.2.2⟩

theorem corner_hasCenters32 (R : Nat) :
    HasCenters (bundle32 [section32 0 0 0, section32 1 0 0, section32 1 1 0] R)
      corner_centers32 := by
  refine ⟨rfl, ?_⟩
  intro i hi
  have hi2 : i < 3 := hi
  have : i = 0 ∨ i = 1 ∨ i = 2 := by omega
  rcases this with h | h | h <;> subst h <;> simp [bundle32, section32, corner_centers32]

set_option maxRecDepth 100000 in
/-- C6 as stated fails in the binary32 arithmetic of the code: three sections at
`(0,0,0)`, `(1,0,0)`, `(1,1,0)` at resolution 6; the last step of segment 0
leaves element 6 at `y = 2^-28`, the first step of segment 1 writes
`center[1]`, with `y = 0`, to the same element: the two writes differ, and the
stored value is `center[1]` only because segment 1 writes last. -/
theorem C6_counterexample_binary32 :
    ∃ ca cb ea eb,
      groom_eval_curve_cache_section_cubic
        (bundle32 [section32 0 0 0, section32 1 0 0, section32 1 1 0] 6) 0 6
        = some { bundle32 [section32 0 0 0, section32 1 0 0, section32 1 1 0] 6 with
            curve_cache := some ca } ∧
      groom_eval_curve_cache_section_cubic
        (bundle32 [section32 0 0 0, section32 1 0 0, section32 1 1 0] 6) 1 6
        = some { bundle32 [section32 0 0 0, section32 1 0 0, section32 1 1 0] 6 with
            curve_cache := some cb } ∧
      ca[6]? = some ea ∧ cb[6]? = some eb ∧
      ea.co 1 = Binary32.mk (2 ^ 121) ∧
      eb.co = (section32 1 0 0).center ∧
      ea.co 1 ≠ eb.co 1 := by
  have hc := corner_hasCenters32 6
  have hget : (List.replicate 13 (GroomCurveCache.mk (vec32 0 0 0) (unit_m3 : M3 Binary32)))[6]?
      = some (GroomCurveCache.mk (vec32 0 0 0) unit_m3) := by
    simp [List.getElem?_replicate]
  obtain ⟨ca, a1, _, a3⟩ := section_cubic_spec _ corner_centers32 hc (by decide) 0 6 (by decide)
    (List.replicate 13 (GroomCurveCache.mk (vec32 0 0 0) unit_m3)) rfl (by simp) (by decide)
  obtain ⟨cb, b1, _, b3⟩ := section_cubic_spec _ corner_centers32 hc (by decide) 1 6 (by decide)
    (List.replicate 13 (GroomCurveCache.mk (vec32 0 0 0) unit_m3)) rfl (by simp) (by decide)
  have ha := a3 6
  have hb := b3 6
  rw [hget] at ha hb
  have hva : segment_co corner_centers32 3 6 0 6 1 = Binary32.mk (2 ^ 121) := by decide
  have hvb : segment_co corner_centers32 3 6 1 0 = (section32 1 0 0).center := by
    rw [segment_co_zero]
    rfl
  refine ⟨ca, cb, _, _, a1, b1, ha, hb, hva, hvb, ?_⟩
  show segment_co corner_centers32 3 6 0 6 1 ≠ segment_co corner_centers32 3 6 1 0 1
  rw [hva, hvb]
  decide

theorem line_sample_co (j : Nat) (hj : j < 7) :
    sample_co line_centers 4 2 j = vec3 ((j : ℚ) / 2) 0 0 := by
  have h41 : ¬ (4 : Nat) = 1 := by decide
  have h42 : ¬ (4 : Nat) = 2 := by decide
  funext k
  simp only [sample_co, if_neg h41, if_neg h42, cubic_co, segment_co, coeffs_of, tangents_of,
    hermite_coeffs, fd_value, line_centers, vec3]
  interval_cases j <;> fin_cases k <;> norm_num [fd_state]

/-- C7: evaluating a bundle with 4 sections at the centers `(0,0,0)`,
`(1,0,0)`, `(2,0,0)`, `(3,0,0)` at resolution 2 produces 7 samples; every
sampled position has `y = 0` and `z = 0`, and the `x` coordinates are
non-decreasing from 0 (first sample) to 3 (last sample): they are
`0, 1/2, 1, 3/2, 2, 5/2, 3`. -/
theorem C7_end_to_end_line (bli : BLIMath ℚ) (fresh : Nat → Nat → GroomCurveCache ℚ)
    (groom : Groom ℚ) (hwf : LiveWellFormed groom) (hR : groom.curve_res = 2)
    (m : Nat) (b : GroomBundle ℚ) (hb : (live_bundles groom)[m]? = some b)
    (h4 : b.totsections = 4) (hc : HasCenters b line_centers) :
    ∃ groom1 b1 cache, BKE_groom_eval_curve_cache bli fresh groom = some groom1 ∧
      (live_bundles groom1)[m]? = some b1 ∧ b1.curve_cache = some cache ∧
      b1.totcache = 7 ∧ cache.length = 7 ∧
      (∀ e ∈ cache, e.co 1 = 0 ∧ e.co 2 = 0) ∧
      List.Pairwise (fun x y => x ≤ y) (cache.map (fun e => e.co 0)) ∧
      (cache[0]?).map (fun e => e.co 0) = some 0 ∧
      (cache[6]?).map (fun e => e.co 0) = some 3 ∧
      cache.map (fun e => e.co 0) = [0, 1 / 2, 1, 3 / 2, 2, 5 / 2, 3] := by
  obtain ⟨groom1, h1, _, _, h5⟩ := eval_live_spec bli fresh groom hwf (by omega)
  have hev := eval_bundle_spec bli groom.curve_res (fresh m) b line_centers hc (by omega)
    (by omega) (hwf b (mem_of_getElem? _ m b hb)).2
  rw [hR, h4] at hev
  have hcache : eval_cache bli line_centers 4 2
      = (List.range 7).map (fun (j : Nat) => GroomCurveCache.mk (vec3 ((j : ℚ) / 2) 0 0)
          (frames_of bli unit_m3 (sample_co line_centers 4 2) 7 j)) := by
    unfold eval_cache
    apply List.map_congr_left
    intro j hj
    rw [line_sample_co j (by simpa using hj)]
  have hr7 : List.range 7 = [0, 1, 2, 3, 4, 5, 6] := by decide
  rw [hcache, hr7] at hev
  have h6 := h5 m b hb
  rw [hR, hev] at h6
  refine ⟨groom1, _, _, h1, h6, rfl, rfl, ?_, ?_, ?_, ?_, ?_, ?_⟩
  · simp
  · intro e he
    simp only [List.map_cons, List.map_nil, List.mem_cons, List.mem_singleton,
      List.not_mem_nil, or_false] at he
    rcases he with h | h | h | h | h | h | h <;> subst h <;> simp [vec3]
  · simp only [List.map_cons, List.map_nil, vec3]
    norm_num
  · simp [vec3]
  · simp [vec3]
    norm_num
  · simp only [List.map_cons, List.map_nil, vec3]
    norm_num

/-- Witness of C7: the asset whose only bundle has these four sections. -/
theorem C7_end_to_end_line_witness :
    ∃ groom1 b1 cache,
      BKE_groom_eval_curve_cache unitBLI (fun _ _ => sample_at 9 9 9)
        (groom_of 2 [bundle_of [section_at 0 0 0, section_at 1 0 0, section_at 2 0 0,
          section_at 3 0 0]]) = some groom1 ∧
      (live_bundles groom1)[0]? = some b1 ∧ b1.curve_cache = some cache ∧
      cache.map (fun e => e.co 0) = [0, 1 / 2, 1, 3 / 2, 2, 5 / 2, 3] := by
  have hwf : LiveWellFormed (groom_of 2 [bundle_of [section_at 0 0 0, section_at 1 0 0,
      section_at 2 0 0, section_at 3 0 0]]) := by
    intro b hb
    simp [live_bundles, groom_of] at hb
    subst hb
    exact ⟨rfl, by decide⟩
  have hc : HasCenters (bundle_of [section_at 0 0 0, section_at 1 0 0, section_at 2 0 0,
      section_at 3 0 0]) line_centers := by
    refine ⟨rfl, ?_⟩
    intro i hi
    have hi4 : i < 4 := hi
    have : i = 0 ∨ i = 1 ∨ i = 2 ∨ i = 3 := by omega
    rcases this with h | h | h | h <;> subst h <;>
      simp [bundle_of, section_at, line_centers]
  obtain ⟨groom1, b1, cache, h1, h2, h3, _, _, _, _, _, _, h10⟩ :=
    C7_end_to_end_line unitBLI (fun _ _ => sample_at 9 9 9) _ hwf rfl 0 _ rfl rfl hc
  exact ⟨groom1, b1, cache, h1, h2, h3, h10⟩

/-- C8 (amended): for every bundle with `N ≥ 1` sections of the live list of a
well-formed asset (section arrays of `totsections` sections, cache sizes
`(N-1)*R + 1` representable as C `int`) and `R ≥ 1`,
after `BKE_groom_eval_curve_cache` each section `i` (`0 ≤ i < N`) has its frame
equal to the frame of the cache sample at index `R * i`, and that index is
within the cache (`R * i ≤ (N - 1) * R`, below the cache length).  Holds for
any float arithmetic. -/
theorem C8_section_frames_from_cache {F : Type} [Zero F] [One F] [Add F] [Sub F] [Mul F]
    [Div F] [NatCast F] (bli : BLIMath F) (fresh : Nat → Nat → GroomCurveCache F)
    (groom : Groom F) (hwf : LiveWellFormed groom) (hR : 1 ≤ groom.curve_res) :
    ∃ groom1, BKE_groom_eval_curve_cache bli fresh groom = some groom1 ∧
      ∀ (m : Nat) (b : GroomBundle F), (live_bundles groom)[m]? = some b →
        1 ≤ b.totsections →
        ∃ b1 cache, (live_bundles groom1)[m]? = some b1 ∧ b1.curve_cache = some cache ∧
          b1.sections.length = b.totsections ∧
          ∀ i, i < b.totsections →
            groom.curve_res * i ≤ (b.totsections - 1) * groom.curve_res ∧
            groom.curve_res * i < cache.length ∧
            ∃ s e, b1.sections[i]? = some s ∧ cache[groom.curve_res * i]? = some e ∧
              s.mat = e.mat := by
  obtain ⟨groom1, h1, _, _, h4⟩ := eval_live_spec bli fresh groom hwf hR
  refine ⟨groom1, h1, ?_⟩
  intro m b hb hN
  have hlen := (hwf b (mem_of_getElem? _ m b hb)).1
  obtain ⟨ctr, hc⟩ := exists_centers b hlen hN
  rw [h4 m b hb, eval_bundle_spec bli groom.curve_res (fresh m) b ctr hc hN hR
    (hwf b (mem_of_getElem? _ m b hb)).2]
  refine ⟨_, _, rfl, rfl, ?_, ?_⟩
  · simp [eval_sections, hlen]
  · intro i hi
    have hle : groom.curve_res * i ≤ (b.totsections - 1) * groom.curve_res := by
      have h : i ≤ b.totsections - 1 := by omega
      have := Nat.mul_le_mul_left groom.curve_res h
      rw [Nat.mul_comm groom.curve_res (b.totsections - 1)] at this
      exact this
    have hi2 : i < b.sections.length := by omega
    have hs : b.sections[i]? = some b.sections[i] := List.getElem?_eq_getElem hi2
    refine ⟨hle, by rw [eval_cache_length]; omega, ?_⟩
    refine ⟨GroomSection.mk (b.sections[i]).flag (b.sections[i]).center
        (frames_of bli unit_m3 (sample_co ctr b.totsections groom.curve_res)
          ((b.totsections - 1) * groom.curve_res + 1) (groom.curve_res * i)),
      _, ?_, eval_cache_getElem? bli ctr b.totsections groom.curve_res
        (groom.curve_res * i) (by omega), rfl⟩
    simp only [eval_sections, List.getElem?_mapIdx, hs, Option.map_some']

/-- Witness of C8: three sections at resolution 2; section 1 carries the frame
of cache sample 2. -/
theorem C8_section_frames_from_cache_witness :
    LiveWellFormed (groom_of 2 [bundle_of [section_at 0 0 0, section_at 1 0 0, section_at 1 1 0]])
    ∧ ∃ groom1 b1 cache s e,
      BKE_groom_eval_curve_cache unitBLI (fun _ _ => sample_at 9 9 9)
        (groom_of 2 [bundle_of [section_at 0 0 0, section_at 1 0 0, section_at 1 1 0]])
        = some groom1 ∧
      (live_bundles groom1)[0]? = some b1 ∧ b1.curve_cache = some cache ∧
      b1.sections[1]? = some s ∧ cache[2]? = some e ∧ s.mat = e.mat := by
  have hwf : LiveWellFormed
      (groom_of 2 [bundle_of [section_at 0 0 0, section_at 1 0 0, section_at 1 1 0]]) := by
    intro b hb
    simp [live_bundles, groom_of] at hb
    subst hb
    exact ⟨rfl, by decide⟩
  refine ⟨hwf, ?_⟩
  obtain ⟨groom1, h1, h2⟩ := C8_section_frames_from_cache unitBLI (fun _ _ => sample_at 9 9 9)
    (groom_of 2 [bundle_of [section_at 0 0 0, section_at 1 0 0, section_at 1 1 0]]) hwf
    (by decide)
  obtain ⟨b1, cache, e1, e2, _, e4⟩ := h2 0 _ rfl (by decide)
  obtain ⟨_, _, s, e, e5, e6, e7⟩ := e4 1 (by decide)
  exact ⟨groom1, b1, cache, s, e, h1, e1, e2, e5, e6, e7⟩

/-- C8 as stated fails: three sections at resolution `2^30`; the index `R * 2`
of the sample whose frame section 2 should get is `2^31`, not a C `int`, as is
the cache size `2 * 2^30 + 1`: the evaluation is undefined and no section gets
a frame from the cache. -/
theorem C8_counterexample_int_overflow :
    (bundle_of [section_at 0 0 0, section_at 1 0 0, section_at 1 1 0]).sections.length
      = (bundle_of [section_at 0 0 0, section_at 1 0 0, section_at 1 1 0]).totsections ∧
    INT_MAX < 1073741824 * 2 ∧
    BKE_groom_eval_curve_cache unitBLI (fun _ _ => sample_at 9 9 9)
      (groom_of 1073741824 [bundle_of [section_at 0 0 0, section_at 1 0 0, section_at 1 1 0]])
      = none := by
  refine ⟨rfl, by decide, ?_⟩
  have h := eval_bundle_overflow unitBLI 1073741824 (fun _ => sample_at 9 9 9)
    (bundle_of [section_at 0 0 0, section_at 1 0 0, section_at 1 1 0]) (by decide) (by decide)
  simp [BKE_groom_eval_curve_cache, groom_of, groom_eval_bundles, h]

theorem exists_positions {F : Type} (cache : List (GroomCurveCache F)) (T : Nat)
    (hT : 1 ≤ T) (hlen : T ≤ cache.length) :
    ∃ pos : Nat → V3 F, ∀ j, j < T → (cache[j]?).map GroomCurveCache.co = some (pos j) := by
  have h0 : 0 < cache.length := by omega
  refine ⟨fun j => ((cache[j]?).map GroomCurveCache.co).getD (cache[0]).co, ?_⟩
  intro j hj
  have : cache[j]? = some cache[j] := List.getElem?_eq_getElem (by omega)
  simp [this]

/-- C10: in `groom_eval_curve_cache_mats` with `totcache ≥ 2` on a buffer of at
least `totcache` samples, the frame of sample 0 is the base frame rotated by
the rotation that takes the base frame's normalized forward axis (`basemat[2]`)
onto the normalized direction from sample 1 to sample 0,
`normalize(co[0] - co[1])`; the position of the sample is kept.  Holds for any
float arithmetic and any implementation of the BLI_math helpers. -/
theorem C10_first_sample_frame {F : Type} [Sub F] (bli : BLIMath F)
    (cache : List (GroomCurveCache F)) (T : Nat) (basemat : M3 F)
    (hT : 2 ≤ T) (hlen : T ≤ cache.length) :
    ∃ cache1 e0 c0 c1, groom_eval_curve_cache_mats bli cache T basemat = some cache1 ∧
      cache1[0]? = some e0 ∧ cache[0]? = some c0 ∧ cache[1]? = some c1 ∧
      e0.mat = bli.mul_m3_m3m3
        (bli.rotation_between_vecs_to_mat3 (bli.normalize_v3 (basemat 2))
          (bli.normalize_v3 (sub_v3_v3v3 c0.co c1.co)))
        basemat ∧
      e0.co = c0.co := by
  obtain ⟨pos, hpos⟩ := exists_positions cache T (by omega) hlen
  obtain ⟨cache1, h1, _, h3⟩ := mats_spec bli basemat pos T cache (by omega) hlen hpos
  obtain ⟨c0, hc0, hp0⟩ := getElem?_of_map_eq _ _ _ _ (hpos 0 (by omega))
  obtain ⟨c1, hc1, hp1⟩ := getElem?_of_map_eq _ _ _ _ (hpos 1 (by omega))
  have hT0 : 0 < T := by omega
  have hT1 : ¬ T = 1 := by omega
  refine ⟨cache1, GroomCurveCache.mk c0.co (frames_of bli basemat pos T 0), c0, c1, h1, ?_,
    hc0, hc1, ?_, rfl⟩
  · rw [h3, hc0]
    simp only [Option.map_some', if_pos hT0]
  · simp only [frames_of, if_neg hT1, groom_eval_curve_step, hp0, hp1]

/-- Witness of C10: two samples at `(0,0,0)` and `(0,0,-1)`, identity base
frame: the frame of sample 0 is defined and the evaluation succeeds. -/
theorem C10_first_sample_frame_witness :
    (2 ≤ [sample_at 0 0 0, sample_at 0 0 (-1)].length) ∧
    ∃ cache1 e0, groom_eval_curve_cache_mats unitBLI [sample_at 0 0 0, sample_at 0 0 (-1)] 2
        unit_m3 = some cache1 ∧
      cache1[0]? = some e0 ∧
      e0.mat = unitBLI.mul_m3_m3m3
        (unitBLI.rotation_between_vecs_to_mat3 (unitBLI.normalize_v3 (unit_m3 2))
          (unitBLI.normalize_v3 (sub_v3_v3v3 (vec3 0 0 0) (vec3 0 0 (-1)))))
        unit_m3 := by
  refine ⟨by decide, ?_⟩
  obtain ⟨cache1, e0, c0, c1, h1, h2, h3, h4, h5, _⟩ := C10_first_sample_frame unitBLI
    [sample_at 0 0 0, sample_at 0 0 (-1)] 2 unit_m3 (by decide) (by decide)
  simp only [List.getElem?_cons_zero, List.getElem?_cons_succ, Option.some.injEq] at h3 h4
  subst h3 h4
  exact ⟨cache1, e0, h1, h2, h5⟩

/-- C9 (amended): in `groom_eval_curve_cache_mats` with `totcache ≥ 3` on a
buffer of at least `totcache` samples, for every interior sample `k`
(`1 ≤ k ≤ totcache - 2`) the frame of sample `k` is the previous sample's frame
rotated by the rotation that takes the previous frame's normalized forward axis
(`mat[2]`) onto the normalized tangent computed as previous minus next sample,
`normalize(co[k-1] - co[k+1])`; the position of the sample is kept.  Holds for
any float arithmetic and any implementation of the BLI_math helpers. -/
theorem C9_interior_sample_frame {F : Type} [Sub F] (bli : BLIMath F)
    (cache : List (GroomCurveCache F)) (T : Nat) (basemat : M3 F)
    (hT : 3 ≤ T) (hlen : T ≤ cache.length) :
    ∃ cache1, groom_eval_curve_cache_mats bli cache T basemat = some cache1 ∧
      ∀ k, 1 ≤ k → k + 2 ≤ T →
        ∃ prev cur cp ck cn, cache1[k - 1]? = some prev ∧ cache1[k]? = some cur ∧
          cache[k - 1]? = some cp ∧ cache[k]? = some ck ∧ cache[k + 1]? = some cn ∧
          cur.mat = bli.mul_m3_m3m3
            (bli.rotation_between_vecs_to_mat3 (bli.normalize_v3 (prev.mat 2))
              (bli.normalize_v3 (sub_v3_v3v3 cp.co cn.co)))
            prev.mat ∧
          cur.co = ck.co := by
  obtain ⟨pos, hpos⟩ := exists_positions cache T (by omega) hlen
  obtain ⟨cache1, h1, _, h3⟩ := mats_spec bli basemat pos T cache (by omega) hlen hpos
  refine ⟨cache1, h1, ?_⟩
  intro k hk1 hk2
  obtain ⟨cp, hcp, hpp⟩ := getElem?_of_map_eq _ _ _ _ (hpos (k - 1) (by omega))
  obtain ⟨ck, hck, _⟩ := getElem?_of_map_eq _ _ _ _ (hpos k (by omega))
  obtain ⟨cn, hcn, hpn⟩ := getElem?_of_map_eq _ _ _ _ (hpos (k + 1) (by omega))
  have hkT : k < T := by omega
  have hkT1 : k - 1 < T := by omega
  refine ⟨GroomCurveCache.mk cp.co (frames_of bli basemat pos T (k - 1)),
    GroomCurveCache.mk ck.co (frames_of bli basemat pos T k), cp, ck, cn, ?_, ?_, hcp, hck,
    hcn, ?_, rfl⟩
  · rw [h3, hcp]
    simp only [Option.map_some', if_pos hkT1]
  · rw [h3, hck]
    simp only [Option.map_some', if_pos hkT]
  · obtain ⟨q, rfl⟩ : ∃ q, k = q + 1 := ⟨k - 1, by omega⟩
    have hq : q + 2 < T := by omega
    simp only [Nat.add_sub_cancel] at hpp ⊢
    have hpn2 : cn.co = pos (q + 2) := hpn
    rw [frames_of, if_pos hq, groom_eval_curve_step, hpp, hpn2]

/-- Witness of the amended C9: three samples, the interior one is sample 1. -/
theorem C9_interior_sample_frame_witness :
    (3 ≤ [sample_at 0 0 0, sample_at 0 0 (-1), sample_at (-1) 0 0].length) ∧
    ∃ cache1 prev cur,
      groom_eval_curve_cache_mats unitBLI
        [sample_at 0 0 0, sample_at 0 0 (-1), sample_at (-1) 0 0] 3 unit_m3 = some cache1 ∧
      cache1[0]? = some prev ∧ cache1[1]? = some cur ∧
      cur.mat = unitBLI.mul_m3_m3m3
        (unitBLI.rotation_between_vecs_to_mat3 (unitBLI.normalize_v3 (prev.mat 2))
          (unitBLI.normalize_v3 (sub_v3_v3v3 (vec3 0 0 0) (vec3 (-1) 0 0))))
        prev.mat := by
  refine ⟨by decide, ?_⟩
  obtain ⟨cache1, h1, h2⟩ := C9_interior_sample_frame unitBLI
    [sample_at 0 0 0, sample_at 0 0 (-1), sample_at (-1) 0 0] 3 unit_m3 (by decide) (by decide)
  obtain ⟨prev, cur, cp, ck, cn, e1, e2, e3, _, e5, e6, _⟩ := h2 1 (by decide) (by decide)
  simp only [List.getElem?_cons_zero, List.getElem?_cons_succ, Option.some.injEq,
    Nat.sub_self] at e3 e5
  subst e3 e5
  exact ⟨cache1, prev, cur, h1, e1, e2, e6⟩

/-- C9 as stated fails: on the samples `(0,0,0)`, `(0,0,-1)`, `(-1,0,0)` with the
identity base frame, the frame of the interior sample 1 is not the previous
frame rotated onto `normalize(co[2] - co[0])`, next minus previous sample. -/
theorem C9_counterexample_next_minus_previous :
    ∃ cache1 prev cur,
      groom_eval_curve_cache_mats unitBLI
        [sample_at 0 0 0, sample_at 0 0 (-1), sample_at (-1) 0 0] 3 unit_m3 = some cache1 ∧
      cache1[0]? = some prev ∧ cache1[1]? = some cur ∧
      cur.mat ≠ unitBLI.mul_m3_m3m3
        (unitBLI.rotation_between_vecs_to_mat3 (unitBLI.normalize_v3 (prev.mat 2))
          (unitBLI.normalize_v3 (sub_v3_v3v3 (vec3 (-1) 0 0) (vec3 0 0 0))))
        prev.mat := by
  refine ⟨[GroomCurveCache.mk (vec3 0 0 0)
        (groom_eval_curve_step unitBLI unit_m3 (vec3 0 0 (-1)) (vec3 0 0 0)),
      GroomCurveCache.mk (vec3 0 0 (-1))
        (groom_eval_curve_step unitBLI
          (groom_eval_curve_step unitBLI unit_m3 (vec3 0 0 (-1)) (vec3 0 0 0))
          (vec3 (-1) 0 0) (vec3 0 0 0)),
      GroomCurveCache.mk (vec3 (-1) 0 0)
        (groom_eval_curve_step unitBLI
          (groom_eval_curve_step unitBLI
            (groom_eval_curve_step unitBLI unit_m3 (vec3 0 0 (-1)) (vec3 0 0 0))
            (vec3 (-1) 0 0) (vec3 0 0 0))
          (vec3 (-1) 0 0) (vec3 0 0 (-1)))],
    _, _, rfl, rfl, rfl, ?_⟩
  intro h
  have h02 := congrFun (congrFun h 0) 2
  simp [groom_eval_curve_step, unitBLI, unit_m3, sub_v3_v3v3, vec3, dot3, cross3] at h02
  norm_num at h02

/-! ## Frames are a function of the positions -/

/-- On a buffer of exactly `T ≥ 1` samples at the positions `pos` the frame
propagation yields the same list whatever frames the buffer held. -/
theorem mats_closed_form {F : Type} [Sub F] (bli : BLIMath F) (basemat : M3 F)
    (pos : Nat → V3 F) (T : Nat) (cache : List (GroomCurveCache F)) (hT : 1 ≤ T)
    (hlen : cache.length = T)
    (hpos : ∀ j, j < T → (cache[j]?).map GroomCurveCache.co = some (pos j)) :
    groom_eval_curve_cache_mats bli cache T basemat
      = some ((List.range T).map fun j =>
          GroomCurveCache.mk (pos j) (frames_of bli basemat pos T j)) := by
  obtain ⟨c1, h1, h2, h3⟩ := mats_spec bli basemat pos T cache hT (by omega) hpos
  rw [h1]
  congr 1
  apply List.ext_getElem?
  intro j
  rw [h3]
  by_cases hj : j < T
  · obtain ⟨e, he1, he2⟩ := getElem?_of_map_eq _ _ _ _ (hpos j hj)
    have hr : (List.range T)[j]? = some j := by
      rw [List.getElem?_eq_some]
      exact ⟨by simpa using hj, by simp⟩
    simp [he1, hj, he2, hr]
  · have a1 : cache[j]? = none := List.getElem?_eq_none (by omega)
    have a2 : (List.range T)[j]? = none := by
      apply List.getElem?_eq_none
      simp only [List.length_range]
      omega
    simp [a1, a2]

/-- C11: for every base frame and every cache of exactly one sample
(`totcache == 1`), `groom_eval_curve_cache_mats` sets that sample's frame equal
to the base frame unchanged and leaves the sample's position unchanged.  Holds
for any float arithmetic and any BLI_math helpers. -/
theorem C11_single_sample_base_frame {F : Type} [Sub F] (bli : BLIMath F)
    (c : GroomCurveCache F) (basemat : M3 F) :
    groom_eval_curve_cache_mats bli [c] 1 basemat
      = some [GroomCurveCache.mk c.co basemat] := by
  simp [groom_eval_curve_cache_mats, writeMat]

/-- C12: for every position sequence of length `T ≥ 1` and every base frame,
`groom_eval_curve_cache_mats` succeeds, running it a second time on its own
output yields the same cache, and any cache with the same positions, whatever
frames it holds, yields that cache too: the frames are a function of the
positions and the base frame only.  Holds for any float arithmetic and any
BLI_math helpers. -/
theorem C12_frame_propagation_idempotent {F : Type} [Sub F] (bli : BLIMath F)
    (cache : List (GroomCurveCache F)) (T : Nat) (basemat : M3 F)
    (hT : 1 ≤ T) (hlen : cache.length = T) :
    ∃ cache1, groom_eval_curve_cache_mats bli cache T basemat = some cache1 ∧
      groom_eval_curve_cache_mats bli cache1 T basemat = some cache1 ∧
      cache1.map GroomCurveCache.co = cache.map GroomCurveCache.co ∧
      ∀ cache2 : List (GroomCurveCache F),
        cache2.map GroomCurveCache.co = cache.map GroomCurveCache.co →
        groom_eval_curve_cache_mats bli cache2 T basemat = some cache1 := by
  obtain ⟨pos, hpos⟩ := exists_positions cache T hT (by omega)
  have key : ∀ cache2 : List (GroomCurveCache F),
      cache2.map GroomCurveCache.co = cache.map GroomCurveCache.co →
      groom_eval_curve_cache_mats bli cache2 T basemat
        = some ((List.range T).map fun j =>
            GroomCurveCache.mk (pos j) (frames_of bli basemat pos T j)) := by
    intro cache2 h2
    have hl2 : cache2.length = T := by
      have := congrArg List.length h2
      simpa [hlen] using this
    apply mats_closed_form bli basemat pos T cache2 hT hl2
    intro j hj
    rw [← List.getElem?_map, h2, List.getElem?_map]
    exact hpos j hj
  have hco : ((List.range T).map fun j =>
      GroomCurveCache.mk (pos j) (frames_of bli basemat pos T j)).map GroomCurveCache.co
      = cache.map GroomCurveCache.co := by
    apply List.ext_getElem?
    intro j
    rw [List.getElem?_map, List.getElem?_map, List.getElem?_map]
    by_cases hj : j < T
    · have hr : (List.range T)[j]? = some j := by
        rw [List.getElem?_eq_some]
        exact ⟨by simpa using hj, by simp⟩
      rw [hr, hpos j hj]
      rfl
    · have a1 : cache[j]? = none := List.getElem?_eq_none (by omega)
      have a2 : (List.range T)[j]? = none := by
        apply List.getElem?_eq_none
        simp only [List.length_range]
        omega
      rw [a1, a2]
      rfl
  exact ⟨_, key cache rfl, key _ hco, hco, key⟩

/-- Witness of C12: three samples with the identity frames. -/
theorem C12_frame_propagation_idempotent_witness :
    [sample_at 0 0 0, sample_at 0 0 (-1), sample_at (-1) 0 0].length = 3 ∧
    ∃ cache1,
      groom_eval_curve_cache_mats unitBLI
        [sample_at 0 0 0, sample_at 0 0 (-1), sample_at (-1) 0 0] 3 unit_m3 = some cache1 ∧
      groom_eval_curve_cache_mats unitBLI cache1 3 unit_m3 = some cache1 := by
  refine ⟨rfl, ?_⟩
  obtain ⟨cache1, h1, h2, _⟩ := C12_frame_propagation_idempotent unitBLI
    [sample_at 0 0 0, sample_at 0 0 (-1), sample_at (-1) 0 0] 3 unit_m3 (by decide) rfl
  exact ⟨cache1, h1, h2⟩

/-! ## Independence from the previous cache, idempotence -/

/-- The evaluation of a bundle with at least one section does not depend on
the cache and `totcache` it had before, nor on the contents of fresh memory. -/
theorem eval_bundle_indep {F : Type} [Zero F] [One F] [Add F] [Sub F] [Mul F] [Div F]
    [NatCast F] (bli : BLIMath F) (R : Nat) (fr fr2 : Nat → GroomCurveCache F)
    (b : GroomBundle F) (c : Option (List (GroomCurveCache F))) (t : Nat)
    (hlen : b.sections.length = b.totsections) (hN : 1 ≤ b.totsections) (hR : 1 ≤ R) :
    groom_eval_bundle bli R fr2 { b with curve_cache := c, totcache := t }
      = groom_eval_bundle bli R fr b := by
  obtain ⟨ctr, hc⟩ := exists_centers b hlen hN
  have hc2 : HasCenters { b with curve_cache := c, totcache := t } ctr := hc
  by_cases hfit : (b.totsections - 1) * R + 1 ≤ INT_MAX
  · rw [eval_bundle_spec bli R fr b ctr hc hN hR hfit,
      eval_bundle_spec bli R fr2 { b with curve_cache := c, totcache := t } ctr hc2 hN hR hfit]
  · rw [eval_bundle_overflow bli R fr b hN (by omega),
      eval_bundle_overflow bli R fr2 { b with curve_cache := c, totcache := t } hN
        (show INT_MAX < (b.totsections - 1) * R + 1 by omega)]

/-- The contents of fresh memory never show in the evaluation of a bundle. -/
theorem eval_bundle_fresh {F : Type} [Zero F] [One F] [Add F] [Sub F] [Mul F] [Div F]
    [NatCast F] (bli : BLIMath F) (R : Nat) (fr fr2 : Nat → GroomCurveCache F)
    (b : GroomBundle F) (hlen : b.sections.length = b.totsections) (hR : 1 ≤ R) :
    groom_eval_bundle bli R fr2 b = groom_eval_bundle bli R fr b := by
  by_cases h0 : b.totsections = 0
  · simp [groom_eval_bundle, h0]
  · exact eval_bundle_indep bli R fr fr2 b b.curve_cache b.totcache hlen (by omega) hR

theorem eval_sections_idem {F : Type} [Zero F] [One F] [Add F] [Sub F] [Mul F] [Div F]
    [NatCast F] (bli : BLIMath F) (ctr : Nat → V3 F) (N R : Nat)
    (sections : List (GroomSection F)) :
    eval_sections bli ctr N R (eval_sections bli ctr N R sections)
      = eval_sections bli ctr N R sections := by
  apply List.ext_getElem?
  intro m
  simp only [eval_sections, List.getElem?_mapIdx]
  cases sections[m]? with
  | none => rfl
  | some s => rfl

/-- Evaluating an evaluated bundle changes nothing. -/
theorem eval_bundle_idem {F : Type} [Zero F] [One F] [Add F] [Sub F] [Mul F] [Div F]
    [NatCast F] (bli : BLIMath F) (R : Nat) (fr fr2 : Nat → GroomCurveCache F)
    (b b1 : GroomBundle F) (hlen : b.sections.length = b.totsections) (hR : 1 ≤ R)
    (h : groom_eval_bundle bli R fr b = some b1) :
    b1.sections.length = b1.totsections ∧ groom_eval_bundle bli R fr2 b1 = some b1 := by
  by_cases h0 : b.totsections = 0
  · cases hcc : b.curve_cache with
    | none =>
      simp only [groom_eval_bundle, h0, hcc, if_true, Option.some.injEq] at h
      subst h
      exact ⟨hlen, by simp [groom_eval_bundle, h0, hcc]⟩
    | some c =>
      simp only [groom_eval_bundle, h0, hcc, if_true, Option.some.injEq] at h
      subst h
      exact ⟨by simpa [h0] using hlen, by simp [groom_eval_bundle, h0]⟩
  · obtain ⟨ctr, hc⟩ := exists_centers b hlen (by omega)
    have hfit : (b.totsections - 1) * R + 1 ≤ INT_MAX := by
      by_contra hbig
      rw [eval_bundle_overflow bli R fr b (by omega) (by omega)] at h
      cases h
    rw [eval_bundle_spec bli R fr b ctr hc (by omega) hR hfit] at h
    simp only [Option.some.injEq] at h
    subst h
    have hc1 : HasCenters
        { b with
          totcache := (b.totsections - 1) * R + 1
          curve_cache := some (eval_cache bli ctr b.totsections R)
          sections := eval_sections bli ctr b.totsections R b.sections } ctr := by
      refine ⟨by simp [eval_sections, hlen], ?_⟩
      intro i hi
      have hi2 : i < b.totsections := hi
      obtain ⟨s, hs1, hs2⟩ := getElem?_of_map_eq _ _ _ _ (hc.2 i hi2)
      simp only [eval_sections, List.getElem?_mapIdx, hs1, Option.map_some', hs2]
    refine ⟨hc1.1, ?_⟩
    rw [eval_bundle_spec bli R fr2 _ ctr hc1 (show 1 ≤ b.totsections by omega) hR hfit]
    simp only [eval_sections_idem]

theorem eval_bundles_idem {F : Type} [Zero F] [One F] [Add F] [Sub F] [Mul F] [Div F]
    [NatCast F] (bli : BLIMath F) (R : Nat) (fresh fresh2 : Nat → Nat → GroomCurveCache F)
    (hR : 1 ≤ R) :
    ∀ (bundles out : List (GroomBundle F)) (j0 j1 : Nat),
      (∀ b ∈ bundles, b.sections.length = b.totsections) →
      groom_eval_bundles bli R fresh j0 bundles = some out →
      groom_eval_bundles bli R fresh2 j1 out = some out := by
  intro bundles
  induction bundles with
  | nil =>
    intro out j0 j1 _ h
    simp only [groom_eval_bundles, Option.some.injEq] at h
    subst h
    rfl
  | cons b rest ih =>
    intro out j0 j1 hwf h
    simp only [groom_eval_bundles] at h
    cases hb : groom_eval_bundle bli R (fresh j0) b with
    | none => rw [hb] at h; cases h
    | some b1 =>
      rw [hb] at h
      cases hr : groom_eval_bundles bli R fresh (j0 + 1) rest with
      | none => rw [hr] at h; cases h
      | some rest1 =>
        rw [hr] at h
        simp only [Option.some.injEq] at h
        subst h
        have h1 := (eval_bundle_idem bli R (fresh j0) (fresh2 j1) b b1
          (hwf b (List.mem_cons_self _ _)) hR hb).2
        have h2 := ih rest1 (j0 + 1) (j1 + 1)
          (fun x hx => hwf x (List.mem_cons_of_mem _ hx)) hr
        simp [groom_eval_bundles, h1, h2]

theorem eval_bundles_fresh {F : Type} [Zero F] [One F] [Add F] [Sub F] [Mul F] [Div F]
    [NatCast F] (bli : BLIMath F) (R : Nat) (fresh fresh2 : Nat → Nat → GroomCurveCache F)
    (hR : 1 ≤ R) :
    ∀ (bundles : List (GroomBundle F)) (j0 j1 : Nat),
      (∀ b ∈ bundles, b.sections.length = b.totsections) →
      groom_eval_bundles bli R fresh2 j1 bundles = groom_eval_bundles bli R fresh j0 bundles := by
  intro bundles
  induction bundles with
  | nil => intro j0 j1 _; rfl
  | cons b rest ih =>
    intro j0 j1 hwf
    simp only [groom_eval_bundles]
    rw [eval_bundle_fresh bli R (fresh j0) (fresh2 j1) b (hwf b (List.mem_cons_self _ _)) hR,
      ih (j0 + 1) (j1 + 1) (fun x hx => hwf x (List.mem_cons_of_mem _ hx))]

/-- C13 (amended): for every bundle of the live list whose `totsections` is 0,
after `BKE_groom_eval_curve_cache` the bundle has no cache buffer; its
`totcache` is 0 when it had a cache buffer before the call and is left as it
was when it had none; nothing else of the bundle changes.  Holds for any float
arithmetic. -/
theorem C13_empty_bundle_cache_freed {F : Type} [Zero F] [One F] [Add F] [Sub F] [Mul F]
    [Div F] [NatCast F] (bli : BLIMath F) (fresh : Nat → Nat → GroomCurveCache F)
    (groom : Groom F) (hwf : LiveWellFormed groom) (hR : 1 ≤ groom.curve_res) :
    ∃ groom1, BKE_groom_eval_curve_cache bli fresh groom = some groom1 ∧
      ∀ (m : Nat) (b : GroomBundle F), (live_bundles groom)[m]? = some b →
        b.totsections = 0 →
        ∃ b1, (live_bundles groom1)[m]? = some b1 ∧ b1.curve_cache = none ∧
          (b.curve_cache ≠ none → b1.totcache = 0) ∧
          (b.curve_cache = none → b1.totcache = b.totcache) ∧
          b1 = { b with curve_cache := none, totcache := b1.totcache } := by
  obtain ⟨groom1, h1, _, _, h4⟩ := eval_live_spec bli fresh groom hwf hR
  refine ⟨groom1, h1, ?_⟩
  intro m b hb h0
  rw [h4 m b hb]
  cases hcc : b.curve_cache with
  | none =>
    refine ⟨b, by simp [groom_eval_bundle, h0, hcc], hcc, by simp, by simp, ?_⟩
    cases b
    simp only at hcc
    simp [hcc]
  | some c =>
    exact ⟨{ b with curve_cache := none, totcache := 0 },
      by simp [groom_eval_bundle, h0, hcc], rfl, by simp, by simp, rfl⟩

/-- Witness of the amended C13: a bundle without sections that holds a cache
of one sample ends with no buffer and `totcache = 0`. -/
theorem C13_empty_bundle_cache_freed_witness :
    LiveWellFormed (groom_of 1
      [{ bundle_of [] with curve_cache := some [sample_at 0 0 0], totcache := 1 }]) ∧
    ∃ groom1 b1,
      BKE_groom_eval_curve_cache unitBLI (fun _ _ => sample_at 9 9 9)
        (groom_of 1 [{ bundle_of [] with curve_cache := some [sample_at 0 0 0], totcache := 1 }])
        = some groom1 ∧
      (live_bundles groom1)[0]? = some b1 ∧ b1.curve_cache = none ∧ b1.totcache = 0 := by
  have hwf : LiveWellFormed (groom_of 1
      [{ bundle_of [] with curve_cache := some [sample_at 0 0 0], totcache := 1 }]) := by
    intro b hb
    simp [live_bundles, groom_of] at hb
    subst hb
    exact ⟨rfl, by decide⟩
  refine ⟨hwf, ?_⟩
  obtain ⟨groom1, h1, h2⟩ := C13_empty_bundle_cache_freed unitBLI (fun _ _ => sample_at 9 9 9)
    _ hwf (by decide)
  obtain ⟨b1, e1, e2, e3, _, _⟩ := h2 0
    { bundle_of [] with curve_cache := some [sample_at 0 0 0], totcache := 1 } rfl rfl
  exact ⟨groom1, b1, h1, e1, e2, e3 (by intro h; cases h)⟩

/-- C13 as stated fails: a bundle without sections and without a cache buffer
whose `totcache` is 5 keeps `totcache = 5` through the evaluation. -/
theorem C13_counterexample_totcache_kept :
    ∃ groom1 b1,
      BKE_groom_eval_curve_cache unitBLI (fun _ _ => sample_at 9 9 9)
        (groom_of 1 [{ bundle_of [] with totcache := 5 }]) = some groom1 ∧
      (live_bundles groom1)[0]? = some b1 ∧ b1.totsections = 0 ∧ b1.curve_cache = none ∧
      b1.totcache = 5 :=
  ⟨groom_of 1 [{ bundle_of [] with totcache := 5 }], { bundle_of [] with totcache := 5 },
    rfl, rfl, rfl, rfl, rfl⟩

/-- C14 (amended): when the asset has an edit overlay whose bundles are well
formed (section arrays of `totsections` sections, cache sizes `(N-1)*R + 1`
representable as C `int`), `BKE_groom_eval_curve_cache` leaves the base
bundles as they are, while every overlay bundle with `N ≥ 1` sections
gets a cache of `(N-1)*R + 1` samples in which every sample holds the position
and the frame that the evaluation computes from the centers; the result is the
same whatever fresh memory held.  Holds for any float arithmetic. -/
theorem C14_edit_overlay_precedence {F : Type} [Zero F] [One F] [Add F] [Sub F] [Mul F]
    [Div F] [NatCast F] (bli : BLIMath F) (fresh : Nat → Nat → GroomCurveCache F)
    (groom : Groom F) (edit : EditGroom F) (he : groom.editgroom = some edit)
    (hwf : LiveWellFormed groom) (hR : 1 ≤ groom.curve_res) :
    ∃ groom1 edit1, BKE_groom_eval_curve_cache bli fresh groom = some groom1 ∧
      groom1.editgroom = some edit1 ∧
      groom1.bundles = groom.bundles ∧
      (∀ fresh2, BKE_groom_eval_curve_cache bli fresh2 groom = some groom1) ∧
      ∀ (m : Nat) (b : GroomBundle F) (ctr : Nat → V3 F), edit.bundles[m]? = some b →
        HasCenters b ctr → 1 ≤ b.totsections →
        ∃ b1 cache, edit1.bundles[m]? = some b1 ∧ b1.curve_cache = some cache ∧
          b1.totcache = (b.totsections - 1) * groom.curve_res + 1 ∧
          cache.length = (b.totsections - 1) * groom.curve_res + 1 ∧
          ∀ j, j < (b.totsections - 1) * groom.curve_res + 1 →
            cache[j]? = some (GroomCurveCache.mk
              (sample_co ctr b.totsections groom.curve_res j)
              (frames_of bli unit_m3 (sample_co ctr b.totsections groom.curve_res)
                ((b.totsections - 1) * groom.curve_res + 1) j)) := by
  have hlive : live_bundles groom = edit.bundles := by simp [live_bundles, he]
  obtain ⟨groom1, h1, _, _, h4⟩ := eval_live_spec bli fresh groom hwf hR
  have hwf2 : ∀ b ∈ edit.bundles, b.sections.length = b.totsections := by
    intro b hb
    exact (hwf b (by rw [hlive]; exact hb)).1
  cases ho : groom_eval_bundles bli groom.curve_res fresh 0 edit.bundles with
  | none => simp [BKE_groom_eval_curve_cache, he, ho] at h1
  | some out =>
    have hg : groom1 = { groom with editgroom := some { edit with bundles := out } } := by
      simp [BKE_groom_eval_curve_cache, he, ho] at h1
      exact h1.symm
    subst hg
    refine ⟨_, { edit with bundles := out }, h1, rfl, rfl, ?_, ?_⟩
    · intro fresh2
      have := eval_bundles_fresh bli groom.curve_res fresh fresh2 hR edit.bundles 0 0 hwf2
      simp [BKE_groom_eval_curve_cache, he, this, ho]
    · intro m b ctr hb hc hN
      have h5 := h4 m b (by rw [hlive]; exact hb)
      simp only [live_bundles] at h5
      rw [eval_bundle_spec bli groom.curve_res (fresh m) b ctr hc hN hR
        (hwf b (by rw [hlive]; exact mem_of_getElem? _ m b hb)).2] at h5
      exact ⟨_, _, h5, rfl, rfl, eval_cache_length _ _ _ _,
        fun j hj => eval_cache_getElem? bli ctr b.totsections groom.curve_res j hj⟩

/-- Witness of C14: an asset in edit mode whose base bundle holds a stale cache. -/
theorem C14_edit_overlay_precedence_witness :
    ∃ groom1,
      BKE_groom_eval_curve_cache unitBLI (fun _ _ => sample_at 9 9 9)
        { curve_res := 2, bb := none,
          bundles := [{ bundle_of [section_at 0 0 0] with
            curve_cache := some [sample_at 7 7 7], totcache := 1 }],
          editgroom := some { bundles := [bundle_of [section_at 0 0 0, section_at 0 0 (-1)]] } }
        = some groom1 ∧
      groom1.bundles = [{ bundle_of [section_at 0 0 0] with
            curve_cache := some [sample_at 7 7 7], totcache := 1 }] := by
  obtain ⟨groom1, _, h1, _, h3, _⟩ := C14_edit_overlay_precedence unitBLI
    (fun _ _ => sample_at 9 9 9)
    { curve_res := 2, bb := none,
      bundles := [{ bundle_of [section_at 0 0 0] with
        curve_cache := some [sample_at 7 7 7], totcache := 1 }],
      editgroom := some { bundles := [bundle_of [section_at 0 0 0, section_at 0 0 (-1)]] } }
    { bundles := [bundle_of [section_at 0 0 0, section_at 0 0 (-1)]] } rfl
    (by
      intro b hb
      simp [live_bundles] at hb
      subst hb
      exact ⟨rfl, by decide⟩)
    (by decide)
  exact ⟨groom1, h1, h3⟩

/-- C14 as stated fails: an overlay bundle of two sections at resolution
`INT_MAX`; its cache size `2^31` is not a C `int`, the evaluation is undefined
and the overlay bundle gets no cache. -/
theorem C14_counterexample_int_overflow :
    BKE_groom_eval_curve_cache unitBLI (fun _ _ => sample_at 9 9 9)
      { curve_res := 2147483647, bb := none, bundles := [bundle_of [section_at 0 0 0]],
        editgroom := some { bundles := [bundle_of [section_at 0 0 0, section_at 0 0 (-1)]] } }
      = none := by
  have h := eval_bundle_overflow unitBLI 2147483647 (fun _ => sample_at 9 9 9)
    (bundle_of [section_at 0 0 0, section_at 0 0 (-1)]) (by decide) (by decide)
  simp [BKE_groom_eval_curve_cache, groom_eval_bundles, h]

theorem clear_getElem? {F : Type} (bundles : List (GroomBundle F)) (m : Nat)
    (b : GroomBundle F) (hb : bundles[m]? = some b) :
    (groom_bundles_curve_cache_clear bundles)[m]?
      = some (match b.curve_cache with
          | some _ => { b with curve_cache := none, totcache := 0 }
          | none => b) := by
  rw [groom_bundles_curve_cache_clear, List.getElem?_map, hb]
  rfl

/-- C15 (amended): `BKE_groom_clear_curve_cache` clears the base bundles always
and the overlay bundles too when the asset has an edit overlay: every bundle of
either list that had a cache buffer ends without buffer and with
`totcache = 0`, every bundle without buffer is left as it is, and nothing else
of the asset changes. -/
theorem C15_clear_clears_base_and_overlay {F : Type} (groom : Groom F) :
    (BKE_groom_clear_curve_cache groom).curve_res = groom.curve_res ∧
    (BKE_groom_clear_curve_cache groom).bb = groom.bb ∧
    (∀ (m : Nat) (b : GroomBundle F), groom.bundles[m]? = some b →
      ∃ b1, (BKE_groom_clear_curve_cache groom).bundles[m]? = some b1 ∧
        b1.curve_cache = none ∧
        (b.curve_cache ≠ none → b1 = { b with curve_cache := none, totcache := 0 }) ∧
        (b.curve_cache = none → b1 = b)) ∧
    (groom.editgroom = none → (BKE_groom_clear_curve_cache groom).editgroom = none) ∧
    (∀ edit, groom.editgroom = some edit →
      ∃ edit1, (BKE_groom_clear_curve_cache groom).editgroom = some edit1 ∧
        ∀ (m : Nat) (b : GroomBundle F), edit.bundles[m]? = some b →
          ∃ b1, edit1.bundles[m]? = some b1 ∧ b1.curve_cache = none ∧
            (b.curve_cache ≠ none → b1 = { b with curve_cache := none, totcache := 0 }) ∧
            (b.curve_cache = none → b1 = b)) := by
  have key : ∀ (bundles : List (GroomBundle F)) (m : Nat) (b : GroomBundle F),
      bundles[m]? = some b →
      ∃ b1, (groom_bundles_curve_cache_clear bundles)[m]? = some b1 ∧
        b1.curve_cache = none ∧
        (b.curve_cache ≠ none → b1 = { b with curve_cache := none, totcache := 0 }) ∧
        (b.curve_cache = none → b1 = b) := by
    intro bundles m b hb
    rw [clear_getElem? bundles m b hb]
    cases hcc : b.curve_cache with
    | none => exact ⟨b, rfl, hcc, by simp, by simp⟩
    | some c => exact ⟨_, rfl, rfl, by simp, by simp⟩
  cases he : groom.editgroom with
  | none =>
    refine ⟨by simp [BKE_groom_clear_curve_cache, he], by simp [BKE_groom_clear_curve_cache, he],
      ?_, ?_, ?_⟩
    · intro m b hb
      simpa [BKE_groom_clear_curve_cache, he] using key groom.bundles m b hb
    · intro _
      simp [BKE_groom_clear_curve_cache, he]
    · intro edit h
      cases h
  | some edit0 =>
    refine ⟨by simp [BKE_groom_clear_curve_cache, he], by simp [BKE_groom_clear_curve_cache, he],
      ?_, ?_, ?_⟩
    · intro m b hb
      simpa [BKE_groom_clear_curve_cache, he] using key groom.bundles m b hb
    · intro h
      cases h
    · intro edit h
      simp only [Option.some.injEq] at h
      subst h
      refine ⟨{ edit0 with bundles := groom_bundles_curve_cache_clear edit0.bundles },
        by simp [BKE_groom_clear_curve_cache, he], ?_⟩
      intro m b hb
      exact key edit0.bundles m b hb

/-- C15 as stated fails: on an asset in edit mode (empty overlay) whose base
bundle holds a cache of one sample, `BKE_groom_clear_curve_cache` frees the
cache of the base bundle and zeroes its `totcache`. -/
theorem C15_counterexample_base_cleared :
    ∃ b b1,
      (Groom.mk 2 none
        [{ bundle_of [section_at 0 0 0] with
            curve_cache := some [sample_at 0 0 0], totcache := 1 }]
        (some { bundles := [] })).bundles[0]? = some b ∧
      b.curve_cache = some [sample_at 0 0 0] ∧ b.totcache = 1 ∧
      (BKE_groom_clear_curve_cache (Groom.mk 2 none
        [{ bundle_of [section_at 0 0 0] with
            curve_cache := some [sample_at 0 0 0], totcache := 1 }]
        (some { bundles := [] }))).bundles[0]? = some b1 ∧
      b1.curve_cache = none ∧ b1.totcache = 0 :=
  ⟨_, _, rfl, rfl, rfl, rfl, rfl, rfl⟩

/-- C16: `BKE_groom_eval_curve_cache` is idempotent: on a well-formed asset
with `R ≥ 1` the evaluation succeeds, and evaluating the result again, whatever
fresh memory holds, yields the same asset state.  Holds for any float
arithmetic. -/
theorem C16_eval_idempotent {F : Type} [Zero F] [One F] [Add F] [Sub F] [Mul F] [Div F]
    [NatCast F] (bli : BLIMath F) (fresh fresh2 : Nat → Nat → GroomCurveCache F)
    (groom : Groom F) (hwf : LiveWellFormed groom) (hR : 1 ≤ groom.curve_res) :
    ∃ groom1, BKE_groom_eval_curve_cache bli fresh groom = some groom1 ∧
      BKE_groom_eval_curve_cache bli fresh2 groom1 = some groom1 := by
  obtain ⟨groom1, h1, _, _, _⟩ := eval_live_spec bli fresh groom hwf hR
  refine ⟨groom1, h1, ?_⟩
  cases he : groom.editgroom with
  | none =>
    have hwf2 : ∀ b ∈ groom.bundles, b.sections.length = b.totsections := by
      intro b hb
      exact (hwf b (by simpa [live_bundles, he] using hb)).1
    cases ho : groom_eval_bundles bli groom.curve_res fresh 0 groom.bundles with
    | none => simp [BKE_groom_eval_curve_cache, he, ho] at h1
    | some out =>
      simp only [BKE_groom_eval_curve_cache, he, ho, Option.some.injEq] at h1
      subst h1
      have := eval_bundles_idem bli groom.curve_res fresh fresh2 hR groom.bundles out 0 0 hwf2 ho
      simp [BKE_groom_eval_curve_cache, he, this]
  | some edit =>
    have hwf2 : ∀ b ∈ edit.bundles, b.sections.length = b.totsections := by
      intro b hb
      exact (hwf b (by simpa [live_bundles, he] using hb)).1
    cases ho : groom_eval_bundles bli groom.curve_res fresh 0 edit.bundles with
    | none => simp [BKE_groom_eval_curve_cache, he, ho] at h1
    | some out =>
      simp only [BKE_groom_eval_curve_cache, he, ho, Option.some.injEq] at h1
      subst h1
      have := eval_bundles_idem bli groom.curve_res fresh fresh2 hR edit.bundles out 0 0 hwf2 ho
      simp [BKE_groom_eval_curve_cache, this]

/-- Witness of C16: an asset with a bundle of three sections and an empty one. -/
theorem C16_eval_idempotent_witness :
    ∃ groom1,
      BKE_groom_eval_curve_cache unitBLI (fun _ _ => sample_at 9 9 9)
        (groom_of 2 [bundle_of [section_at 0 0 0, section_at 1 0 0, section_at 1 1 0],
          bundle_of []]) = some groom1 ∧
      BKE_groom_eval_curve_cache unitBLI (fun _ _ => sample_at 5 5 5) groom1 = some groom1 :=
  C16_eval_idempotent unitBLI (fun _ _ => sample_at 9 9 9) (fun _ _ => sample_at 5 5 5)
    (groom_of 2 [bundle_of [section_at 0 0 0, section_at 1 0 0, section_at 1 1 0],
      bundle_of []])
    (by
      intro b hb
      simp [live_bundles, groom_of] at hb
      rcases hb with h | h <;> subst h <;> exact ⟨rfl, by decide⟩)
    (by decide)

/-- C19 (amended): for every bundle with `N ≥ 1` sections of a well-formed asset
(section arrays of `totsections` sections, cache sizes `(N-1)*R + 1`
representable as C `int`) and `R ≥ 1` the cache that
`BKE_groom_eval_curve_cache` produces is fully regenerated: two runs that start
from assets whose live bundles differ only in the prior cache contents and the
prior `totcache`, with any contents of fresh memory, both succeed and leave the
same bundle, with the same cache of `(N-1)*R + 1` samples.  Holds for any float
arithmetic. -/
theorem C19_cache_fully_regenerated {F : Type} [Zero F] [One F] [Add F] [Sub F] [Mul F]
    [Div F] [NatCast F] (bli : BLIMath F) (fresh fresh2 : Nat → Nat → GroomCurveCache F)
    (groom groom2 : Groom F) (hwf : LiveWellFormed groom) (hR : 1 ≤ groom.curve_res)
    (hres : groom2.curve_res = groom.curve_res)
    (hlen : (live_bundles groom2).length = (live_bundles groom).length)
    (hsame : ∀ (m : Nat) (b : GroomBundle F), (live_bundles groom)[m]? = some b →
      ∃ c t, (live_bundles groom2)[m]? = some { b with curve_cache := c, totcache := t }) :
    ∃ groom1 groom3, BKE_groom_eval_curve_cache bli fresh groom = some groom1 ∧
      BKE_groom_eval_curve_cache bli fresh2 groom2 = some groom3 ∧
      ∀ (m : Nat) (b : GroomBundle F), (live_bundles groom)[m]? = some b →
        1 ≤ b.totsections →
        ∃ b1 cache, (live_bundles groom1)[m]? = some b1 ∧
          (live_bundles groom3)[m]? = some b1 ∧
          b1.curve_cache = some cache ∧
          cache.length = (b.totsections - 1) * groom.curve_res + 1 := by
  have hwf2 : LiveWellFormed groom2 := by
    intro b2 hb2
    obtain ⟨m, hm⟩ := List.mem_iff_getElem?.mp hb2
    have hm2 : m < (live_bundles groom).length := by
      rw [← hlen]
      by_contra hcon
      rw [List.getElem?_eq_none (by omega)] at hm
      cases hm
    obtain ⟨c, t, hct⟩ := hsame m _ (List.getElem?_eq_getElem hm2)
    rw [hm] at hct
    simp only [Option.some.injEq] at hct
    subst hct
    have hw := hwf (live_bundles groom)[m] (List.getElem_mem hm2)
    exact ⟨hw.1, by rw [hres]; exact hw.2⟩
  obtain ⟨groom1, h1, _, _, h4⟩ := eval_live_spec bli fresh groom hwf hR
  obtain ⟨groom3, g1, _, _, g4⟩ := eval_live_spec bli fresh2 groom2 hwf2 (by omega)
  refine ⟨groom1, groom3, h1, g1, ?_⟩
  intro m b hb hN
  have hl := (hwf b (mem_of_getElem? _ m b hb)).1
  obtain ⟨c, t, hct⟩ := hsame m b hb
  obtain ⟨ctr, hc⟩ := exists_centers b hl hN
  have e3 := g4 m _ hct
  rw [hres, eval_bundle_indep bli groom.curve_res (fresh m) (fresh2 m) b c t hl hN hR] at e3
  have e1 := h4 m b hb
  rw [eval_bundle_spec bli groom.curve_res (fresh m) b ctr hc hN hR
    (hwf b (mem_of_getElem? _ m b hb)).2] at e1 e3
  exact ⟨_, _, e1, e3, rfl, eval_cache_length _ _ _ _⟩

/-- Witness of C19: the same bundle of two sections, once without cache and
once with a stale cache of one sample. -/
theorem C19_cache_fully_regenerated_witness :
    ∃ groom1 groom3 b1,
      BKE_groom_eval_curve_cache unitBLI (fun _ _ => sample_at 9 9 9)
        (groom_of 2 [bundle_of [section_at 0 0 0, section_at 0 0 (-1)]]) = some groom1 ∧
      BKE_groom_eval_curve_cache unitBLI (fun _ _ => sample_at 5 5 5)
        (groom_of 2 [{ bundle_of [section_at 0 0 0, section_at 0 0 (-1)] with
          curve_cache := some [sample_at 7 7 7], totcache := 1 }]) = some groom3 ∧
      (live_bundles groom1)[0]? = some b1 ∧ (live_bundles groom3)[0]? = some b1 := by
  obtain ⟨groom1, groom3, h1, h2, h3⟩ := C19_cache_fully_regenerated unitBLI
    (fun _ _ => sample_at 9 9 9) (fun _ _ => sample_at 5 5 5)
    (groom_of 2 [bundle_of [section_at 0 0 0, section_at 0 0 (-1)]])
    (groom_of 2 [{ bundle_of [section_at 0 0 0, section_at 0 0 (-1)] with
      curve_cache := some [sample_at 7 7 7], totcache := 1 }])
    (by
      intro b hb
      simp [live_bundles, groom_of] at hb
      subst hb
      exact ⟨rfl, by decide⟩)
    (by decide) rfl rfl
    (by
      intro m b hb
      cases m with
      | zero =>
        simp only [live_bundles, groom_of, List.getElem?_cons_zero, Option.some.injEq] at hb
        subst hb
        exact ⟨some [sample_at 7 7 7], 1, rfl⟩
      | succ m => simp [live_bundles, groom_of] at hb)
  obtain ⟨b1, _, e1, e2, _, _⟩ := h3 0 (bundle_of [section_at 0 0 0, section_at 0 0 (-1)]) rfl
    (by decide)
  exact ⟨groom1, groom3, b1, h1, h2, e1, e2⟩

/-- C19 as stated fails: four sections at resolution 715827883; the cache size
`3 * 715827883 + 1 = 2^31 + 2` is not a C `int`, and neither run, from no cache
or from a stale one, produces a cache. -/
theorem C19_counterexample_int_overflow :
    BKE_groom_eval_curve_cache unitBLI (fun _ _ => sample_at 9 9 9)
      (groom_of 715827883 [bundle_of [section_at 0 0 0, section_at 1 0 0, section_at 2 0 0,
        section_at 3 0 0]]) = none ∧
    BKE_groom_eval_curve_cache unitBLI (fun _ _ => sample_at 5 5 5)
      (groom_of 715827883 [{ bundle_of [section_at 0 0 0, section_at 1 0 0, section_at 2 0 0,
        section_at 3 0 0] with curve_cache := some [sample_at 7 7 7], totcache := 1 }])
      = none := by
  have h := eval_bundle_overflow unitBLI 715827883 (fun _ => sample_at 9 9 9)
    (bundle_of [section_at 0 0 0, section_at 1 0 0, section_at 2 0 0, section_at 3 0 0])
    (by decide) (by decide)
  have h2 := eval_bundle_overflow unitBLI 715827883 (fun _ => sample_at 5 5 5)
    { bundle_of [section_at 0 0 0, section_at 1 0 0, section_at 2 0 0, section_at 3 0 0] with
      curve_cache := some [sample_at 7 7 7], totcache := 1 }
    (by decide) (by decide)
  exact ⟨by simp [BKE_groom_eval_curve_cache, groom_of, groom_eval_bundles, h],
    by simp [BKE_groom_eval_curve_cache, groom_of, groom_eval_bundles, h2]⟩

theorem ldiff_land_self (x d : Nat) : Nat.ldiff x d &&& d = 0 := by
  apply Nat.eq_of_testBit_eq
  intro i
  rw [Nat.testBit_land, Nat.testBit_ldiff, Nat.zero_testBit]
  cases x.testBit i <;> cases d.testBit i <;> rfl

/-- C17: what the code does where the claim expects the fallback.
`BKE_groom_minmax` returns `true`, so `BKE_groom_boundbox_calc` never assigns
the unit cube: `r_loc` is the middle of the vectors that `INIT_MINMAX` left in
`min` and `max` and `r_size` half their difference.  With the values
`1.0e30f`, `-1.0e30f` of `INIT_MINMAX` the center is `(0,0,0)` but the half-size
is `(-1e30, -1e30, -1e30)` and the stored box has the corners `min = 1e30`,
`max = -1e30`. -/
theorem C17_boundbox_fallback_not_taken (env : BoundBoxEnv ℚ) (groom : Groom ℚ) :
    (BKE_groom_boundbox_calc env groom).2.1 = mid_v3_v3v3 env.init_min env.init_max ∧
    (BKE_groom_boundbox_calc env groom).2.2
      = (fun k => (env.init_max k - env.init_min k) / 2) ∧
    (BKE_groom_boundbox_calc blender_bb_env groom).2.1 = (fun _ => 0) ∧
    (BKE_groom_boundbox_calc blender_bb_env groom).2.2 = (fun _ => -10 ^ 30) ∧
    (BKE_groom_boundbox_calc blender_bb_env groom).2.2 ≠ (fun _ => 1) ∧
    ∃ bb, (BKE_groom_boundbox_calc blender_bb_env groom).1.bb = some bb ∧
      bb.vec 0 = (fun _ => 10 ^ 30) ∧ bb.vec 6 = (fun _ => -10 ^ 30) := by
  refine ⟨rfl, rfl, ?_, ?_, ?_, _, rfl, ?_, ?_⟩
  · funext k
    simp [BKE_groom_boundbox_calc, BKE_groom_minmax, mid_v3_v3v3, blender_bb_env]
  · funext k
    simp only [BKE_groom_boundbox_calc, BKE_groom_minmax, blender_bb_env]
    norm_num
  · intro h
    have h0 := congrFun h 0
    simp only [BKE_groom_boundbox_calc, BKE_groom_minmax, blender_bb_env] at h0
    norm_num at h0
  · funext k
    fin_cases k <;> simp [BKE_groom_boundbox_calc, BKE_groom_minmax, blender_bb_env]
  · have h6 : ((6 : Fin 8) : Nat) = 6 := rfl
    funext k
    fin_cases k <;> simp [BKE_groom_boundbox_calc, BKE_groom_minmax, blender_bb_env, h6]

/-- C18: after `BKE_groom_boundbox_calc` the asset has a bounding box whose
`BOUNDBOX_DIRTY` bit is clear; `BKE_groom_eval_geometry` computes the box when
it is absent or flagged dirty and otherwise, on a box that is present and
clean, leaves the asset unchanged.  Holds for any float arithmetic and any
values of the parameters. -/
theorem C18_boundbox_dirty_flag {F : Type} [Zero F] [One F] [Add F] [Sub F] [Mul F] [Div F]
    [Neg F] [NatCast F] (env : BoundBoxEnv F) (groom : Groom F) :
    (∃ bb, (BKE_groom_boundbox_calc env groom).1.bb = some bb ∧
      bb.flag &&& env.BOUNDBOX_DIRTY = 0) ∧
    (groom.bb = none →
      BKE_groom_eval_geometry env groom = (BKE_groom_boundbox_calc env groom).1) ∧
    (∀ bb, groom.bb = some bb → bb.flag &&& env.BOUNDBOX_DIRTY ≠ 0 →
      BKE_groom_eval_geometry env groom = (BKE_groom_boundbox_calc env groom).1) ∧
    (∀ bb, groom.bb = some bb → bb.flag &&& env.BOUNDBOX_DIRTY = 0 →
      BKE_groom_eval_geometry env groom = groom) := by
  refine ⟨⟨_, rfl, ldiff_land_self _ _⟩, ?_, ?_, ?_⟩
  · intro h
    simp [BKE_groom_eval_geometry, h]
  · intro bb h hd
    simp [BKE_groom_eval_geometry, h, hd]
  · intro bb h hd
    simp [BKE_groom_eval_geometry, h, hd]

/-! ## Orthonormal frames -/

theorem dot_mul_v3_m3v3 {F : Type} [Field F] (m : M3 F) (hm : IsOrthonormal m) (u w : V3 F) :
    dot_v3v3 (mul_v3_m3v3 m u) (mul_v3_m3v3 m w) = dot_v3v3 u w := by
  have h00 : dot_v3v3 (m 0) (m 0) = 1 := by simpa using hm 0 0
  have h11 : dot_v3v3 (m 1) (m 1) = 1 := by simpa using hm 1 1
  have h22 : dot_v3v3 (m 2) (m 2) = 1 := by simpa using hm 2 2
  have h01 : dot_v3v3 (m 0) (m 1) = 0 := by simpa using hm 0 1
  have h02 : dot_v3v3 (m 0) (m 2) = 0 := by simpa using hm 0 2
  have h12 : dot_v3v3 (m 1) (m 2) = 0 := by simpa using hm 1 2
  simp only [dot_v3v3, mul_v3_m3v3] at *
  linear_combination (u 0 * w 0) * h00 + (u 1 * w 1) * h11 + (u 2 * w 2) * h22
    + (u 0 * w 1 + u 1 * w 0) * h01 + (u 0 * w 2 + u 2 * w 0) * h02
    + (u 1 * w 2 + u 2 * w 1) * h12

theorem unit_m3_orthonormal {F : Type} [Field F] : IsOrthonormal (unit_m3 : M3 F) := by
  intro i j
  fin_cases i <;> fin_cases j <;> simp [dot_v3v3, unit_m3]

theorem step_orthonormal {F : Type} [Field F] (bli : BLIMath F) (hbli : BLIContract bli)
    (prev : M3 F) (hp : IsOrthonormal prev) (co0 co1 : V3 F) :
    IsOrthonormal (groom_eval_curve_step bli prev co0 co1) := by
  intro i j
  simp only [groom_eval_curve_step, hbli.mul_axes]
  rw [dot_mul_v3_m3v3 _ (hbli.rot_orthogonal _ _)]
  exact hp i j

theorem frames_orthonormal {F : Type} [Field F] (bli : BLIMath F) (hbli : BLIContract bli)
    (pos : Nat → V3 F) (T : Nat) : ∀ j, IsOrthonormal (frames_of bli unit_m3 pos T j) := by
  intro j
  induction j with
  | zero =>
    rw [frames_of]
    by_cases h : T = 1
    · rw [if_pos h]; exact unit_m3_orthonormal
    · rw [if_neg h]; exact step_orthonormal bli hbli _ unit_m3_orthonormal _ _
  | succ j ih =>
    rw [frames_of]
    by_cases h : j + 2 < T
    · rw [if_pos h]; exact step_orthonormal bli hbli _ ih _ _
    · rw [if_neg h]; exact step_orthonormal bli hbli _ ih _ _

theorem step_forward_axis {F : Type} [Field F] (bli : BLIMath F) (hbli : BLIContract bli)
    (prev : M3 F) (hp : IsOrthonormal prev) (co0 co1 : V3 F)
    (hu : dot_v3v3 (bli.normalize_v3 (sub_v3_v3v3 co1 co0))
      (bli.normalize_v3 (sub_v3_v3v3 co1 co0)) = 1) :
    groom_eval_curve_step bli prev co0 co1 2 = bli.normalize_v3 (sub_v3_v3v3 co1 co0) := by
  have h22 : dot_v3v3 (prev 2) (prev 2) = 1 := by simpa using hp 2 2
  simp only [groom_eval_curve_step, hbli.mul_axes, hbli.normalize_unit _ h22]
  exact hbli.rot_aligns _ _ h22 hu

/-- The forward axis of the frame of sample `j` is the normalized tangent of
that sample, as soon as this one tangent normalises to a unit vector; the
tangents of the other samples play no part. -/
theorem frames_forward_axis {F : Type} [Field F] (bli : BLIMath F) (hbli : BLIContract bli)
    (pos : Nat → V3 F) (T : Nat) (hT : 2 ≤ T) (j : Nat) (hj : j < T)
    (hu : dot_v3v3 (bli.normalize_v3 (frame_tangent pos T j))
      (bli.normalize_v3 (frame_tangent pos T j)) = 1) :
    frames_of bli unit_m3 pos T j 2 = bli.normalize_v3 (frame_tangent pos T j) := by
  cases j with
  | zero =>
    have h1 : ¬ T = 1 := by omega
    have h := hu
    simp only [frame_tangent, if_true] at h ⊢
    rw [frames_of, if_neg h1]
    exact step_forward_axis bli hbli _ unit_m3_orthonormal _ _ h
  | succ j =>
    have h := hu
    have hne : ¬ (j + 1 = 0) := by omega
    by_cases hlt : j + 2 < T
    · have hlt2 : j + 1 + 1 < T := by omega
      simp only [frame_tangent, if_neg hne, if_pos hlt2, Nat.add_sub_cancel] at h ⊢
      rw [frames_of, if_pos hlt]
      exact step_forward_axis bli hbli _ (frames_orthonormal bli hbli pos T j) _ _ h
    · have hlt2 : ¬ (j + 1 + 1 < T) := by omega
      simp only [frame_tangent, if_neg hne, if_neg hlt2, Nat.add_sub_cancel] at h ⊢
      rw [frames_of, if_neg hlt]
      exact step_forward_axis bli hbli _ (frames_orthonormal bli hbli pos T j) _ _ h

theorem mirror_apply (w u : V3 ℚ) :
    mul_v3_m3v3 (mirror_m3 w) u = fun j => u j - 2 * dot_v3v3 w u / dot_v3v3 w w * w j := by
  funext j
  fin_cases j <;> simp [mul_v3_m3v3, mirror_m3, dot_v3v3] <;> ring

theorem mirror_dot (w u v : V3 ℚ) :
    dot_v3v3 (mul_v3_m3v3 (mirror_m3 w) u) (mul_v3_m3v3 (mirror_m3 w) v) = dot_v3v3 u v := by
  rw [mirror_apply, mirror_apply]
  by_cases hs : dot_v3v3 w w = 0
  · rw [hs]
    simp [dot_v3v3]
  · have hst : dot_v3v3 w w * (dot_v3v3 w w)⁻¹ = 1 := mul_inv_cancel₀ hs
    simp only [div_eq_mul_inv]
    generalize (dot_v3v3 w w)⁻¹ = t at hst ⊢
    simp only [dot_v3v3] at hst ⊢
    linear_combination
      (4 * (w 0 * u 0 + w 1 * u 1 + w 2 * u 2) * (w 0 * v 0 + w 1 * v 1 + w 2 * v 2) * t) * hst

theorem mirror_row (w : V3 ℚ) (i : Fin 3) :
    mirror_m3 w i = mul_v3_m3v3 (mirror_m3 w) (unit_m3 i) := by
  funext j
  fin_cases i <;> simp [mul_v3_m3v3, unit_m3]

theorem mirror_orthonormal (w : V3 ℚ) : IsOrthonormal (mirror_m3 w) := by
  intro i j
  rw [mirror_row w i, mirror_row w j, mirror_dot]
  exact unit_m3_orthonormal i j

theorem mirrorBLI_rot_axes (v1 v2 : V3 ℚ) (i : Fin 3) :
    mirrorBLI.rotation_between_vecs_to_mat3 v1 v2 i
      = mul_v3_m3v3 (mirror_m3 (add_v3_v3 v1 v2)) (mirror_m3 v1 i) := by
  funext j
  simp only [mirrorBLI, mul_v3_m3v3]
  ring

theorem mirrorBLI_rot_apply (v1 v2 u : V3 ℚ) :
    mul_v3_m3v3 (mirrorBLI.rotation_between_vecs_to_mat3 v1 v2) u
      = mul_v3_m3v3 (mirror_m3 (add_v3_v3 v1 v2)) (mul_v3_m3v3 (mirror_m3 v1) u) := by
  funext j
  simp only [mirrorBLI, mul_v3_m3v3]
  ring

/-- The rational instance `mirrorBLI` meets the contract of the helpers. -/
theorem mirrorBLI_contract : BLIContract mirrorBLI where
  mul_axes := fun _ _ _ => rfl
  rot_orthogonal := by
    intro v1 v2 i j
    rw [mirrorBLI_rot_axes, mirrorBLI_rot_axes, mirror_dot]
    exact mirror_orthonormal v1 i j
  rot_aligns := by
    intro v1 v2 h1 h2
    have ha : v1 0 * v1 0 + v1 1 * v1 1 + v1 2 * v1 2 = 1 := h1
    have hb : v2 0 * v2 0 + v2 1 * v2 1 + v2 2 * v2 2 = 1 := h2
    rw [mirrorBLI_rot_apply, mirror_apply v1 v1, h1, mirror_apply]
    have hww : dot_v3v3 (add_v3_v3 v1 v2) (add_v3_v3 v1 v2) = 2 * (1 + dot_v3v3 v1 v2) := by
      simp only [dot_v3v3, add_v3_v3]
      linear_combination ha + hb
    have hwv : dot_v3v3 (add_v3_v3 v1 v2) (fun j => v1 j - 2 * 1 / 1 * v1 j)
        = -(1 + dot_v3v3 v1 v2) := by
      simp only [dot_v3v3, add_v3_v3]
      linear_combination (-1 : ℚ) * ha
    rw [hww, hwv]
    by_cases hc : 1 + dot_v3v3 v1 v2 = 0
    · have hz : (v1 0 + v2 0) * (v1 0 + v2 0) + (v1 1 + v2 1) * (v1 1 + v2 1)
          + (v1 2 + v2 2) * (v1 2 + v2 2) = 0 := by
        have := hww
        simp only [dot_v3v3, add_v3_v3] at this hc
        rw [this]
        linear_combination 2 * hc
      have h0 := mul_self_nonneg (v1 0 + v2 0)
      have h1 := mul_self_nonneg (v1 1 + v2 1)
      have h2 := mul_self_nonneg (v1 2 + v2 2)
      have e0 : v1 0 + v2 0 = 0 := mul_self_eq_zero.mp (by linarith)
      have e1 : v1 1 + v2 1 = 0 := mul_self_eq_zero.mp (by linarith)
      have e2 : v1 2 + v2 2 = 0 := mul_self_eq_zero.mp (by linarith)
      funext j
      simp only [hc, mul_zero, div_zero, zero_mul, sub_zero]
      have hj : v1 j + v2 j = 0 := by
        fin_cases j
        · exact e0
        · exact e1
        · exact e2
      linarith
    · funext j
      simp only [add_v3_v3]
      field_simp
      ring
  normalize_unit := fun _ _ => rfl

/-- C20: given that `rotation_between_vecs_to_mat3` always returns an
orthogonal matrix, the rotation that takes its first unit argument onto its
second (with `mul_m3_m3m3` applying it to every axis and `normalize_v3` keeping
unit vectors, the contract `BLIContract`), for every bundle of the live list
with `N ≥ 1` sections and `R ≥ 1` every cache sample's frame after the
evaluation is orthonormal (the base frame is the identity); and when the cache
has at least two samples, the forward axis `mat[2]` of the frame of every
sample whose own tangent normalises to a unit vector (a tangent that is not
degenerate) is the normalized tangent it was aligned to, whatever the tangents
of the other samples are.  Float arithmetic is taken exact (a field). -/
theorem C20_frames_orthonormal {F : Type} [Field F] (bli : BLIMath F)
    (hbli : BLIContract bli) (fresh : Nat → Nat → GroomCurveCache F) (groom : Groom F)
    (hwf : LiveWellFormed groom) (hR : 1 ≤ groom.curve_res)
    (m : Nat) (b : GroomBundle F) (ctr : Nat → V3 F)
    (hb : (live_bundles groom)[m]? = some b) (hc : HasCenters b ctr)
    (hN : 1 ≤ b.totsections) :
    ∃ groom1 b1 cache, BKE_groom_eval_curve_cache bli fresh groom = some groom1 ∧
      (live_bundles groom1)[m]? = some b1 ∧ b1.curve_cache = some cache ∧
      cache.length = (b.totsections - 1) * groom.curve_res + 1 ∧
      (∀ e ∈ cache, IsOrthonormal e.mat) ∧
      (2 ≤ cache.length →
        ∀ j, j < cache.length →
          dot_v3v3
            (bli.normalize_v3 (frame_tangent (sample_co ctr b.totsections groom.curve_res)
              cache.length j))
            (bli.normalize_v3 (frame_tangent (sample_co ctr b.totsections groom.curve_res)
              cache.length j)) = 1 →
          ∃ e, cache[j]? = some e ∧
            e.co = sample_co ctr b.totsections groom.curve_res j ∧
            e.mat 2 = bli.normalize_v3
              (frame_tangent (sample_co ctr b.totsections groom.curve_res) cache.length j)) := by
  obtain ⟨groom1, h1, _, _, h4⟩ := eval_live_spec bli fresh groom hwf hR
  have h5 := h4 m b hb
  rw [eval_bundle_spec bli groom.curve_res (fresh m) b ctr hc hN hR
    (hwf b (mem_of_getElem? _ m b hb)).2] at h5
  have hl := eval_cache_length bli ctr b.totsections groom.curve_res
  refine ⟨groom1, _, _, h1, h5, rfl, hl, ?_, ?_⟩
  · intro e he
    simp only [eval_cache, List.mem_map] at he
    obtain ⟨j, _, rfl⟩ := he
    exact frames_orthonormal bli hbli _ _ j
  · simp only [hl]
    intro hT j hj hu
    refine ⟨_, eval_cache_getElem? bli ctr b.totsections groom.curve_res j hj, rfl, ?_⟩
    exact frames_forward_axis bli hbli _ _ hT j hj hu

/-- Witness of C20: two sections at `(0,0,0)` and `(1,0,0)` at resolution 1,
with the helpers `mirrorBLI`: the tangent of sample 0 is `(-1,0,0)`, not the
forward axis `(0,0,1)` of the base frame; the frame of sample 0 is orthonormal
and its forward axis has turned onto `(-1,0,0)`. -/
theorem C20_frames_orthonormal_witness :
    BLIContract mirrorBLI ∧
    ∃ groom1 b1 cache e,
      BKE_groom_eval_curve_cache mirrorBLI (fun _ _ => sample_at 9 9 9)
        (groom_of 1 [bundle_of [section_at 0 0 0, section_at 1 0 0]]) = some groom1 ∧
      (live_bundles groom1)[0]? = some b1 ∧ b1.curve_cache = some cache ∧
      cache.length = 2 ∧ cache[0]? = some e ∧ IsOrthonormal e.mat ∧
      e.mat 2 = vec3 (-1) 0 0 := by
  refine ⟨mirrorBLI_contract, ?_⟩
  have hc : HasCenters (bundle_of [section_at 0 0 0, section_at 1 0 0])
      (fun i => vec3 (i : ℚ) 0 0) := by
    refine ⟨rfl, ?_⟩
    intro i hi
    have hi2 : i < 2 := hi
    have : i = 0 ∨ i = 1 := by omega
    rcases this with h | h <;> subst h <;> simp [bundle_of, section_at]
  obtain ⟨groom1, b1, cache, h1, h2, h3, h4, h5, h6⟩ := C20_frames_orthonormal mirrorBLI
    mirrorBLI_contract (fun _ _ => sample_at 9 9 9)
    (groom_of 1 [bundle_of [section_at 0 0 0, section_at 1 0 0]])
    (by
      intro b hb
      simp [live_bundles, groom_of] at hb
      subst hb
      exact ⟨rfl, by decide⟩)
    (by decide) 0 (bundle_of [section_at 0 0 0, section_at 1 0 0])
    (fun i => vec3 (i : ℚ) 0 0) rfl hc (by decide)
  have hlen : cache.length = 2 := h4
  have hpos0 : sample_co (fun i => vec3 (i : ℚ) 0 0) 2 1 0 = vec3 0 0 0 := by
    funext k
    simp [sample_co, linear_state]
  have hpos1 : sample_co (fun i => vec3 (i : ℚ) 0 0) 2 1 1 = vec3 1 0 0 := by
    funext k
    simp [sample_co, linear_state, add_v3_v3, mul_v3_fl, sub_v3_v3v3, vec3]
  have htan : frame_tangent (sample_co (fun i => vec3 (i : ℚ) 0 0) 2 1) 2 0
      = vec3 (-1) 0 0 := by
    simp only [frame_tangent, if_true]
    simp only [hpos0, hpos1]
    funext k
    fin_cases k <;> simp [sub_v3_v3v3, vec3]
  rw [hlen] at h6
  obtain ⟨e, e1, _, e3⟩ := h6 (by decide) 0 (by decide)
    (by
      show dot_v3v3
        (frame_tangent (sample_co (fun i => vec3 (i : ℚ) 0 0) 2 1) 2 0)
        (frame_tangent (sample_co (fun i => vec3 (i : ℚ) 0 0) 2 1) 2 0) = 1
      rw [htan]
      simp [dot_v3v3, vec3])
  refine ⟨groom1, b1, cache, e, h1, h2, h3, hlen, e1, ?_, ?_⟩
  · exact h5 e (mem_of_getElem? _ 0 e e1)
  · exact e3.trans htan

/-! ## Index safety of the cubic sampler -/

theorem forward_diff_loop_overrun {F : Type} [Add F] (q3 : F) (k : Fin 3) (n : Nat) :
    ∀ (q0 q1 q2 : F) (p : Nat) (cache : List (GroomCurveCache F)),
      p ≤ cache.length → cache.length < p + n →
      groom_forward_diff_cubic_loop q3 k n q0 q1 q2 p cache = none := by
  induction n with
  | zero =>
    intro q0 q1 q2 p cache h1 h2
    omega
  | succ n ih =>
    intro q0 q1 q2 p cache h1 h2
    unfold groom_forward_diff_cubic_loop
    by_cases hp : p < cache.length
    · obtain ⟨cache1, hw, hl, _⟩ := writeCo_spec cache p k q0 hp
      rw [hw]
      exact ih _ _ _ (p + 1) cache1 (by omega) (by omega)
    · have hnone : cache[p]? = none := List.getElem?_eq_none (by omega)
      simp [writeCo, hnone]

theorem section_cubic_overrun {F : Type} [One F] [Add F] [Sub F] [Mul F] [Div F] [NatCast F]
    (bundle : GroomBundle F) (ctr : Nat → V3 F) (hc : HasCenters bundle ctr)
    (hN : 3 ≤ bundle.totsections) (i R : Nat) (hi : i + 2 ≤ bundle.totsections)
    (cache : List (GroomCurveCache F)) (hcache : bundle.curve_cache = some cache)
    (h1 : R * i ≤ cache.length) (h2 : cache.length ≤ R * i + R) :
    groom_eval_curve_cache_section_cubic bundle i R = none := by
  have h0 : groom_eval_curve_cache_section_cubic_axis bundle.sections bundle.totsections i R
      (R * i) 0 cache = none := by
    unfold groom_eval_curve_cache_section_cubic_axis
    rw [cubic_coeffs_eq bundle.sections ctr bundle.totsections hc.2 hN i hi 0]
    simp only [Option.bind_eq_bind, Option.some_bind]
    unfold groom_forward_diff_cubic
    exact forward_diff_loop_overrun _ _ _ _ _ _ _ _ h1 (by omega)
  unfold groom_eval_curve_cache_section_cubic
  by_cases hfit : R * i ≤ INT_MAX
  · rw [int_value_eq _ hfit, hcache]
    simp only [Option.bind_eq_bind, Option.some_bind, h0, Option.none_bind]
  · rw [int_value_overflow _ (by omega)]
    simp only [Option.bind_eq_bind, Option.none_bind]


/-- C21 (amended): for every bundle with `N ≥ 3` sections (a section array of
exactly `N` sections), every `R ≥ 1` such that `(N - 1) R + 1` is representable
as a C `int`, and a cache of `totcache = (N - 1) R + 1` samples, the cubic
evaluation stays inside both arrays.  Reads and writes outside an array
make the embedded code fail, so this reads: the pointers to section `i - 1` for
`i = 0` and to section `i + 2` for `i = N - 2` point outside the section array
(a read there fails), yet for every segment `i` (`0 ≤ i ≤ N - 2`) the tangents
are computed (each center that is read has an index in `[0, N)`), the segment
is sampled with success, its writes stay in `[R i, R i + R]`, a part of
`[0, (N - 1) R]`, and every other slot is left as it was; the whole loop over
the segments succeeds; and the final write of the last segment lands exactly
on index `totcache - 1`: `R (N - 2) + R = totcache - 1`, and on a cache one
sample shorter the last segment fails.  Holds for any float arithmetic. -/
theorem C21_cubic_index_safety {F : Type} [One F] [Add F] [Sub F] [Mul F] [Div F] [NatCast F]
    (bundle : GroomBundle F) (hlen : bundle.sections.length = bundle.totsections)
    (hN : 3 ≤ bundle.totsections) (R : Nat) (hR : 1 ≤ R)
    (htot : bundle.totcache = (bundle.totsections - 1) * R + 1)
    (hfit : (bundle.totsections - 1) * R + 1 ≤ INT_MAX)
    (cache : List (GroomCurveCache F)) (hcache : bundle.curve_cache = some cache)
    (hcl : cache.length = bundle.totcache) :
    (∀ k : Fin 3, readCenter bundle.sections (((0 : Nat) : Int) - 1) k = none ∧
      readCenter bundle.sections (((bundle.totsections - 2 : Nat) : Int) + 2) k = none) ∧
    (∀ i, i + 2 ≤ bundle.totsections →
      (∀ k : Fin 3, ∃ n1 n2, cubic_tangents bundle.sections bundle.totsections i k
        = some (n1, n2)) ∧
      R * i + R ≤ (bundle.totsections - 1) * R ∧
      ∃ cache1, groom_eval_curve_cache_section_cubic bundle i R
          = some { bundle with curve_cache := some cache1 } ∧
        cache1.length = cache.length ∧
        ∀ j : Nat, ¬ (R * i ≤ j ∧ j ≤ R * i + R) → cache1[j]? = cache[j]?) ∧
    (∃ cache1, groom_eval_curve_cache_cubic_loop R (bundle.totsections - 1) 0 bundle
        = some { bundle with curve_cache := some cache1 } ∧
      cache1.length = cache.length) ∧
    R * (bundle.totsections - 2) + R = bundle.totcache - 1 ∧
    ∀ short : List (GroomCurveCache F), short.length = bundle.totcache - 1 →
      groom_eval_curve_cache_section_cubic { bundle with curve_cache := some short }
        (bundle.totsections - 2) R = none := by
  obtain ⟨ctr, hc⟩ := exists_centers bundle hlen (by omega)
  have hlast : R * (bundle.totsections - 2) + R = (bundle.totsections - 1) * R := by
    have e : bundle.totsections - 1 = (bundle.totsections - 2) + 1 := by omega
    rw [e, Nat.add_mul, Nat.one_mul, Nat.mul_comm]
  refine ⟨?_, ?_, ?_, by omega, ?_⟩
  · intro k
    refine ⟨by simp [readCenter], ?_⟩
    have e : (((bundle.totsections - 2 : Nat) : Int) + 2).toNat = bundle.sections.length := by
      omega
    have hnone : bundle.sections[bundle.sections.length]? = none :=
      List.getElem?_eq_none (Nat.le_refl _)
    have hpos : (0 : Int) ≤ ((bundle.totsections - 2 : Nat) : Int) + 2 := by omega
    rw [readCenter, if_pos hpos, e, hnone]
    rfl
  · intro i hi
    have hle := mul_succ_le R i bundle.totsections hi
    obtain ⟨cache1, h1, h2, h3⟩ :=
      section_cubic_spec bundle ctr hc hN i R hi cache hcache (by omega) (by omega)
    refine ⟨?_, hle, cache1, h1, h2, ?_⟩
    · intro k
      exact ⟨_, _, cubic_tangents_eq bundle.sections ctr bundle.totsections hc.2 hN i hi k⟩
    · intro j hj
      rw [h3 j]
      cases cache[j]? with
      | none => rfl
      | some e => simp only [Option.map_some', if_neg hj]
  · obtain ⟨cache1, h1, h2, _⟩ :=
      cubic_loop_spec ctr bundle.totsections R hN hR (bundle.totsections - 1) 0 bundle cache hc
        rfl (by omega) hcache (by rw [Nat.mul_comm]; omega) (by rw [Nat.mul_comm]; omega)
    exact ⟨cache1, h1, h2⟩
  · intro short hs
    exact section_cubic_overrun { bundle with curve_cache := some short } ctr hc hN
      (bundle.totsections - 2) R
      (show bundle.totsections - 2 + 2 ≤ bundle.totsections by omega) short rfl
      (by rw [hs]; omega) (by rw [hs]; omega)

/-- Witness of C21: three sections at resolution 2 and a cache of 5 samples;
the last segment, segment 1, is sampled with success and its final write is at
index `2 * 1 + 2 = 4 = totcache - 1`. -/
theorem C21_cubic_index_safety_witness :
    readCenter [section_at 0 0 0, section_at 1 0 0, section_at 1 1 0] (-1) 0 = none ∧
    readCenter [section_at 0 0 0, section_at 1 0 0, section_at 1 1 0] 3 0 = none ∧
    ∃ cache1,
      groom_eval_curve_cache_section_cubic
        { bundle_of [section_at 0 0 0, section_at 1 0 0, section_at 1 1 0] with
          totcache := 5, curve_cache := some (List.replicate 5 (sample_at 9 9 9)) } 1 2
        = some { bundle_of [section_at 0 0 0, section_at 1 0 0, section_at 1 1 0] with
          totcache := 5, curve_cache := some cache1 } ∧
      cache1.length = 5 := by
  obtain ⟨h1, h2, _, _, _⟩ := C21_cubic_index_safety
    { bundle_of [section_at 0 0 0, section_at 1 0 0, section_at 1 1 0] with
      totcache := 5, curve_cache := some (List.replicate 5 (sample_at 9 9 9)) }
    rfl (by decide) 2 (by decide) rfl (by decide) (List.replicate 5 (sample_at 9 9 9)) rfl rfl
  obtain ⟨_, _, cache1, h3, h4, _⟩ := h2 1 (by decide)
  exact ⟨(h1 0).1, (h1 0).2, cache1, h3, h4⟩

/-- C21 as stated fails: four sections at resolution `2^30`; the offset
`curve_res * isection` of segment 2 is `2^31`, not a C `int`, so the sampling of
that segment is undefined whatever cache the bundle has, and so is the
evaluation of the bundle, whose cache size `3 * 2^30 + 1` is not a C `int`
either: no cache of `(N - 1) R + 1` samples exists for the writes to stay in. -/
theorem C21_counterexample_int_overflow :
    (∀ cache : List (GroomCurveCache ℚ),
      groom_eval_curve_cache_section_cubic
        { bundle_of [section_at 0 0 0, section_at 1 0 0, section_at 2 0 0, section_at 3 0 0] with
          curve_cache := some cache } 2 1073741824 = none) ∧
    groom_eval_bundle unitBLI 1073741824 (fun _ => sample_at 9 9 9)
      (bundle_of [section_at 0 0 0, section_at 1 0 0, section_at 2 0 0, section_at 3 0 0])
      = none := by
  refine ⟨?_, eval_bundle_overflow _ _ _ _ (by decide) (by decide)⟩
  intro cache
  have h : int_value (1073741824 * 2) = none := int_value_overflow _ (by decide)
  simp only [groom_eval_curve_cache_section_cubic, h, Option.bind_eq_bind, Option.none_bind]

/-! ## Tangents at the junctions -/

theorem line_tangents {F : Type} [Field F] [CharZero F] (c0 v : V3 F) (N i : Nat) (k : Fin 3) :
    tangents_of (fun (i : Nat) (k : Fin 3) => c0 k + (i : F) * v k) N i k = (v k, v k) := by
  unfold tangents_of
  by_cases h0 : i = 0
  · subst h0
    rw [if_pos rfl]
    refine Prod.ext ?_ ?_
    · simp only [Nat.cast_add, Nat.cast_zero, Nat.cast_one, Nat.cast_ofNat]
      ring
    · simp only [Nat.cast_add, Nat.cast_zero, Nat.cast_one, Nat.cast_ofNat]
      ring
  · obtain ⟨n, rfl⟩ : ∃ n, i = n + 1 := ⟨i - 1, by omega⟩
    have e : n + 1 - 1 = n := by omega
    rw [if_neg h0, e]
    by_cases hl : ((n + 1 : Nat) : Int) = (N : Int) - 2
    · rw [if_pos hl]
      refine Prod.ext ?_ ?_
      · simp only [Nat.cast_add, Nat.cast_one, Nat.cast_ofNat]
        ring
      · simp only [Nat.cast_add, Nat.cast_one, Nat.cast_ofNat]
        ring
    · rw [if_neg hl]
      refine Prod.ext ?_ ?_
      · simp only [Nat.cast_add, Nat.cast_one, Nat.cast_ofNat]
        ring
      · simp only [Nat.cast_add, Nat.cast_one, Nat.cast_ofNat]
        ring

theorem line_coeffs {F : Type} [Field F] [CharZero F] (c0 v : V3 F) (N i : Nat) (k : Fin 3) :
    coeffs_of (fun (i : Nat) (k : Fin 3) => c0 k + (i : F) * v k) N i k
      = (0, 0, v k, c0 k + (i : F) * v k) := by
  unfold coeffs_of
  rw [line_tangents]
  unfold hermite_coeffs
  refine Prod.ext ?_ (Prod.ext ?_ (Prod.ext rfl rfl))
  · simp only [Nat.cast_add, Nat.cast_one]
    ring
  · simp only [Nat.cast_add, Nat.cast_one]
    ring

theorem line_cubic_co {F : Type} [Field F] [CharZero F] (c0 v : V3 F) (N R j : Nat)
    (hR : 1 ≤ R) :
    cubic_co (fun (i : Nat) (k : Fin 3) => c0 k + (i : F) * v k) N R j
      = fun k => c0 k + ((j : F) / (R : F)) * v k := by
  have hne : (R : F) ≠ 0 := by
    have : R ≠ 0 := by omega
    exact_mod_cast this
  have hs : R * min (j / R) (N - 2) ≤ j :=
    le_trans (Nat.mul_le_mul_left R (Nat.min_le_left _ _)) (Nat.mul_div_le j R)
  funext k
  simp only [cubic_co, segment_co, line_coeffs, fd_value_eq]
  rw [Nat.cast_sub hs, Nat.cast_mul]
  field_simp
  ring

/-- C23 (amended): in exact arithmetic (a field of characteristic zero in place
of the C `float`), for every bundle with `N ≥ 3` sections of the live list of a
well-formed asset (cache sizes representable as C `int`) whose centers
are in arithmetic progression, `center[i] = c0 + i v`, and every `R ≥ 1`, the
cubic sampler reproduces the straight line: on every axis the coefficients of
every segment `i` are `a = 0`, `b = 0` (with `c = v` and `d = center[i]`), and
after `BKE_groom_eval_curve_cache` the cache of the bundle has `(N - 1) R + 1`
samples, sample `m` (`0 ≤ m ≤ (N - 1) R`) standing at `c0 + (m / R) v`. -/
theorem C23_linear_precision {F : Type} [Field F] [CharZero F]
    (bli : BLIMath F) (fresh : Nat → Nat → GroomCurveCache F) (groom : Groom F)
    (hwf : LiveWellFormed groom) (hR : 1 ≤ groom.curve_res)
    (n : Nat) (b : GroomBundle F) (hb : (live_bundles groom)[n]? = some b)
    (hN : 3 ≤ b.totsections) (c0 v : V3 F)
    (hc : HasCenters b (fun (i : Nat) (k : Fin 3) => c0 k + (i : F) * v k)) :
    (∀ i, i + 2 ≤ b.totsections → ∀ k : Fin 3,
      cubic_coeffs b.sections b.totsections i k = some (0, 0, v k, c0 k + (i : F) * v k)) ∧
    ∃ groom1 b1 cache, BKE_groom_eval_curve_cache bli fresh groom = some groom1 ∧
      (live_bundles groom1)[n]? = some b1 ∧ b1.curve_cache = some cache ∧
      cache.length = (b.totsections - 1) * groom.curve_res + 1 ∧
      ∀ m : Nat, m ≤ (b.totsections - 1) * groom.curve_res →
        (cache[m]?).map GroomCurveCache.co
          = some (fun k => c0 k + ((m : F) / (groom.curve_res : F)) * v k) := by
  refine ⟨?_, ?_⟩
  · intro i hi k
    rw [cubic_coeffs_eq b.sections _ b.totsections hc.2 hN i hi k, line_coeffs]
  · obtain ⟨groom1, h1, _, _, h5⟩ := eval_live_spec bli fresh groom hwf hR
    have h6 := h5 n b hb
    rw [eval_bundle_spec bli groom.curve_res (fresh n) b _ hc (by omega) hR
      (hwf b (mem_of_getElem? _ n b hb)).2] at h6
    refine ⟨groom1, _, _, h1, h6, rfl, eval_cache_length _ _ _ _, ?_⟩
    intro m hm
    have h1n : ¬ b.totsections = 1 := by omega
    have h2n : ¬ b.totsections = 2 := by omega
    rw [eval_cache_getElem? bli _ b.totsections groom.curve_res m (by omega)]
    simp only [Option.map_some', sample_co, if_neg h1n, if_neg h2n]
    rw [line_cubic_co c0 v b.totsections groom.curve_res m hR]

/-- Witness of C23: three sections at `(1,2,3)`, `(2,1,5)`, `(3,0,7)`, that is
`c0 = (1,2,3)` and `v = (1,-1,2)`, at resolution 2: sample 3 stands at
`c0 + (3/2) v = (5/2, 1/2, 6)`. -/
theorem C23_linear_precision_witness :
    cubic_coeffs [section_at 1 2 3, section_at 2 1 5, section_at 3 0 7] 3 1 2
      = some (0, 0, 2, 5) ∧
    ∃ groom1 b1 cache,
      BKE_groom_eval_curve_cache unitBLI (fun _ _ => sample_at 9 9 9)
        (groom_of 2 [bundle_of [section_at 1 2 3, section_at 2 1 5, section_at 3 0 7]])
        = some groom1 ∧
      (live_bundles groom1)[0]? = some b1 ∧ b1.curve_cache = some cache ∧
      cache.length = 5 ∧
      (cache[3]?).map GroomCurveCache.co = some (vec3 (5 / 2) (1 / 2) 6) := by
  have hwf : LiveWellFormed (groom_of 2 [bundle_of [section_at 1 2 3, section_at 2 1 5,
      section_at 3 0 7]]) := by
    intro b hb
    simp [live_bundles, groom_of] at hb
    subst hb
    exact ⟨rfl, by decide⟩
  have hc : HasCenters (bundle_of [section_at 1 2 3, section_at 2 1 5, section_at 3 0 7])
      (fun (i : Nat) (k : Fin 3) => vec3 1 2 3 k + (i : ℚ) * vec3 1 (-1) 2 k) := by
    refine ⟨rfl, ?_⟩
    intro i hi
    have hi3 : i < 3 := hi
    have : i = 0 ∨ i = 1 ∨ i = 2 := by omega
    rcases this with h | h | h <;> subst h <;> simp [bundle_of, section_at] <;>
      (funext k; fin_cases k <;> norm_num [vec3])
  obtain ⟨h0, groom1, b1, cache, h1, h2, h3, h4, h5⟩ :=
    C23_linear_precision unitBLI (fun _ _ => sample_at 9 9 9) _ hwf (by decide) 0
      (bundle_of [section_at 1 2 3, section_at 2 1 5, section_at 3 0 7]) rfl
      (by decide) (vec3 1 2 3) (vec3 1 (-1) 2) hc
  refine ⟨?_, groom1, b1, cache, h1, h2, h3, h4, ?_⟩
  · refine (h0 1 (by decide) 2).trans ?_
    norm_num [vec3]
  · rw [h5 3 (by decide)]
    congr 1
    funext k
    fin_cases k <;> norm_num [vec3, groom_of]

set_option maxRecDepth 100000 in
/-- C23 as stated fails in the binary32 arithmetic of the code: for the
progression `c0 = 0`, `v = (0.1f, 0, 0)` the quadratic coefficient `b` of
segment 1 is not 0; and for `c0 = 0`, `v = (1, 0, 0)` at resolution 12 the
sampling of the bundle leaves sample 24 at `x = 2 + 2^-21 = 2.0000005`, not at
`c0 + (24 / 12) v = 2`. -/
theorem C23_counterexample_binary32 :
    (∃ a b c d : Binary32,
      cubic_coeffs (line_sections32 (vec32 0 0 0) (vec32 tenth32 0 0)) 3 1 0
        = some (a, b, c, d) ∧ b ≠ 0) ∧
    ∃ cache e,
      groom_eval_bundle_sample 12 (bundle32 (line_sections32 (vec32 0 0 0) (vec32 1 0 0)) 12)
        = some { bundle32 (line_sections32 (vec32 0 0 0) (vec32 1 0 0)) 12 with
            curve_cache := some cache } ∧
      cache[24]? = some e ∧
      e.co 0 = Binary32.mk (2 ^ 150 + 2 ^ 128) ∧
      e.co 0 ≠ vec32 0 0 0 0 + ((24 : Binary32) / (12 : Binary32)) * vec32 1 0 0 0 := by
  refine ⟨?_, ?_⟩
  · have hco : cubic_coeffs (line_sections32 (vec32 0 0 0) (vec32 tenth32 0 0)) 3 1 0
        = some (coeffs_of (progression32 (vec32 0 0 0) (vec32 tenth32 0 0)) 3 1 0) :=
      cubic_coeffs_eq _ _ 3 (line_hasCenters32 _ _ 0).2 (by decide) 1 (by decide) 0
    refine ⟨_, _, _, _, hco, ?_⟩
    decide
  · obtain ⟨cs, h1, _, h3⟩ := sample_spec 12
      (bundle32 (line_sections32 (vec32 0 0 0) (vec32 1 0 0)) 12)
      (progression32 (vec32 0 0 0) (vec32 1 0 0)) (line_hasCenters32 _ _ 12) (by decide)
      (by decide) _ rfl (by simp [bundle32]) (by decide)
    obtain ⟨e, he1, he0⟩ := getElem?_of_map_eq _ _ _ _ (h3 24 (by decide))
    have he2 : e.co = sample_co (progression32 (vec32 0 0 0) (vec32 1 0 0)) 3 12 24 := he0
    have hv : sample_co (progression32 (vec32 0 0 0) (vec32 1 0 0)) 3 12 24 0
        = Binary32.mk (2 ^ 150 + 2 ^ 128) := by decide
    refine ⟨cs, e, h1, he1, ?_, ?_⟩
    · rw [he2]
      exact hv
    · rw [he2, hv]
      decide

end Blender
